import Mathlib

/-!
# Recording muxer `format/nvr/muxer.go`

A shallow embedding of the segment-rotation and indexed-storage engine of
`format/nvr/muxer.go`, and theorems about it.

* Go strings are lists of characters (`GoString`).
* `time.Time` values are UTC instants, counted in nanoseconds since the Unix
  epoch (`GoTime`); `time.Duration` and the other `int64` values are integers,
  wrapped to 64 bits (`wrap64`) wherever the source does arithmetic on them.
* The outside world (clock, file system, container muxer) is explicit: the
  environment `Env` fixes what every clock reading and every fallible external
  call returns, the session record carries the number of readings and calls
  made so far, the files it has touched, and the chronological list of external
  calls (`Event`).
-/

namespace Nvr

/-! ## Go strings -/

/-- A Go string, as its sequence of characters. -/
abbrev GoString := List Char

/-- The scanning loop of `strings.Replace(s, old, new, -1)` for a non-empty
`old`: the second argument counts the characters of a match that are still to
be skipped. -/
def replaceScan (old new : GoString) : GoString → Nat → GoString
  | [], _ => []
  | _ :: cs, k + 1 => replaceScan old new cs k
  | c :: cs, 0 =>
    if old.isPrefixOf (c :: cs) then new ++ replaceScan old new cs (old.length - 1)
    else c :: replaceScan old new cs 0

/-- The Go library call `strings.Replace(s, old, new, -1)`: every
non-overlapping occurrence of `old`, scanning from the left, is replaced by
`new`; an empty `old` matches before every character and at the end. -/
def strReplace (s old new : GoString) : GoString :=
  if old = [] then new ++ s.flatMap (fun c => c :: new) else replaceScan old new s 0

/-- Whether `t` occurs in `s` as a contiguous substring. -/
def occursIn (t : GoString) : GoString → Bool
  | [] => t.isPrefixOf []
  | c :: cs => t.isPrefixOf (c :: cs) || occursIn t cs

/-- Decimal rendering of an integer, as `fmt.Sprintf("%d", n)` gives it. -/
def fmtInt (n : Int) : GoString :=
  if n < 0 then '-' :: Nat.toDigits 10 n.natAbs else Nat.toDigits 10 n.toNat

/-- Decimal rendering padded with zeros to at least `w` digits, the way the
`time` package renders the components of a layout. -/
def padInt (w : Nat) (n : Int) : GoString :=
  let ds := Nat.toDigits 10 n.natAbs
  let body := List.replicate (w - ds.length) '0' ++ ds
  if n < 0 then '-' :: body else body

/-! ## Machine integers, time -/

/-- Two's-complement wrap of an integer to the range of `int64`. -/
def wrap64 (x : Int) : Int := (x + 2 ^ 63) % 2 ^ 64 - 2 ^ 63

/-- One second of `time.Duration`, in nanoseconds. -/
def Second : Int := 1000000000

/-- The method `Duration.Milliseconds`: integer division truncating towards zero. -/
def durMilliseconds (d : Int) : Int := d.tdiv 1000000

/-- A `time.Time` in UTC: nanoseconds since 1970-01-01T00:00:00Z. -/
structure GoTime where
  ns : Int
deriving DecidableEq, Repr

namespace GoTime

/-- The zero `time.Time`, January 1 of year 1, 00:00:00 UTC. -/
def zero : GoTime := ⟨-62135596800 * 1000000000⟩

/-- The method `Time.Unix`: seconds since the epoch. -/
def unix (t : GoTime) : Int := t.ns / 1000000000

/-- The method `Time.UnixMilli`. -/
def unixMilli (t : GoTime) : Int := t.ns / 1000000

/-- The method `Time.UnixNano`, an `int64`. -/
def unixNano (t : GoTime) : Int := wrap64 t.ns

/-- The method `Time.Nanosecond`: the nanosecond within the second. -/
def nanosecond (t : GoTime) : Int := t.ns % 1000000000

/-- Seconds into the UTC day. -/
def secOfDay (t : GoTime) : Int := t.unix % 86400

/-- The method `Time.Hour`, in 0..23. -/
def hour (t : GoTime) : Int := t.secOfDay / 3600

/-- The method `Time.Minute`, in 0..59. -/
def minute (t : GoTime) : Int := t.secOfDay % 3600 / 60

/-- The method `Time.Second`, in 0..59. -/
def second (t : GoTime) : Int := t.secOfDay % 60

/-- Days since the epoch. -/
def days (t : GoTime) : Int := t.unix / 86400

/-- Day of the 400-year era that starts on a March 1. -/
def dayOfEra (t : GoTime) : Int := (t.days + 719468) % 146097

/-- Year of the era, in 0..399. -/
def yearOfEra (t : GoTime) : Int :=
  let doe := t.dayOfEra
  (doe - doe / 1460 + doe / 36524 - doe / 146096) / 365

/-- Day of the year that starts on March 1, in 0..365. -/
def dayOfYear (t : GoTime) : Int :=
  let yoe := t.yearOfEra
  t.dayOfEra - (365 * yoe + yoe / 4 - yoe / 100)

/-- Month counted from March, in 0..11. -/
def monthFromMarch (t : GoTime) : Int := (5 * t.dayOfYear + 2) / 153

/-- The method `Time.Day`, in 1..31. -/
def day (t : GoTime) : Int := t.dayOfYear - (153 * t.monthFromMarch + 2) / 5 + 1

/-- The method `Time.Month`, in 1..12. -/
def month (t : GoTime) : Int :=
  if t.monthFromMarch < 10 then t.monthFromMarch + 3 else t.monthFromMarch - 9

/-- The method `Time.Year`. -/
def year (t : GoTime) : Int :=
  t.yearOfEra + (t.days + 719468) / 146097 * 400 + (if t.month ≤ 2 then 1 else 0)

/-- The call `t.Format("2006/01/02")` on a UTC time. -/
def formatDate (t : GoTime) : GoString :=
  padInt 4 t.year ++ '/' :: padInt 2 t.month ++ '/' :: padInt 2 t.day

/-- The call `t.Format("2006-01-02T15:04:05-0700")` on a UTC time. -/
def formatStamp (t : GoTime) : GoString :=
  padInt 4 t.year ++ '-' :: padInt 2 t.month ++ '-' :: padInt 2 t.day ++ 'T' ::
    padInt 2 t.hour ++ ':' :: padInt 2 t.minute ++ ':' :: padInt 2 t.second ++ "+0000".toList

end GoTime

/-! ## Data model -/

/-- An `av.CodecData` descriptor; the recorder only stores and forwards it. -/
abbrev CodecData := List Nat

/-- An `av.Packet`. -/
structure Packet where
  IsKeyFrame : Bool
  Idx : Int
  CompositionTime : Int
  Time : Int
  Duration : Int
  Data : List Nat
deriving DecidableEq, Repr

/-- The buffered group, `type Gof struct`. -/
structure Gof where
  Streams : List CodecData
  Packet : List Packet
deriving DecidableEq, Repr

/-- The index record, `type Data struct`. -/
structure Data where
  Time : Int
  Start : Int
  Dur : Int
deriving DecidableEq, Repr

/-- The magic marker `MIME`, as byte values. -/
def MIME : List Nat := [11, 22, 111, 222, 11, 22, 111, 222]

/-- The placeholder table `listTag`, entry by entry as in the source. -/
def listTag : List GoString :=
  ["{server_id}", "{hostname_short}", "{hostname_long}", "{stream_name}", "{channel_name}",
   "{stream_id}", "{channel_id}", "{start_year}", "{start_month}", "{start_day}",
   "{start_minute}", "{start_second}", "{start_millisecond}", "{start_unix_second}",
   "{start_unix_millisecond}", "{start_time}", "{start_pts}", "{end_year}", "{end_month}",
   "{end_day}", "{end_minute}", "{end_second}", "{end_millisecond}", "{start_unix_second}",
   "{start_unix_millisecond}", "{end_time}", "{end_pts}", "{duration_second}",
   "{duration_millisecond}"].map String.toList

/-- The format constant `MP4`. -/
def MP4 : GoString := "mp4".toList

/-- The format constant `NVR`. -/
def NVR : GoString := "nvr".toList

/-- An `*os.File` that is not nil: the name it was opened with and whether
`Close` has been called on it. -/
structure File where
  name : GoString
  closed : Bool
deriving DecidableEq, Repr

/-- An `*mp4.Muxer` that is not nil: a serial number, one per `mp4.NewMuxer`
call, and the name of the file it writes to. -/
structure Mp4Muxer where
  id : Nat
  file : GoString
deriving DecidableEq, Repr

/-- The error values the recorder can return, by the call that produced them. -/
inductive Err
  | mkdir | openFile | create | rename | close | seek | encode | write | mux
  | closed
  | invalid
deriving DecidableEq, Repr

/-- One call crossing the boundary of the recorder, with its outcome
(`ok = false`: the call returned an error), or the entry into one of the two
functions that start a flush or a segment. -/
inductive Event
  | mkdirAll (path : GoString) (ok : Bool)
  | openFile (path : GoString) (ok : Bool)
  | create (path : GoString) (ok : Bool)
  | rename (src dst : GoString) (ok : Bool)
  | close (name : GoString) (ok : Bool)
  | seek (name : GoString) (off : Int) (ok : Bool)
  | encode (name : GoString) (g : Gof) (ok : Bool)
  | write (name : GoString) (bytes : List Nat) (ok : Bool)
  | muxHeader (id : Nat) (streams : List CodecData) (ok : Bool)
  | muxPacket (id : Nat) (pkt : Packet) (ok : Bool)
  | muxTrailer (id : Nat) (ok : Bool)
  | enterWriteGop (g : Gof)
  | enterOpenMP4
deriving DecidableEq, Repr

/-- A file system, as far as the recorder sees it: the content of every
existing file, by name. The bytes a container muxer writes are not tracked. -/
abbrev Files := GoString → Option (List Nat)

/-- The file system with the content of `name` replaced. -/
def Files.set (fs : Files) (name : GoString) (c : Option (List Nat)) : Files :=
  fun n => if n = name then c else fs n

/-- The size of a file, zero when it does not exist. -/
def Files.size (fs : Files) (name : GoString) : Nat := ((fs name).getD []).length

/-- Everything the recorder takes from outside itself.
* `now k` is what the `k`-th call of `time.Now().UTC()` returns;
* `ioOk k` tells whether the `k`-th fallible external call (file system or
  container muxer) succeeds;
* `hostname`, `dir`, `gob` and `fmtSeconds` stand for `os.Hostname`,
  `filepath.Dir`, the bytes of a `gob` encoding, and
  `fmt.Sprintf("%f", d.Seconds())`;
* `files` is the file system the session starts with. -/
structure Env where
  now : Nat → GoTime
  ioOk : Nat → Bool
  hostname : GoString
  dir : GoString → GoString
  gob : Gof → List Nat
  fmtSeconds : Int → GoString
  files : Files

/-- The session, `type Muxer struct`, followed by the state of the world
around it: `clock` and `ops` count the clock readings and the fallible
external calls made so far, `nextMux` numbers the container muxers, `fs` is the
file system and `trace` the external calls so far, oldest first. -/
structure Muxer where
  muxer : Option Mp4Muxer
  format : GoString
  limit : Int
  d : Option File
  m : Option File
  dur : Int
  h : Int
  gof : Gof
  patch : GoString
  start : GoTime
  end_ : GoTime
  pstart : Int
  pend : Int
  started : Bool
  serverID : GoString
  streamName : GoString
  channelName : GoString
  streamID : GoString
  channelID : GoString
  hostname : GoString
  clock : Nat
  ops : Nat
  nextMux : Nat
  fs : Files
  trace : List Event

/-- How a call of `WritePacket` ends: it returns, with an error or `nil`, or
the Go runtime panics. -/
inductive Outcome
  | ret (s : Muxer) (err : Option Err)
  | panic (s : Muxer)

/-- The session in which a call ended. -/
def Outcome.state : Outcome → Muxer
  | .ret s _ => s
  | .panic s => s

/-- The little-endian encoding of an `int64`, eight byte values. -/
def le64 (x : Int) : List Nat :=
  (List.range 8).map (fun i => (x % 2 ^ 64).toNat / 256 ^ i % 256)

namespace Muxer

/-- Record an external call. -/
def emit (s : Muxer) (e : Event) : Muxer := { s with trace := s.trace ++ [e] }

/-- One call of `time.Now().UTC()`. -/
def readClock (env : Env) (s : Muxer) : GoTime × Muxer :=
  (env.now s.clock, { s with clock := s.clock + 1 })

/-- The outcome of the next fallible external call. -/
def call (env : Env) (s : Muxer) : Bool × Muxer :=
  (env.ioOk s.ops, { s with ops := s.ops + 1 })

end Muxer

/-! ## The path templater -/

/-- The `switch s` of `filePatch`: for the table entry `s`, the arguments
`old` and `new` of the call `strings.Replace(ts, old, new, -1)` made by the
case that `s` selects, or `none` when no case matches. -/
def patchCase (env : Env) (m : Muxer) (s : GoString) : Option (GoString × GoString) :=
  if s = "{server_id}".toList then some ("{host_name}".toList, m.serverID)
  else if s = "{hostname_short}".toList then some ("{host_name}".toList, m.hostname)
  else if s = "{hostname_long}".toList then some ("{host_name}".toList, m.hostname)
  else if s = "{stream_name}".toList then some ("{stream_name}".toList, m.streamName)
  else if s = "{channel_name}".toList then some ("{channel_name}".toList, m.channelName)
  else if s = "{stream_id}".toList then some ("{stream_id}".toList, m.streamID)
  else if s = "{channel_id}".toList then some ("{channel_id}".toList, m.channelID)
  else if s = "{start_year}".toList then some ("{start_year}".toList, fmtInt m.start.year)
  else if s = "{start_month}".toList then some ("{start_month}".toList, fmtInt m.start.month)
  else if s = "{start_day}".toList then some ("{start_day}".toList, fmtInt m.start.day)
  else if s = "{start_minute}".toList then some ("{start_minute}".toList, fmtInt m.start.minute)
  else if s = "{start_second}".toList then some ("{start_second}".toList, fmtInt m.start.second)
  else if s = "{start_millisecond}".toList then
    some ("{start_millisecond}".toList, fmtInt ((m.start.nanosecond.tdiv 1000).tdiv 1000))
  else if s = "{start_unix_millisecond}".toList then
    some ("{start_unix_millisecond}".toList, fmtInt m.end_.unixMilli)
  else if s = "{start_unix_second}".toList then
    some ("{start_unix_second}".toList, fmtInt m.end_.unix)
  else if s = "{start_time}".toList then some ("{start_time}".toList, m.start.formatStamp)
  else if s = "{start_pts}".toList then
    some ("{start_pts}".toList, fmtInt (durMilliseconds m.pstart))
  else if s = "{end_year}".toList then some ("{end_year}".toList, fmtInt m.end_.year)
  else if s = "{end_month}".toList then some ("{end_month}".toList, fmtInt m.end_.month)
  else if s = "{end_day}".toList then some ("{end_day}".toList, fmtInt m.end_.day)
  else if s = "{end_minute}".toList then some ("{end_minute}".toList, fmtInt m.end_.minute)
  else if s = "{end_second}".toList then some ("{end_second}".toList, fmtInt m.end_.second)
  else if s = "{end_millisecond}".toList then
    some ("{end_millisecond}".toList, fmtInt ((m.start.nanosecond.tdiv 1000).tdiv 1000))
  else if s = "{end_unix_millisecond}".toList then
    some ("{end_unix_millisecond}".toList, fmtInt m.end_.unixMilli)
  else if s = "{end_unix_second}".toList then
    some ("{end_unix_second}".toList, fmtInt m.end_.unix)
  else if s = "{end_time}".toList then some ("{end_time}".toList, m.end_.formatStamp)
  else if s = "{end_pts}".toList then some ("{end_pts}".toList, fmtInt (durMilliseconds m.pend))
  else if s = "{duration_second}".toList then
    some ("{duration_second}".toList, env.fmtSeconds m.dur)
  else if s = "{duration_millisecond}".toList then
    some ("{duration_millisecond}".toList, fmtInt (durMilliseconds m.dur))
  else none

/-- One iteration of the loop of `filePatch`. -/
def patchStep (env : Env) (m : Muxer) (ts s : GoString) : GoString :=
  match patchCase env m s with
  | some (old, new) => strReplace ts old new
  | none => ts

/-- The loop of `filePatch` over `listTag`, from the template `ts`. -/
def patchAll (env : Env) (m : Muxer) (ts : GoString) : GoString :=
  listTag.foldl (patchStep env m) ts

/-- The method `filePatch`: refresh `end`, then substitute in `patch`. -/
def filePatch (env : Env) (m : Muxer) : GoString × Muxer :=
  let (now, m) := m.readClock env
  let m := { m with end_ := now }
  (patchAll env m m.patch, m)

/-! ## Files -/

/-- The call `f.Close()` on a file that is not nil: an error on a file already
closed; the file is closed afterwards in every case. -/
def closeFile (env : Env) (s : Muxer) (f : File) : Option Err × File × Muxer :=
  if f.closed then (some .closed, f, s.emit (.close f.name false))
  else
    let (ok, s) := s.call env
    (if ok then none else some .close, { f with closed := true }, s.emit (.close f.name ok))

/-- The call `os.Rename(src, dst)`: fails when `src` does not exist. -/
def renameFile (env : Env) (s : Muxer) (src dst : GoString) : Bool × Muxer :=
  match s.fs src with
  | none => (false, s.emit (.rename src dst false))
  | some c =>
    let (ok, s) := s.call env
    let s := s.emit (.rename src dst ok)
    if ok then
      (true, if src = dst then s else { s with fs := (s.fs.set dst (some c)).set src none })
    else (false, s)

/-- The call `os.OpenFile(name, os.O_WRONLY|os.O_APPEND|os.O_CREATE, 0660)`. -/
def openAppend (env : Env) (s : Muxer) (name : GoString) : Option File × Muxer :=
  let (ok, s) := s.call env
  let s := s.emit (.openFile name ok)
  if ok then
    (some ⟨name, false⟩, { s with fs := s.fs.set name (some ((s.fs name).getD [])) })
  else (none, s)

/-! ## The session -/

/-- The constructor `NewMuxer`. -/
def NewMuxer (env : Env) (serverID streamName channelName streamID channelID patch : GoString)
    (format : GoString) (limit : Int) : Muxer :=
  { muxer := none, format := format, limit := limit, d := none, m := none, dur := 0, h := -1,
    gof := ⟨[], []⟩, patch := patch, start := GoTime.zero, end_ := GoTime.zero,
    pstart := 0, pend := 0, started := false,
    serverID := serverID, streamName := streamName, channelName := channelName,
    streamID := streamID, channelID := channelID, hostname := env.hostname,
    clock := 0, ops := 0, nextMux := 0, fs := env.files, trace := [] }

/-- The statement `err = m.d.Close()` of `WriteTrailer`, for the file `f` in `m.d`. -/
def closeData (env : Env) (s : Muxer) (f : File) : Muxer × Option Err :=
  ({ (closeFile env s f).2.2 with d := some (closeFile env s f).2.1 }, (closeFile env s f).1)

/-- The part of `WriteTrailer` inside `if m.d != nil`, for the file `f` in `m.d`. -/
def finishData (env : Env) (s : Muxer) (f : File) : Muxer × Option Err :=
  if s.format = MP4 then
    let (p, s) := filePatch env s
    let (ok, s) := s.call env
    let s := s.emit (.mkdirAll (env.dir p) ok)
    if ok then
      let (ok, s) := renameFile env s f.name p
      if ok then closeData env s f else (s, some .rename)
    else (s, some .mkdir)
  else closeData env s f

/-- The statement `if m.muxer != nil { m.muxer.WriteTrailer() }` of `WriteTrailer`;
the result of the call is dropped. -/
def trailerMuxer (env : Env) (s : Muxer) : Muxer :=
  match s.muxer with
  | some mx => (s.call env).2.emit (.muxTrailer mx.id (s.call env).1)
  | none => s

/-- The statement `if m.m != nil { err = m.m.Close() }` of `WriteTrailer`. -/
def closeIndex (env : Env) (s : Muxer) : Muxer × Option Err :=
  match s.m with
  | some f => ({ (closeFile env s f).2.2 with m := some (closeFile env s f).2.1 },
      (closeFile env s f).1)
  | none => (s, none)

/-- The method `WriteTrailer`. -/
def WriteTrailer (env : Env) (s : Muxer) : Muxer × Option Err :=
  let s := trailerMuxer env s
  let r := closeIndex env s
  match r.1.d with
  | some f => finishData env r.1 f
  | none => r

/-- The part of `OpenMP4` from `os.Create` on, for the directory `dir`. -/
def createSegment (env : Env) (s : Muxer) (dir : GoString) : Muxer × Option Err :=
  let name := dir ++ "/tmp.mp4".toList
  let (ok, s) := s.call env
  let s := s.emit (.create name ok)
  if ok then
    let s := { s with d := some ⟨name, false⟩, fs := s.fs.set name (some []) }
    let id := s.nextMux
    let s := { s with muxer := some ⟨id, name⟩, nextMux := id + 1 }
    let (ok, s) := s.call env
    let s := s.emit (.muxHeader id s.gof.Streams ok)
    (s, if ok then none else some .mux)
  else ({ s with d := none }, some .create)

/-- The part of `OpenMP4` after its call of `WriteTrailer`. -/
def openSegment (env : Env) (s : Muxer) : Muxer × Option Err :=
  let (t, s) := s.readClock env
  let s := { s with start := t }
  let (p, s) := filePatch env s
  let (ok, s) := s.call env
  let s := s.emit (.mkdirAll (env.dir p) ok)
  if ok then createSegment env s (env.dir p) else (s, some .mkdir)

/-- The method `OpenMP4`. -/
def OpenMP4 (env : Env) (s : Muxer) : Muxer × Option Err :=
  openSegment env (WriteTrailer env (s.emit .enterOpenMP4)).1

/-- The part of `OpenNVR` from the first `os.OpenFile` on, for the directory
`dir` and the hour `hour` of its clock reading. -/
def openPair (env : Env) (s : Muxer) (dir : GoString) (hour : Int) : Muxer × Option Err :=
  let (fd, s) := openAppend env s (dir ++ '/' :: fmtInt hour ++ ".d".toList)
  let s := { s with d := fd }
  if fd.isSome then
    let (fm, s) := openAppend env s (dir ++ '/' :: fmtInt hour ++ ".m".toList)
    let s := { s with m := fm }
    if fm.isSome then ({ s with h := hour }, none) else (s, some .openFile)
  else (s, some .openFile)

/-- The method `OpenNVR`. -/
def OpenNVR (env : Env) (s : Muxer) : Muxer × Option Err :=
  let s := (WriteTrailer env s).1
  let (t, s) := s.readClock env
  let dir := s.patch ++ '/' :: t.formatDate
  let (ok, s) := s.call env
  let s := s.emit (.mkdirAll dir ok)
  if ok then openPair env s dir t.hour else (s, some .mkdir)

/-- The index record of a flush followed by the magic marker: what
`binary.Write(buf, binary.LittleEndian, f)` and `buf.Write(MIME)` leave in `buf`. -/
def indexBytes (f : Data) : List Nat := le64 f.Time ++ le64 f.Start ++ le64 f.Dur ++ MIME

/-- The tail of `writeGop`, from `m.m.Write(buf.Bytes())`. -/
def writeIndex (env : Env) (s : Muxer) (f : Data) : Muxer × Option Err :=
  match s.m with
  | none => (s, some .invalid)
  | some fm =>
    if fm.closed then (s.emit (.write fm.name (indexBytes f) false), some .closed)
    else
      let (ok, s) := s.call env
      let s := s.emit (.write fm.name (indexBytes f) ok)
      if ok then
        ({ s with fs := s.fs.set fm.name (some ((s.fs fm.name).getD [] ++ indexBytes f)) }, none)
      else (s, some .write)

/-- The part of `writeGop` from `gob.NewEncoder(m.d)` on, for the data file
`fd` in `m.d` and the index record `f`. -/
def encodeGroup (env : Env) (s : Muxer) (fd : File) (f : Data) : Muxer × Option Err :=
  let (ok, s) := s.call env
  let s := s.emit (.encode fd.name s.gof ok)
  if ok then
    writeIndex env
      { s with fs := s.fs.set fd.name (some ((s.fs fd.name).getD [] ++ env.gob s.gof)) } f
  else (s, some .encode)

/-- The part of `writeGop` after the hour check, for the clock reading `t`. -/
def writeGopBody (env : Env) (s : Muxer) (t : GoTime) : Muxer × Option Err :=
  match s.d with
  | none => (s, some .invalid)
  | some fd =>
    if fd.closed then (s.emit (.seek fd.name 0 false), some .closed)
    else
      let (ok, s) := s.call env
      let off : Int := s.fs.size fd.name
      let s := s.emit (.seek fd.name off ok)
      if ok then
        encodeGroup env s fd { Time := t.unixNano, Start := off, Dur := durMilliseconds s.dur }
      else (s, some .seek)

/-- The method `writeGop`. -/
def writeGop (env : Env) (s : Muxer) : Muxer × Option Err :=
  let s := s.emit (.enterWriteGop s.gof)
  let (t, s) := s.readClock env
  if s.h ≠ t.hour then
    match OpenNVR env s with
    | (s, some e) => (s, some e)
    | (s, none) => writeGopBody env s t
  else writeGopBody env s t

/-- The rest of `writePacketNVR` after the keyframe branch. -/
def appendPacket (s : Muxer) (pkt : Packet) : Muxer :=
  let s := if pkt.Idx = 0 then { s with dur := wrap64 (s.dur + pkt.Duration) } else s
  { s with gof := { s.gof with Packet := s.gof.Packet ++ [pkt] } }

/-- The method `writePacketNVR`. -/
def writePacketNVR (env : Env) (s : Muxer) (pkt : Packet) : Muxer × Option Err :=
  if pkt.IsKeyFrame then
    if s.gof.Packet.length > 0 then
      match writeGop env s with
      | (s, some e) => (s, some e)
      | (s, none) => (appendPacket { s with gof := { s.gof with Packet := [] }, dur := 0 } pkt, none)
    else (appendPacket { s with gof := { s.gof with Packet := [] }, dur := 0 } pkt, none)
  else (appendPacket s pkt, none)

/-- The rotation block of `writePacketMP4`,
`if pkt.IsKeyFrame && m.dur > time.Duration(m.limit)*time.Second { ... }`. -/
def rotate (env : Env) (s : Muxer) (pkt : Packet) : Muxer :=
  if pkt.IsKeyFrame = true ∧ s.dur > wrap64 (s.limit * Second) then
    { (OpenMP4 env { s with pstart := pkt.Time }).1 with dur := 0 }
  else s

/-- The rest of `writePacketMP4`: account for the packet and hand it to the
container muxer; calling `WritePacket` on a nil `*mp4.Muxer` panics. -/
def forwardPacket (env : Env) (s : Muxer) (pkt : Packet) : Outcome :=
  let s := { s with dur := wrap64 (s.dur + pkt.Duration), pend := pkt.Time }
  match s.muxer with
  | none => .panic s
  | some mx =>
    .ret ((s.call env).2.emit (.muxPacket mx.id pkt (s.call env).1))
      (if (s.call env).1 then none else some .mux)

/-- The method `writePacketMP4`. -/
def writePacketMP4 (env : Env) (s : Muxer) (pkt : Packet) : Outcome :=
  forwardPacket env (rotate env s pkt) pkt

/-- The method `WriteHeader`. -/
def WriteHeader (env : Env) (s : Muxer) (streams : List CodecData) : Muxer × Option Err :=
  let s := { s with gof := { s.gof with Streams := streams } }
  if s.format = MP4 then ((OpenMP4 env s).1, none) else (s, none)

/-- The method `WritePacket`. -/
def WritePacket (env : Env) (s : Muxer) (pkt : Packet) : Outcome :=
  if s.gof.Streams.length = 0 then .ret s none
  else
    let s := if !s.started && pkt.IsKeyFrame then { s with started := true } else s
    if s.started then
      if s.format = MP4 then writePacketMP4 env s pkt
      else if s.format = NVR then
        let r := writePacketNVR env s pkt
        .ret r.1 r.2
      else .ret s none
    else .ret s none

/-! ## Sequences of calls -/

/-- A call of one of the three public methods. -/
inductive Call
  | header (streams : List CodecData)
  | packet (pkt : Packet)
  | trailer
deriving DecidableEq, Repr

/-- One public call. -/
def step (env : Env) (s : Muxer) : Call → Outcome
  | .header streams => .ret (WriteHeader env s streams).1 (WriteHeader env s streams).2
  | .packet pkt => WritePacket env s pkt
  | .trailer => .ret (WriteTrailer env s).1 (WriteTrailer env s).2

/-- The calls `cs`, made one after the other, after a call that ended as `o`:
each call is made on the session the previous one left, and a panic ends the
sequence. The outcome is that of the last call made. -/
def runFrom (env : Env) : List Call → Outcome → Outcome
  | [], o => o
  | c :: cs, .ret s _ => runFrom env cs (step env s c)
  | _ :: _, .panic s => .panic s

/-- A sequence of public calls on the session `s`. -/
def run (env : Env) (s : Muxer) (cs : List Call) : Outcome := runFrom env cs (.ret s none)

/-! ## Sample data -/

/-- An environment in which every external call succeeds and the clock
advances by one second per reading, from 2024-03-05 10:15:30 UTC. -/
def sampleEnv : Env :=
  { now := fun k => ⟨(1709633730 + k) * 1000000000⟩
    ioOk := fun _ => true
    hostname := "cam-host".toList
    dir := fun p => (p.reverse.dropWhile (fun c => c != '/')).reverse.dropLast
    gob := fun g => [g.Streams.length, g.Packet.length]
    fmtSeconds := fun d => fmtInt (d / 1000000000) ++ ".000000".toList
    files := fun _ => none }

/-- A packet of the given stream with the given keyframe flag, presentation
time and duration in milliseconds, and no payload. -/
def samplePacket (key : Bool) (idx : Int) (timeMs durMs : Int) : Packet :=
  { IsKeyFrame := key, Idx := idx, CompositionTime := 0, Time := timeMs * 1000000,
    Duration := durMs * 1000000, Data := [] }

/-- A fresh session for the identity `srv1`/`cam`/`main`/`7`/`3`. -/
def sampleMuxer (patch format : GoString) (limit : Int) : Muxer :=
  NewMuxer sampleEnv "srv1".toList "cam".toList "main".toList "7".toList "3".toList
    patch format limit

/-! ## Vocabulary of the statements -/

/-- The external calls `WriteTrailer` can make. -/
def Event.ofTrailer : Event → Bool
  | .muxTrailer _ _ | .close _ _ | .mkdirAll _ _ | .rename _ _ _ => true
  | _ => false

/-- The events `OpenMP4` can leave in the trace. -/
def Event.ofOpenMP4 : Event → Bool
  | .enterOpenMP4 | .create _ _ | .muxHeader _ _ _ => true
  | e => e.ofTrailer

/-- The external calls `OpenNVR` can make. -/
def Event.ofOpenNVR : Event → Bool
  | .openFile _ _ => true
  | e => e.ofTrailer

/-- The external calls `writeGop` can make. -/
def Event.ofFlush : Event → Bool
  | .seek _ _ _ | .encode _ _ _ | .write _ _ _ => true
  | e => e.ofOpenNVR

/-- An event is one `WriteTrailer` can emit. -/
def TrailerEv (e : Event) : Prop := e.ofTrailer = true

/-- An event is one `OpenMP4` can emit. -/
def OpenMP4Ev (e : Event) : Prop := e.ofOpenMP4 = true

/-- An event is one `OpenNVR` can emit. -/
def OpenNVREv (e : Event) : Prop := e.ofOpenNVR = true

/-- An event is an external call `writeGop` can make. -/
def FlushEv (e : Event) : Prop := e.ofFlush = true

/-- What the helper methods leave alone: `s2` differs from `s1` by events that
all satisfy `P`, appended to the trace, and possibly in the handles, the open
hour, the wall-clock bookmarks, the counters and the files. -/
structure Frame (P : Event → Prop) (s1 s2 : Muxer) : Prop where
  trace : ∃ evs, s2.trace = s1.trace ++ evs ∧ ∀ e ∈ evs, P e
  format : s2.format = s1.format
  limit : s2.limit = s1.limit
  gof : s2.gof = s1.gof
  dur : s2.dur = s1.dur
  patch : s2.patch = s1.patch
  pstart : s2.pstart = s1.pstart
  pend : s2.pend = s1.pend
  started : s2.started = s1.started

/-- A group as a flush must find it: not empty, a keyframe first, and no
keyframe after it. -/
def wellFormedGroup : List Packet → Bool
  | [] => false
  | p :: rest => p.IsKeyFrame && rest.all (fun q => !q.IsKeyFrame)

/-- Every group a flush was entered with so far is well formed. -/
def FlushedOk (s : Muxer) : Prop :=
  ∀ g, Event.enterWriteGop g ∈ s.trace → wellFormedGroup g.Packet = true

/-- The invariant of the buffered group: every group a flush was entered with
so far is well formed, the buffered packets are none or a well-formed group,
and packets are buffered exactly in a started indexed session. -/
def GopInv (s : Muxer) : Prop :=
  FlushedOk s ∧
  (s.gof.Packet = [] ∨ wellFormedGroup s.gof.Packet = true) ∧
  (s.gof.Packet ≠ [] ↔ (s.started = true ∧ s.format = NVR))

/-- A short indexed recording: header, a keyframe at 0 ms, an audio packet, a
frame at 1000 ms and a keyframe at 2000 ms. -/
def sampleIndexedCalls : List Call :=
  [.header [[1]], .packet (samplePacket true 0 0 1000), .packet (samplePacket false 1 0 500),
   .packet (samplePacket false 0 1000 1000), .packet (samplePacket true 0 2000 1000)]

/-- The group the sample recording flushes. -/
def sampleGroup : Gof :=
  ⟨[[1]], [samplePacket true 0 0 1000, samplePacket false 1 0 500,
    samplePacket false 0 1000 1000]⟩

/-- Whether no packet has been forwarded to a container muxer since the last
entry into `OpenMP4`, or since the session was created when there was none:
the state of a trace in which the next forwarded packet is the first of its
segment. -/
def awaitingFirst (tr : List Event) : Bool :=
  tr.foldl (fun b e =>
    match e with
    | .enterOpenMP4 => true
    | .muxPacket _ _ _ => false
    | _ => b) true

/-- Every packet forwarded first after an entry into `OpenMP4`, or first of
all, is a keyframe. -/
def FirstForwardsKey (tr : List Event) : Prop :=
  ∀ pre post id p ok, tr = pre ++ Event.muxPacket id p ok :: post →
    awaitingFirst pre = true → p.IsKeyFrame = true

/-- The invariant of the container writer: first forwards are keyframes, and
while a first forward is awaited after a returned call the session has not
started. -/
def KeyInv (s : Muxer) : Prop :=
  FirstForwardsKey s.trace ∧ (awaitingFirst s.trace = true → s.started = false)

/-- The packets of a short container recording: a keyframe and two frames. -/
def samplePackets : List Packet :=
  [samplePacket true 0 0 1000, samplePacket false 0 1000 1000, samplePacket false 0 2000 1000]

/-- A successful `os.Rename`: a container file has been finalized. -/
def Event.isRenamed : Event → Bool
  | .rename _ _ true => true
  | _ => false

/-- The number of container files finalized so far. -/
def finalized (s : Muxer) : Nat := s.trace.countP Event.isRenamed

/-- A container session with a segment being written: a container muxer, an
open temporary file that exists, no index file, and codec parameters. -/
structure Active (s : Muxer) : Prop where
  format : s.format = MP4
  streams : s.gof.Streams ≠ []
  muxer : ∃ mx, s.muxer = some mx
  m : s.m = none
  d : ∃ f c, s.d = some f ∧ f.closed = false ∧ s.fs f.name = some c

/-- The sum of the durations of a list of packets. -/
def totalDuration (ps : List Packet) : Int := (ps.map (fun p => p.Duration)).sum

/-- A group of pictures as the scenarios have them: a keyframe followed by
packets that are not keyframes. -/
def IsGop (g : List Packet) : Prop :=
  ∃ k rest, g = k :: rest ∧ k.IsKeyFrame = true ∧ ∀ q ∈ rest, q.IsKeyFrame = false

/-- The packets of the container scenario, at one packet per second: 25
packets of one second, every fifth one a keyframe. -/
def scenarioPackets : List Packet :=
  (List.range 25).map (fun i => samplePacket (i % 5 == 0) 0 (i * 1000) 1000)

/-- The calls of the container scenario: header, the packets, trailer. -/
def scenarioCalls : List Call :=
  .header [[1]] :: scenarioPackets.map Call.packet ++ [.trailer]

/-- The group of the container scenario that starts at second `n`: a keyframe
and four more packets, of one second each. -/
def scenarioGop (n : Nat) : List Packet :=
  (List.range 5).map (fun i => samplePacket (i == 0) 0 ((n + i) * 1000) 1000)

/-- The path `root/YYYY/MM/DD/H.ext` of the UTC date and hour of `t`, the hour
not padded. -/
def pairPath (root : GoString) (t : GoTime) (ext : String) : GoString :=
  root ++ "/".toList ++ t.formatDate ++ "/".toList ++ fmtInt t.hour ++ ext.toList

/-- The event is an entry into `writeGop`: a flush. -/
def Event.isFlushEntry : Event → Bool
  | .enterWriteGop _ => true
  | _ => false

/-- The event is a successful encoding of a group into the file `name`. -/
def Event.isGroupTo (name : GoString) : Event → Bool
  | .encode n _ true => decide (n = name)
  | _ => false

/-- The event is a successful write of an index record to the file `name`. -/
def Event.isRecordTo (name : GoString) : Event → Bool
  | .write n _ true => decide (n = name)
  | _ => false

/-- The event is a successful encoding of a group. -/
def Event.isGroup : Event → Bool
  | .encode _ _ true => true
  | _ => false

/-- The event is a successful write of an index record. -/
def Event.isRecord : Event → Bool
  | .write _ _ true => true
  | _ => false

/-- The number of flushes in a trace. -/
def flushCount (tr : List Event) : Nat := tr.countP Event.isFlushEntry

/-- The number of keyframes among packets. -/
def keyframes (ps : List Packet) : Nat := ps.countP (fun p => p.IsKeyFrame)

/-- An indexed session in a world where every external call has succeeded:
codec parameters are set, packets are buffered exactly when the session has
started, a pair of files `stem.d`, `stem.m` is open whenever an hour is open,
and so far every flush has appended one group and one index record, to the two
files of one pair. -/
structure IndexedOk (s : Muxer) : Prop where
  format : s.format = NVR
  streams : s.gof.Streams ≠ []
  buffered : s.started = true ↔ s.gof.Packet ≠ []
  files : 0 ≤ s.h → ∃ stem, s.d = some ⟨stem ++ ".d".toList, false⟩ ∧
    s.m = some ⟨stem ++ ".m".toList, false⟩
  paired : ∀ stem, s.trace.countP (Event.isGroupTo (stem ++ ".d".toList))
    = s.trace.countP (Event.isRecordTo (stem ++ ".m".toList))
  groups : s.trace.countP Event.isGroup = flushCount s.trace
  records : s.trace.countP Event.isRecord = flushCount s.trace

/-- The number of flushes a packet sequence causes, from whether the session
has started: one for every keyframe that arrives when the session has started. -/
def expectedFlushes : Bool → List Packet → Nat
  | _, [] => 0
  | started, p :: ps =>
    (if p.IsKeyFrame = true ∧ started = true then 1 else 0) +
      expectedFlushes (started || p.IsKeyFrame) ps

/-- The packets of the short indexed recording: keyframes at 0 ms and 2000 ms. -/
def sampleIndexedPackets : List Packet :=
  [samplePacket true 0 0 1000, samplePacket false 1 0 500, samplePacket false 0 1000 1000,
   samplePacket true 0 2000 1000]

/-- The packets of the primary stream, the one with index 0. -/
def primary (ps : List Packet) : List Packet := ps.filter (fun p => decide (p.Idx = 0))

/-- The group the latest flush of a trace was entered with, if there was one. -/
def lastFlushed (tr : List Event) : Option Gof :=
  tr.foldl (fun o e =>
    match e with
    | .enterWriteGop g => some g
    | _ => o) none

/-- The bytes are an index record, with its magic marker, whose duration field
is the whole milliseconds of the sum, in `int64` arithmetic, of the durations
of the primary-stream packets of `g`. -/
def RecordOf (g : Gof) (bytes : List Nat) : Prop :=
  ∃ time start : Int, bytes =
    indexBytes ⟨time, start, durMilliseconds (wrap64 (totalDuration (primary g.Packet)))⟩

/-- Every index record written, successfully or not, carries the duration of
the primary-stream packets of the group its flush was entered with. -/
def RecordsMatch (tr : List Event) : Prop :=
  ∀ pre post name bytes ok, tr = pre ++ Event.write name bytes ok :: post →
    ∃ g, lastFlushed pre = some g ∧ RecordOf g bytes

/-- An event of a flush of a group with accumulated duration `dur`: an external
call of `writeGop` whose index record, if it writes one, has the whole
milliseconds of `dur` as its duration. -/
def RecEv (dur : Int) (e : Event) : Prop :=
  FlushEv e ∧ ∀ name bytes ok, e = Event.write name bytes ok →
    ∃ time start : Int, bytes = indexBytes ⟨time, start, durMilliseconds dur⟩

/-- The invariant of the accumulated duration in an indexed session. -/
structure DurInv (s : Muxer) : Prop where
  format : s.format = NVR
  dur : s.dur = wrap64 (totalDuration (primary s.gof.Packet))
  records : RecordsMatch s.trace

/-- The external calls of the sample indexed recording up to the write of its
index record. -/
def sampleFlushCalls : List Event :=
  [.enterWriteGop ⟨[[1]], [samplePacket true 0 0 1000, samplePacket false 1 0 500,
      samplePacket false 0 1000 1000]⟩,
   .mkdirAll "/data/2024/03/05".toList true, .openFile "/data/2024/03/05/10.d".toList true,
   .openFile "/data/2024/03/05/10.m".toList true, .seek "/data/2024/03/05/10.d".toList 0 true,
   .encode "/data/2024/03/05/10.d".toList
     ⟨[[1]], [samplePacket true 0 0 1000, samplePacket false 1 0 500,
      samplePacket false 0 1000 1000]⟩ true]

/-- The index record of the sample indexed recording: written at
2024-03-05 10:15:30 UTC, offset 0, duration 2000 ms. -/
def sampleRecord : List Nat :=
  [0, 20, 173, 196, 209, 214, 185, 23, 0, 0, 0, 0, 0, 0, 0, 0, 208, 7, 0, 0, 0, 0, 0, 0,
   11, 22, 111, 222, 11, 22, 111, 222]

/-- The number a sequence of byte values stands for, least significant byte
first. -/
def leValue : List Nat → Nat
  | [] => 0
  | b :: bs => b + 256 * leValue bs

/-- The session of the sample indexed recording when its second keyframe
arrives: the header and the first three packets have been submitted. -/
def sampleBeforeFlush : Muxer :=
  (run sampleEnv (NewMuxer sampleEnv "srv1".toList "cam".toList "main".toList "7".toList
    "3".toList "/data".toList NVR 10)
    (.header [[1]] :: (sampleIndexedPackets.take 3).map Call.packet)).state

/-- What the flush `writeGop` of the session `s` has done when it returns
`nil`. With `s0` the session when the hour check of the flush is over (the
entry and the external calls of `OpenNVR` added to the trace), `fd` and `fm`
its data and index files and `old` the content of the data file: the flush
sought the end of the data file, at `old.length`, appended the blob of the
group to `old`, and appended to the index file the 32 bytes made of the
little-endian encodings of the flush time in nanoseconds, of `old.length` and
of the duration in milliseconds, and of the magic bytes. -/
def FlushWrites (env : Env) (s : Muxer) : Prop :=
  ∃ (s0 : Muxer) (evs : List Event) (fd fm : File) (old record : List Nat),
    s0.trace = s.trace ++ .enterWriteGop s.gof :: evs ∧ (∀ e ∈ evs, OpenNVREv e) ∧
    s0.d = some fd ∧ s0.m = some fm ∧ (s0.fs fd.name).getD [] = old ∧
    record = le64 (env.now s.clock).unixNano ++ le64 old.length ++
      le64 (durMilliseconds s.dur) ++ [11, 22, 111, 222, 11, 22, 111, 222] ∧
    record.length = 32 ∧
    leValue (le64 old.length) = old.length % 2 ^ 64 ∧
    (writeGop env s).1.trace = s0.trace ++
      [.seek fd.name old.length true, .encode fd.name s.gof true,
       .write fm.name record true] ∧
    (writeGop env s).1.fs =
      (s0.fs.set fd.name (some (old ++ env.gob s.gof))).set fm.name
        (some (((s0.fs.set fd.name (some (old ++ env.gob s.gof))) fm.name).getD [] ++ record))

/-- The pair of open files of an indexed session, when it has one, is the pair
of the date and hour of some clock reading, and the open hour is the hour of
that reading. -/
def OpenPair (env : Env) (s : Muxer) : Prop :=
  ∀ fd fm, s.d = some fd → s.m = some fm → fd.closed = false → fm.closed = false →
    ∃ k, fd.name = pairPath s.patch (env.now k) ".d" ∧
      fm.name = pairPath s.patch (env.now k) ".m" ∧ s.h = (env.now k).hour

/-- Where a successful flush of the session `s` has written: the trace ends
with a seek and the encoding of the group on the data file, and the write of a
record on the index file, of the pair of the clock reading `t0`. -/
def FlushedTo (env : Env) (s : Muxer) (t0 : GoTime) : Prop :=
  ∃ pre off record, (writeGop env s).1.trace = pre ++
    [.seek (pairPath s.patch t0 ".d") off true, .encode (pairPath s.patch t0 ".d") s.gof true,
     .write (pairPath s.patch t0 ".m") record true]

/-- The sample environment with a clock that stands at 2024-03-05 10:15:30 UTC
for its first two readings and at 2024-03-06 10:15:30 UTC from then on. -/
def dayLaterEnv : Env :=
  { sampleEnv with
    now := fun k => if k < 2 then ⟨1709633730 * 1000000000⟩ else ⟨1709720130 * 1000000000⟩ }

/-- An indexed session that has flushed one group, on 2024-03-05 in hour 10,
and receives its third keyframe a day later: the state in which `WritePacket`
calls `writeGop` for the second time. -/
def dayLaterSession : Muxer :=
  (run dayLaterEnv (NewMuxer dayLaterEnv "srv1".toList "cam".toList "main".toList "7".toList
    "3".toList "/data".toList NVR 10)
    [.header [[1]], .packet (samplePacket true 0 0 1000), .packet (samplePacket false 0 1000 1000),
     .packet (samplePacket true 0 2000 1000),
     .packet (samplePacket false 0 3000 1000)]).state

/-- The string has no brace in it. -/
def braceFree (s : GoString) : Bool := s.all (fun c => c != '{' && c != '}')

/-- The string is a placeholder token: an opening brace, a name without braces,
a closing brace. -/
def isToken (t : GoString) : Bool :=
  match t with
  | '{' :: rest => rest.getLast? == some '}' && braceFree rest.dropLast
  | _ => false

/-- A piece of a template: literal text or a placeholder token. -/
inductive Piece
  | text (s : GoString)
  | tag (t : GoString)
deriving DecidableEq, Repr

/-- The characters of a piece as they stand in the template. -/
def Piece.raw : Piece → GoString
  | .text s => s
  | .tag t => t

/-- A piece is text without braces or a placeholder token. -/
def Piece.shaped : Piece → Bool
  | .text s => braceFree s
  | .tag t => isToken t

/-- The template made of the pieces. -/
def render (ps : List Piece) : GoString := ps.flatMap Piece.raw

/-- One substitution on a piece: the token `old` becomes the text `new`. -/
def Piece.subst (old new : GoString) (p : Piece) : Piece :=
  if p = .tag old then .text new else p

/-- The placeholders that the loop of `filePatch` resolves under their own
name and from the field they name. -/
def resolvedTags : List GoString :=
  ["{stream_name}", "{channel_name}", "{stream_id}", "{channel_id}", "{start_year}",
   "{start_month}", "{start_day}", "{start_minute}", "{start_second}", "{start_millisecond}",
   "{start_time}", "{start_pts}", "{end_year}", "{end_month}", "{end_day}", "{end_minute}",
   "{end_second}", "{end_time}", "{end_pts}", "{duration_second}",
   "{duration_millisecond}"].map String.toList

/-- The current value of the field a placeholder of `resolvedTags` names. -/
def fieldValue (env : Env) (m : Muxer) (t : GoString) : GoString :=
  if t = "{stream_name}".toList then m.streamName
  else if t = "{channel_name}".toList then m.channelName
  else if t = "{stream_id}".toList then m.streamID
  else if t = "{channel_id}".toList then m.channelID
  else if t = "{start_year}".toList then fmtInt m.start.year
  else if t = "{start_month}".toList then fmtInt m.start.month
  else if t = "{start_day}".toList then fmtInt m.start.day
  else if t = "{start_minute}".toList then fmtInt m.start.minute
  else if t = "{start_second}".toList then fmtInt m.start.second
  else if t = "{start_millisecond}".toList then
    fmtInt ((m.start.nanosecond.tdiv 1000).tdiv 1000)
  else if t = "{start_time}".toList then m.start.formatStamp
  else if t = "{start_pts}".toList then fmtInt (durMilliseconds m.pstart)
  else if t = "{end_year}".toList then fmtInt m.end_.year
  else if t = "{end_month}".toList then fmtInt m.end_.month
  else if t = "{end_day}".toList then fmtInt m.end_.day
  else if t = "{end_minute}".toList then fmtInt m.end_.minute
  else if t = "{end_second}".toList then fmtInt m.end_.second
  else if t = "{end_time}".toList then m.end_.formatStamp
  else if t = "{end_pts}".toList then fmtInt (durMilliseconds m.pend)
  else if t = "{duration_second}".toList then env.fmtSeconds m.dur
  else if t = "{duration_millisecond}".toList then fmtInt (durMilliseconds m.dur)
  else t

/-- A piece of a template the templater resolves: text without braces, or one
of the placeholders of `resolvedTags`. -/
def Piece.ok : Piece → Bool
  | .text s => braceFree s
  | .tag t => decide (t ∈ resolvedTags)

/-- A piece with its placeholder replaced by the value of its field. -/
def Piece.resolved (env : Env) (m : Muxer) : Piece → GoString
  | .text s => s
  | .tag t => fieldValue env m t

/-- The template with every placeholder replaced by the value of its field. -/
def resolve (env : Env) (m : Muxer) (ps : List Piece) : GoString :=
  ps.flatMap (Piece.resolved env m)

/-- One iteration of the loop of `filePatch`, seen on one piece. -/
def pieceStep (env : Env) (m : Muxer) (p : Piece) (s : GoString) : Piece :=
  match patchCase env m s with
  | some (old, new) => p.subst old new
  | none => p

/-- The identity values of the session have no brace in them. -/
def plainIdentity (m : Muxer) : Bool :=
  braceFree m.serverID && braceFree m.hostname && braceFree m.streamName &&
    braceFree m.channelName && braceFree m.streamID && braceFree m.channelID

/-- A session whose stream name is to be assembled by a substitution: the
channel id is `_` and the template is `{stream{channel_id}name}`. -/
def assembledMuxer : Muxer :=
  NewMuxer sampleEnv "srv1".toList "cam".toList "main".toList "7".toList "_".toList
    "{stream{channel_id}name}".toList MP4 10

/-- A session with the template `/rec/{stream_name}/{start_year}-{end_pts}.mp4`,
and that template in pieces. -/
def templateMuxer : Muxer :=
  sampleMuxer "/rec/{stream_name}/{start_year}-{end_pts}.mp4".toList MP4 10

/-- The pieces of the template of `templateMuxer`. -/
def templatePieces : List Piece :=
  [.text "/rec/".toList, .tag "{stream_name}".toList, .text "/".toList,
   .tag "{start_year}".toList, .text "-".toList, .tag "{end_pts}".toList, .text ".mp4".toList]

/-- A container recording that is closed twice: header, a keyframe and a
frame, trailer, trailer. -/
def closedTwiceMP4 : List Call :=
  [.header [[1]], .packet (samplePacket true 0 0 1000), .packet (samplePacket false 0 1000 1000),
   .trailer, .trailer]

/-- An indexed recording with one flushed group that is closed twice. -/
def closedTwiceNVR : List Call :=
  sampleIndexedCalls ++ [.trailer, .trailer]

/-- A muxer-trailer write, a rename or a file close. -/
def Event.isClosing : Event → Bool
  | .muxTrailer _ _ | .rename _ _ _ | .close _ _ => true
  | _ => false

/-- What a call returned: `some err` when it returned, `none` when it panicked. -/
def Outcome.returned : Outcome → Option (Option Err)
  | .ret _ e => some e
  | .panic _ => none

/-- The session of the sample indexed recording after its calls: a pair of
files is open and the second group is buffered. -/
def openIndexed : Muxer :=
  (run sampleEnv (sampleMuxer "/data".toList NVR 10) sampleIndexedCalls).state

/-- The sample environment in which the fallible external call number `k`,
counted from zero, fails, and every other one succeeds. -/
def failingEnv (k : Nat) : Env :=
  { sampleEnv with ioOk := fun i => decide (i ≠ k) }

/-- A container session with a path template by stream name and start time. -/
def containerMuxer : Muxer :=
  sampleMuxer "/rec/{stream_name}/{start_time}.mp4".toList MP4 10

/-- A container recording with one rotation: header, a keyframe of eleven
seconds, a second keyframe, a frame. -/
def rotationCalls : List Call :=
  [.header [[1]], .packet (samplePacket true 0 0 11000),
   .packet (samplePacket true 0 11000 1000), .packet (samplePacket false 0 12000 1000)]

/-- The sample indexed recording, followed by a frame at 3000 ms and a
keyframe at 4000 ms. -/
def retryCalls : List Call :=
  sampleIndexedCalls ++
    [.packet (samplePacket false 0 3000 1000), .packet (samplePacket true 0 4000 1000)]

/-- A recording whose second packet has a lower timestamp than its first:
header, a keyframe at 2000 ms, a frame at 1000 ms. -/
def backwardsCalls : List Call :=
  [.header [[1]], .packet (samplePacket true 0 2000 1000),
   .packet (samplePacket false 0 1000 1000)]

/-- Whether the calls on the container muxers in a trace are in order, given
the muxers whose `WriteHeader` (`hs`) and `WriteTrailer` (`ts`) have been
called before: every packet goes to a muxer in `hs` that is not in `ts`. -/
def muxOrderFrom : List Event → List Nat → List Nat → Bool
  | [], _, _ => true
  | .muxHeader id _ _ :: tr, hs, ts => muxOrderFrom tr (id :: hs) ts
  | .muxTrailer id _ :: tr, hs, ts => muxOrderFrom tr hs (id :: ts)
  | .muxPacket id _ _ :: tr, hs, ts =>
    hs.contains id && !ts.contains id && muxOrderFrom tr hs ts
  | _ :: tr, hs, ts => muxOrderFrom tr hs ts

/-- No packet of the trace is forwarded to a container muxer before its
`WriteHeader` or after its `WriteTrailer`. -/
def muxOrder (tr : List Event) : Bool := muxOrderFrom tr [] []

/-- A session whose segment started at 2024-03-05 10:15:29.123 UTC, a second
before the first reading of the sample clock, with the given template. -/
def stampedMuxer (patch : GoString) : Muxer :=
  { sampleMuxer patch MP4 10 with start := ⟨1709633729123000000⟩ }

/-- The session in which `WriteTrailer` computes the final path of the
finished segment, during the rotation that the keyframe `pkt` triggers in `s`:
`writePacketMP4` has set `pstart`, `OpenMP4` has been entered, and `WriteTrailer`
has called the trailer of the muxer and closed the index file, if any. -/
def rotationPoint (env : Env) (s : Muxer) (pkt : Packet) : Muxer :=
  (closeIndex env (trailerMuxer env (({ s with pstart := pkt.Time } : Muxer).emit
    .enterOpenMP4))).1

/-- A container session with a template by start timestamp, end timestamp and
duration. -/
def ptsMuxer : Muxer :=
  sampleMuxer "/rec/{start_pts}-{end_pts}-{duration_millisecond}.mp4".toList MP4 10

/-- The session of `ptsMuxer` after the header and a keyframe of eleven
seconds at timestamp 0: the next keyframe triggers a rotation. -/
def beforeRotation : Muxer := (run sampleEnv ptsMuxer (rotationCalls.take 2)).state

/-! ## Sequences of calls: basic facts -/

theorem runFrom_panic (env : Env) (s : Muxer) (cs : List Call) :
    runFrom env cs (.panic s) = .panic s := by
  cases cs <;> rfl

theorem runFrom_append (env : Env) (o : Outcome) (cs ds : List Call) :
    runFrom env (cs ++ ds) o = runFrom env ds (runFrom env cs o) := by
  induction cs generalizing o with
  | nil => rfl
  | cons c cs ih =>
    cases o with
    | ret s e => simpa only [List.cons_append, runFrom] using ih _
    | panic s => simp only [List.cons_append, runFrom, runFrom_panic]

/-! ## Frames -/

theorem Frame.refl (P : Event → Prop) (s : Muxer) : Frame P s s :=
  ⟨⟨[], by simp⟩, rfl, rfl, rfl, rfl, rfl, rfl, rfl, rfl⟩

theorem Frame.trans {P : Event → Prop} {s1 s2 s3 : Muxer} (h1 : Frame P s1 s2)
    (h2 : Frame P s2 s3) : Frame P s1 s3 := by
  obtain ⟨e1, ht1, hp1⟩ := h1.trace
  obtain ⟨e2, ht2, hp2⟩ := h2.trace
  refine ⟨⟨e1 ++ e2, by rw [ht2, ht1, List.append_assoc], ?_⟩, ?_, ?_, ?_, ?_, ?_, ?_, ?_, ?_⟩
  · intro e he
    rcases List.mem_append.1 he with h | h
    · exact hp1 e h
    · exact hp2 e h
  · rw [h2.format, h1.format]
  · rw [h2.limit, h1.limit]
  · rw [h2.gof, h1.gof]
  · rw [h2.dur, h1.dur]
  · rw [h2.patch, h1.patch]
  · rw [h2.pstart, h1.pstart]
  · rw [h2.pend, h1.pend]
  · rw [h2.started, h1.started]

theorem Frame.mono {P Q : Event → Prop} {s1 s2 : Muxer} (h : Frame P s1 s2)
    (hPQ : ∀ e, P e → Q e) : Frame Q s1 s2 := by
  obtain ⟨evs, ht, hp⟩ := h.trace
  exact ⟨⟨evs, ht, fun e he => hPQ e (hp e he)⟩, h.format, h.limit, h.gof, h.dur, h.patch,
    h.pstart, h.pend, h.started⟩

/-- A step that changes none of the framed fields and emits nothing. -/
theorem Frame.silent {P : Event → Prop} {s1 s2 : Muxer} (ht : s2.trace = s1.trace)
    (h1 : s2.format = s1.format) (h2 : s2.limit = s1.limit) (h3 : s2.gof = s1.gof)
    (h4 : s2.dur = s1.dur) (h5 : s2.patch = s1.patch) (h6 : s2.pstart = s1.pstart)
    (h7 : s2.pend = s1.pend) (h8 : s2.started = s1.started) : Frame P s1 s2 :=
  ⟨⟨[], by simp [ht]⟩, h1, h2, h3, h4, h5, h6, h7, h8⟩

/-- A frame followed by a step that changes none of the framed fields. -/
theorem Frame.then_silent {P : Event → Prop} {s1 s2 s3 : Muxer} (h : Frame P s1 s2)
    (ht : s3.trace = s2.trace)
    (h1 : s3.format = s2.format) (h2 : s3.limit = s2.limit) (h3 : s3.gof = s2.gof)
    (h4 : s3.dur = s2.dur) (h5 : s3.patch = s2.patch) (h6 : s3.pstart = s2.pstart)
    (h7 : s3.pend = s2.pend) (h8 : s3.started = s2.started) : Frame P s1 s3 :=
  h.trans (Frame.silent ht h1 h2 h3 h4 h5 h6 h7 h8)

theorem Frame.emit (P : Event → Prop) (s : Muxer) (e : Event) (h : P e) :
    Frame P s (s.emit e) :=
  ⟨⟨[e], rfl, by simpa using h⟩, rfl, rfl, rfl, rfl, rfl, rfl, rfl, rfl⟩

theorem Frame.call (P : Event → Prop) (env : Env) (s : Muxer) : Frame P s (s.call env).2 :=
  Frame.silent rfl rfl rfl rfl rfl rfl rfl rfl rfl

theorem Frame.readClock (P : Event → Prop) (env : Env) (s : Muxer) :
    Frame P s (s.readClock env).2 :=
  Frame.silent rfl rfl rfl rfl rfl rfl rfl rfl rfl

/-- An external call and its event. -/
theorem Frame.called (P : Event → Prop) (env : Env) (s : Muxer) (e : Event) (h : P e) :
    Frame P s ((s.call env).2.emit e) :=
  (Frame.call P env s).trans (Frame.emit P _ e h)

theorem filePatch_frame (P : Event → Prop) (env : Env) (s : Muxer) :
    Frame P s (filePatch env s).2 :=
  Frame.silent rfl rfl rfl rfl rfl rfl rfl rfl rfl

theorem closeFile_frame (P : Event → Prop) (env : Env) (s : Muxer) (f : File)
    (hP : ∀ n ok, P (.close n ok)) : Frame P s (closeFile env s f).2.2 := by
  unfold closeFile
  split
  · exact Frame.emit P _ _ (hP _ _)
  · exact Frame.called P env s _ (hP _ _)

theorem renameFile_frame (P : Event → Prop) (env : Env) (s : Muxer) (src dst : GoString)
    (hP : ∀ a b ok, P (.rename a b ok)) : Frame P s (renameFile env s src dst).2 := by
  unfold renameFile
  split
  · exact Frame.emit P _ _ (hP _ _ _)
  · have h := Frame.called P env s (.rename src dst (s.call env).1) (hP _ _ _)
    dsimp only
    split
    · split
      · exact h
      · exact h.then_silent rfl rfl rfl rfl rfl rfl rfl rfl rfl
    · exact h

theorem openAppend_frame (P : Event → Prop) (env : Env) (s : Muxer) (name : GoString)
    (hP : ∀ n ok, P (.openFile n ok)) : Frame P s (openAppend env s name).2 := by
  unfold openAppend
  have h := Frame.called P env s (.openFile name (s.call env).1) (hP _ _)
  dsimp only
  split
  · exact h.then_silent rfl rfl rfl rfl rfl rfl rfl rfl rfl
  · exact h

theorem closeData_frame (env : Env) (s : Muxer) (f : File) :
    Frame TrailerEv s (closeData env s f).1 :=
  (closeFile_frame TrailerEv env s f (fun _ _ => rfl)).then_silent
    rfl rfl rfl rfl rfl rfl rfl rfl rfl

theorem finishData_frame (env : Env) (s : Muxer) (f : File) :
    Frame TrailerEv s (finishData env s f).1 := by
  unfold finishData
  dsimp only
  split
  · have h1 := (filePatch_frame TrailerEv env s).trans (Frame.called TrailerEv env _
        (.mkdirAll (env.dir (filePatch env s).1) ((filePatch env s).2.call env).1) rfl)
    split
    · have h2 := h1.trans
        (renameFile_frame TrailerEv env _ f.name (filePatch env s).1 (fun _ _ _ => rfl))
      split
      · exact h2.trans (closeData_frame env _ f)
      · exact h2
    · exact h1
  · exact closeData_frame env s f

theorem trailerMuxer_frame (env : Env) (s : Muxer) :
    Frame TrailerEv s (trailerMuxer env s) := by
  unfold trailerMuxer
  split
  · exact Frame.called TrailerEv env s _ rfl
  · exact Frame.refl _ _

theorem closeIndex_frame (env : Env) (s : Muxer) :
    Frame TrailerEv s (closeIndex env s).1 := by
  unfold closeIndex
  split
  · exact (closeFile_frame TrailerEv env s _ (fun _ _ => rfl)).then_silent
      rfl rfl rfl rfl rfl rfl rfl rfl rfl
  · exact Frame.refl _ _

theorem WriteTrailer_frame (env : Env) (s : Muxer) :
    Frame TrailerEv s (WriteTrailer env s).1 := by
  have h := (trailerMuxer_frame env s).trans (closeIndex_frame env (trailerMuxer env s))
  unfold WriteTrailer
  dsimp only
  split
  · exact h.trans (finishData_frame env _ _)
  · exact h

theorem TrailerEv.openMP4 {e : Event} (h : TrailerEv e) : OpenMP4Ev e := by
  cases e <;> first | exact h | rfl

theorem TrailerEv.openNVR {e : Event} (h : TrailerEv e) : OpenNVREv e := by
  cases e <;> first | exact h | rfl

theorem OpenNVREv.flush {e : Event} (h : OpenNVREv e) : FlushEv e := by
  cases e <;> first | exact h | rfl

theorem createSegment_frame (env : Env) (s : Muxer) (dir : GoString) :
    Frame OpenMP4Ev s (createSegment env s dir).1 := by
  unfold createSegment
  have h := Frame.called OpenMP4Ev env s (.create (dir ++ "/tmp.mp4".toList) (s.call env).1) rfl
  dsimp only
  split
  · refine Frame.trans ?_ (Frame.called _ env _ _ ?_)
    · exact h.then_silent rfl rfl rfl rfl rfl rfl rfl rfl rfl
    · rfl
  · exact h.then_silent rfl rfl rfl rfl rfl rfl rfl rfl rfl

theorem openSegment_frame (env : Env) (s : Muxer) :
    Frame OpenMP4Ev s (openSegment env s).1 := by
  unfold openSegment
  dsimp only
  split
  · refine Frame.trans ?_ (createSegment_frame env _ _)
    refine Frame.trans ?_ (Frame.called _ env _ _ ?_)
    · refine Frame.trans ?_ (filePatch_frame _ env _)
      exact (Frame.readClock _ env _).then_silent rfl rfl rfl rfl rfl rfl rfl rfl rfl
    · rfl
  · refine Frame.trans ?_ (Frame.called _ env _ _ ?_)
    · refine Frame.trans ?_ (filePatch_frame _ env _)
      exact (Frame.readClock _ env _).then_silent rfl rfl rfl rfl rfl rfl rfl rfl rfl
    · rfl

theorem OpenMP4_frame (env : Env) (s : Muxer) : Frame OpenMP4Ev s (OpenMP4 env s).1 :=
  ((Frame.emit OpenMP4Ev s .enterOpenMP4 rfl).trans
    ((WriteTrailer_frame env _).mono (fun _ => TrailerEv.openMP4))).trans
      (openSegment_frame env _)

theorem openPair_frame (env : Env) (s : Muxer) (dir : GoString) (hour : Int) :
    Frame OpenNVREv s (openPair env s dir hour).1 := by
  unfold openPair
  dsimp only
  have h1 := (openAppend_frame OpenNVREv env s (dir ++ '/' :: fmtInt hour ++ ".d".toList)
    (fun _ _ => rfl))
  split
  · split
    · refine Frame.then_silent (Frame.then_silent (Frame.trans ?_
        (openAppend_frame OpenNVREv env _ _ (fun _ _ => rfl)))
          rfl rfl rfl rfl rfl rfl rfl rfl rfl) rfl rfl rfl rfl rfl rfl rfl rfl rfl
      exact h1.then_silent rfl rfl rfl rfl rfl rfl rfl rfl rfl
    · refine Frame.then_silent (Frame.trans ?_
        (openAppend_frame OpenNVREv env _ _ (fun _ _ => rfl)))
          rfl rfl rfl rfl rfl rfl rfl rfl rfl
      exact h1.then_silent rfl rfl rfl rfl rfl rfl rfl rfl rfl
  · exact h1.then_silent rfl rfl rfl rfl rfl rfl rfl rfl rfl

theorem OpenNVR_frame (env : Env) (s : Muxer) : Frame OpenNVREv s (OpenNVR env s).1 := by
  have h1 : Frame OpenNVREv s (WriteTrailer env s).1 :=
    (WriteTrailer_frame env _).mono (fun _ => TrailerEv.openNVR)
  unfold OpenNVR
  dsimp only
  split
  · refine Frame.trans ?_ (openPair_frame env _ _ _)
    refine Frame.trans ?_ (Frame.called _ env _ _ ?_)
    · exact h1.trans (Frame.readClock _ env _)
    · rfl
  · refine Frame.trans ?_ (Frame.called _ env _ _ ?_)
    · exact h1.trans (Frame.readClock _ env _)
    · rfl

theorem writeIndex_frame (env : Env) (s : Muxer) (f : Data) :
    Frame FlushEv s (writeIndex env s f).1 := by
  unfold writeIndex
  split
  · exact Frame.refl _ _
  · dsimp only
    split
    · exact Frame.emit FlushEv _ _ rfl
    · split
      · exact (Frame.called FlushEv env s _ (by rfl)).then_silent
          rfl rfl rfl rfl rfl rfl rfl rfl rfl
      · exact Frame.called FlushEv env s _ (by rfl)

theorem encodeGroup_frame (env : Env) (s : Muxer) (fd : File) (f : Data) :
    Frame FlushEv s (encodeGroup env s fd f).1 := by
  unfold encodeGroup
  dsimp only
  split
  · refine Frame.trans ?_ (writeIndex_frame env _ _)
    exact (Frame.called FlushEv env s _ (by rfl)).then_silent
      rfl rfl rfl rfl rfl rfl rfl rfl rfl
  · exact Frame.called FlushEv env s _ (by rfl)

theorem writeGopBody_frame (env : Env) (s : Muxer) (t : GoTime) :
    Frame FlushEv s (writeGopBody env s t).1 := by
  unfold writeGopBody
  split
  · exact Frame.refl _ _
  · dsimp only
    split
    · exact Frame.emit FlushEv _ _ rfl
    · split
      · refine Frame.trans ?_ (encodeGroup_frame env _ _ _)
        exact Frame.called FlushEv env s _ (by rfl)
      · exact Frame.called FlushEv env s _ (by rfl)

/-! ## Packets before the session is ready -/

theorem WritePacket_no_streams (env : Env) (s : Muxer) (pkt : Packet)
    (h : s.gof.Streams = []) : WritePacket env s pkt = .ret s none := by
  simp [WritePacket, h]

theorem WritePacket_not_started (env : Env) (s : Muxer) (pkt : Packet)
    (hs : s.started = false) (hk : pkt.IsKeyFrame = false) :
    WritePacket env s pkt = .ret s none := by
  simp [WritePacket, hs, hk]

theorem runFrom_not_started (env : Env) (s : Muxer) (e : Option Err) (ps : List Packet)
    (hs : s.started = false) (hk : ∀ p ∈ ps, p.IsKeyFrame = false) :
    runFrom env (ps.map Call.packet) (.ret s e) = .ret s (if ps = [] then e else none) := by
  induction ps generalizing e with
  | nil => rfl
  | cons p ps ih =>
    have hp : p.IsKeyFrame = false := hk p (List.mem_cons_self _ _)
    have hps : ∀ q ∈ ps, q.IsKeyFrame = false := fun q hq => hk q (List.mem_cons_of_mem _ hq)
    simp only [List.map_cons, runFrom, step, WritePacket_not_started env s p hs hp, ih none hps]
    simp

/-- C1: `WritePacket` is a no-op while the session is not ready. If no codec
parameters are stored, or the session has not started and the packet is not a
keyframe, the call returns `nil` and leaves the session and the world around it
(files, muxer calls, buffered group) exactly as they were; hence any sequence
of non-keyframe packets submitted to a session that has not started, whatever
its format, changes nothing. -/
theorem WritePacket_noop_until_ready (env : Env) (s : Muxer) :
    (∀ pkt : Packet, s.gof.Streams = [] ∨ (s.started = false ∧ pkt.IsKeyFrame = false) →
      WritePacket env s pkt = .ret s none) ∧
    (∀ ps : List Packet, s.started = false → (∀ p ∈ ps, p.IsKeyFrame = false) →
      run env s (ps.map Call.packet) = .ret s none) := by
  refine ⟨fun pkt h => ?_, fun ps hs hk => ?_⟩
  · rcases h with h | ⟨hs, hk⟩
    · exact WritePacket_no_streams env s pkt h
    · exact WritePacket_not_started env s pkt hs hk
  · rw [run, runFrom_not_started env s none ps hs hk]
    simp

/-- C1, at a sample: two non-keyframe packets on a fresh indexed session that
has its header. -/
theorem WritePacket_noop_until_ready_witness :
    WritePacket sampleEnv (WriteHeader sampleEnv (sampleMuxer "/data".toList NVR 10) [[1]]).1
        (samplePacket false 0 0 40)
      = .ret (WriteHeader sampleEnv (sampleMuxer "/data".toList NVR 10) [[1]]).1 none ∧
    run sampleEnv (WriteHeader sampleEnv (sampleMuxer "/data".toList NVR 10) [[1]]).1
        ([samplePacket false 0 0 40, samplePacket false 1 0 20].map Call.packet)
      = .ret (WriteHeader sampleEnv (sampleMuxer "/data".toList NVR 10) [[1]]).1 none :=
  ⟨(WritePacket_noop_until_ready sampleEnv _).1 _ (Or.inr ⟨rfl, rfl⟩),
   (WritePacket_noop_until_ready sampleEnv _).2 _ rfl (by decide)⟩

/-! ## Keyframe-delimited groups -/

theorem writeGop_frame (env : Env) (s : Muxer) :
    Frame (fun e => e = .enterWriteGop s.gof ∨ FlushEv e) s (writeGop env s).1 := by
  have h0 : Frame (fun e => e = .enterWriteGop s.gof ∨ FlushEv e) s
      ((s.emit (.enterWriteGop s.gof)).readClock env).2 :=
    (Frame.emit _ s _ (Or.inl rfl)).trans (Frame.readClock _ env _)
  unfold writeGop
  dsimp only
  split
  · split
    · rename_i s1 e heq
      have h1 := (OpenNVR_frame env ((s.emit (.enterWriteGop s.gof)).readClock env).2)
      rw [heq] at h1
      exact h0.trans (h1.mono (fun _ h => Or.inr h.flush))
    · rename_i s1 heq
      have h1 := (OpenNVR_frame env ((s.emit (.enterWriteGop s.gof)).readClock env).2)
      rw [heq] at h1
      exact (h0.trans (h1.mono (fun _ h => Or.inr h.flush))).trans
        ((writeGopBody_frame env _ _).mono (fun _ h => Or.inr h))
  · exact h0.trans ((writeGopBody_frame env _ _).mono (fun _ h => Or.inr h))

theorem wellFormedGroup_append (ps : List Packet) (p : Packet)
    (h : wellFormedGroup ps = true) (hp : p.IsKeyFrame = false) :
    wellFormedGroup (ps ++ [p]) = true := by
  cases ps with
  | nil => simp [wellFormedGroup] at h
  | cons q qs =>
    simp only [wellFormedGroup, Bool.and_eq_true, List.all_eq_true, List.cons_append,
      List.mem_append, List.mem_singleton] at h ⊢
    refine ⟨h.1, fun x hx => ?_⟩
    rcases hx with hx | rfl
    · exact h.2 x hx
    · simp [hp]

theorem FlushedOk.of_frame {P : Event → Prop} {s1 s2 : Muxer} (h : FlushedOk s1)
    (hf : Frame P s1 s2)
    (hP : ∀ e, P e → ∀ g, e = .enterWriteGop g → wellFormedGroup g.Packet = true) :
    FlushedOk s2 := by
  obtain ⟨evs, ht, hp⟩ := hf.trace
  intro g hg
  rw [ht] at hg
  rcases List.mem_append.1 hg with hg | hg
  · exact h g hg
  · exact hP _ (hp _ hg) g rfl

theorem TrailerEv.not_flush_entry {e : Event} (h : TrailerEv e) (g : Gof) : e ≠ .enterWriteGop g := by
  rintro rfl; cases h

theorem OpenMP4Ev.no_flush_entry {e : Event} (h : OpenMP4Ev e) (g : Gof) : e ≠ .enterWriteGop g := by
  rintro rfl; cases h

theorem GopInv.of_quiet {P : Event → Prop} {s1 s2 : Muxer} (h : GopInv s1) (hf : Frame P s1 s2)
    (hP : ∀ e, P e → ∀ g, e ≠ .enterWriteGop g) : GopInv s2 := by
  refine ⟨h.1.of_frame hf (fun e he g hg => absurd hg (hP e he g)), ?_, ?_⟩
  · rw [hf.gof]; exact h.2.1
  · rw [hf.gof, hf.started, hf.format]; exact h.2.2

theorem FlushedOk.after_writeGop {env : Env} {s : Muxer} (h : FlushedOk s)
    (hw : wellFormedGroup s.gof.Packet = true) : FlushedOk (writeGop env s).1 := by
  refine h.of_frame (writeGop_frame env s) ?_
  rintro e (rfl | he) g hg
  · cases hg; exact hw
  · subst hg; cases he

theorem GopInv.after_WriteTrailer {env : Env} {s : Muxer} (h : GopInv s) :
    GopInv (WriteTrailer env s).1 :=
  h.of_quiet (WriteTrailer_frame env s) (fun _ he => he.not_flush_entry)

theorem GopInv.after_OpenMP4 {env : Env} {s : Muxer} (h : GopInv s) :
    GopInv (OpenMP4 env s).1 :=
  h.of_quiet (OpenMP4_frame env s) (fun _ he => he.no_flush_entry)

theorem GopInv.after_WriteHeader {env : Env} {s : Muxer} (h : GopInv s)
    (streams : List CodecData) : GopInv (WriteHeader env s streams).1 := by
  have h1 : GopInv ({ s with gof := { s.gof with Streams := streams } } : Muxer) := h
  unfold WriteHeader
  dsimp only
  split
  · exact h1.after_OpenMP4
  · exact h1

theorem appendPacket_trace (s : Muxer) (pkt : Packet) : (appendPacket s pkt).trace = s.trace := by
  unfold appendPacket; dsimp only; split <;> rfl

theorem appendPacket_started (s : Muxer) (pkt : Packet) :
    (appendPacket s pkt).started = s.started := by
  unfold appendPacket; dsimp only; split <;> rfl

theorem appendPacket_format (s : Muxer) (pkt : Packet) :
    (appendPacket s pkt).format = s.format := by
  unfold appendPacket; dsimp only; split <;> rfl

theorem appendPacket_Packet (s : Muxer) (pkt : Packet) :
    (appendPacket s pkt).gof.Packet = s.gof.Packet ++ [pkt] := by
  unfold appendPacket; dsimp only; split <;> rfl

/-- The invariant after a packet has been appended to the buffer of a started
indexed session. -/
theorem GopInv.of_append {s : Muxer} (pkt : Packet) (h1 : FlushedOk s)
    (hw : wellFormedGroup (s.gof.Packet ++ [pkt]) = true) (hs : s.started = true)
    (hf : s.format = NVR) : GopInv (appendPacket s pkt) := by
  refine ⟨?_, Or.inr ?_, ?_⟩
  · intro g hg; rw [appendPacket_trace] at hg; exact h1 g hg
  · rw [appendPacket_Packet]; exact hw
  · rw [appendPacket_Packet, appendPacket_started, appendPacket_format]
    simp [hs, hf]

theorem GopInv.after_writePacketNVR {env : Env} {s : Muxer} (pkt : Packet)
    (h1 : FlushedOk s) (h2 : s.gof.Packet = [] ∨ wellFormedGroup s.gof.Packet = true)
    (hs : s.started = true) (hf : s.format = NVR)
    (hne : pkt.IsKeyFrame = false → s.gof.Packet ≠ []) :
    GopInv (writePacketNVR env s pkt).1 := by
  have first : ∀ s1 : Muxer, FlushedOk s1 → s1.started = true → s1.format = NVR →
      pkt.IsKeyFrame = true →
      GopInv (appendPacket { s1 with gof := { s1.gof with Packet := [] }, dur := 0 } pkt) :=
    fun s1 a b c hk => GopInv.of_append pkt a (by simp [wellFormedGroup, hk]) b c
  unfold writePacketNVR
  split
  · rename_i hk
    split
    · rename_i hlen
      have hne2 : s.gof.Packet ≠ [] := by
        intro h0; rw [h0] at hlen; simp at hlen
      have hw := h2.resolve_left hne2
      have hg : FlushedOk (writeGop env s).1 := h1.after_writeGop hw
      have hfr := writeGop_frame env s
      split
      · rename_i s1 e heq
        rw [heq] at hg hfr
        refine ⟨hg, ?_, ?_⟩
        · rw [hfr.gof]; exact h2
        · rw [hfr.gof, hfr.started, hfr.format]; simp [hs, hf, hne2]
      · rename_i s1 heq
        rw [heq] at hg hfr
        exact first s1 hg (by rw [hfr.started]; exact hs) (by rw [hfr.format]; exact hf) hk
    · exact first s h1 hs hf hk
  · rename_i hk
    have hk2 : pkt.IsKeyFrame = false := by simpa using hk
    exact GopInv.of_append pkt h1
      (wellFormedGroup_append _ _ (h2.resolve_left (hne hk2)) hk2) hs hf

theorem rotate_frame (env : Env) (s : Muxer) (pkt : Packet) :
    ∃ evs, (rotate env s pkt).trace = s.trace ++ evs ∧ (∀ e ∈ evs, OpenMP4Ev e) ∧
      (pkt.IsKeyFrame = false → evs = []) ∧
      (rotate env s pkt).gof = s.gof ∧ (rotate env s pkt).format = s.format ∧
      (rotate env s pkt).started = s.started := by
  unfold rotate
  split
  · rename_i hc
    have hf := OpenMP4_frame env { s with pstart := pkt.Time }
    obtain ⟨evs, ht, hp⟩ := hf.trace
    exact ⟨evs, ht, hp, fun hk => by simp [hk] at hc, hf.gof, hf.format, hf.started⟩
  · exact ⟨[], by simp⟩

theorem forwardPacket_frame (env : Env) (s : Muxer) (pkt : Packet) :
    ((forwardPacket env s pkt).state.trace = s.trace ∨
      ∃ id ok, (forwardPacket env s pkt).state.trace = s.trace ++ [.muxPacket id pkt ok]) ∧
      (forwardPacket env s pkt).state.gof = s.gof ∧
      (forwardPacket env s pkt).state.format = s.format ∧
      (forwardPacket env s pkt).state.started = s.started := by
  unfold forwardPacket
  dsimp only
  split
  · exact ⟨Or.inl rfl, rfl, rfl, rfl⟩
  · exact ⟨Or.inr ⟨_, _, rfl⟩, rfl, rfl, rfl⟩

theorem MP4_ne_NVR : MP4 ≠ NVR := by decide

theorem GopInv.after_writePacketMP4 {env : Env} {s : Muxer} (pkt : Packet)
    (h1 : FlushedOk s) (h2 : s.gof.Packet = []) (hf : s.format = MP4) :
    GopInv (writePacketMP4 env s pkt).state := by
  obtain ⟨evs, ht, hp, -, hg, hfm, hs⟩ := rotate_frame env s pkt
  obtain ⟨ht2, hg2, hfm2, hs2⟩ := forwardPacket_frame env (rotate env s pkt) pkt
  unfold writePacketMP4
  refine ⟨fun g hg0 => ?_, ?_, ?_⟩
  · have : Event.enterWriteGop g ∈ (rotate env s pkt).trace := by
      rcases ht2 with ht2 | ⟨id, ok, ht2⟩
      · rw [ht2] at hg0; exact hg0
      · rw [ht2] at hg0; simpa using hg0
    rw [ht] at this
    rcases List.mem_append.1 this with h3 | h3
    · exact h1 g h3
    · exact absurd rfl ((hp _ h3).no_flush_entry g)
  · rw [hg2, hg]; exact Or.inl h2
  · rw [hg2, hg, hfm2, hfm, hf, h2]
    simp [MP4_ne_NVR]

theorem GopInv.after_WritePacket {env : Env} {s : Muxer} (h : GopInv s) (pkt : Packet) :
    GopInv (WritePacket env s pkt).state := by
  have hmp4 : s.format = MP4 → s.gof.Packet = [] := by
    intro hf
    by_contra hne
    exact MP4_ne_NVR (hf ▸ (h.2.2.1 hne).2)
  have hother : s.format ≠ NVR → GopInv ({ s with started := true } : Muxer) := by
    intro hf
    have : s.gof.Packet = [] := by
      by_contra hne
      exact hf (h.2.2.1 hne).2
    refine ⟨h.1, Or.inl this, ?_⟩
    show s.gof.Packet ≠ [] ↔ (true = true ∧ s.format = NVR)
    simp [this, hf]
  unfold WritePacket
  split
  · exact h
  · dsimp only
    by_cases hst : s.started = true
    · have e1 : (if (!s.started && pkt.IsKeyFrame) = true then
          ({ s with started := true } : Muxer) else s) = s := by simp [hst]
      rw [e1]
      simp only [hst, if_true]
      split
      · rename_i hf; exact GopInv.after_writePacketMP4 pkt h.1 (hmp4 hf) hf
      · split
        · rename_i hf
          exact GopInv.after_writePacketNVR pkt h.1 h.2.1 hst hf (fun _ => h.2.2.2 ⟨hst, hf⟩)
        · exact h
    · have hst2 : s.started = false := by simpa using hst
      by_cases hk : pkt.IsKeyFrame = true
      · have e1 : (if (!s.started && pkt.IsKeyFrame) = true then
            ({ s with started := true } : Muxer) else s) = { s with started := true } := by
          simp [hst2, hk]
        rw [e1]
        simp only [if_true]
        split
        · rename_i hf
          exact GopInv.after_writePacketMP4 (s := { s with started := true }) pkt h.1
            (hmp4 hf) hf
        · split
          · rename_i hf
            exact GopInv.after_writePacketNVR (s := { s with started := true }) pkt h.1 h.2.1 rfl
              hf (fun hk2 => by rw [hk] at hk2; cases hk2)
          · rename_i hf
            exact hother hf
      · have e1 : (if (!s.started && pkt.IsKeyFrame) = true then
            ({ s with started := true } : Muxer) else s) = s := by simp [hst2, hk]
        rw [e1]
        simp only [hst2]
        exact h

theorem GopInv.after_step {env : Env} {s : Muxer} (h : GopInv s) (c : Call) :
    GopInv (step env s c).state := by
  cases c with
  | header streams => exact h.after_WriteHeader streams
  | packet pkt => exact h.after_WritePacket pkt
  | trailer => exact h.after_WriteTrailer

theorem GopInv.after_runFrom (env : Env) (cs : List Call) (o : Outcome) (h : GopInv o.state) :
    GopInv (runFrom env cs o).state := by
  induction cs generalizing o with
  | nil => exact h
  | cons c cs ih =>
    cases o with
    | ret s e => exact ih _ (GopInv.after_step (s := s) h c)
    | panic s => exact h

theorem GopInv.init (env : Env)
    (serverID streamName channelName streamID channelID patch format : GoString) (limit : Int) :
    GopInv (NewMuxer env serverID streamName channelName streamID channelID patch format limit) := by
  refine ⟨fun g hg => ?_, Or.inl rfl, ?_⟩
  · simp [NewMuxer] at hg
  · simp [NewMuxer]

/-- C2: in a session created by `NewMuxer` for the indexed format, after any
sequence of `WriteHeader`, `WritePacket` and `WriteTrailer` calls and whatever
the outcome of each external call, every group with which `writeGop` has been
entered is non-empty, begins with a keyframe and has no keyframe after its
first packet. -/
theorem flushed_groups_keyframe_delimited (env : Env)
    (serverID streamName channelName streamID channelID patch : GoString) (limit : Int)
    (cs : List Call) (g : Gof) :
    Event.enterWriteGop g ∈
        (run env (NewMuxer env serverID streamName channelName streamID channelID patch NVR
          limit) cs).state.trace →
      ∃ p rest, g.Packet = p :: rest ∧ p.IsKeyFrame = true ∧ ∀ q ∈ rest, q.IsKeyFrame = false := by
  intro hg
  have h := (GopInv.after_runFrom env cs (.ret _ none)
    (GopInv.init env serverID streamName channelName streamID channelID patch NVR limit)).1 g hg
  cases hp : g.Packet with
  | nil => rw [hp] at h; simp [wellFormedGroup] at h
  | cons p rest =>
    rw [hp] at h
    simp only [wellFormedGroup, Bool.and_eq_true, List.all_eq_true] at h
    exact ⟨p, rest, rfl, h.1, fun q hq => by simpa using h.2 q hq⟩


set_option maxRecDepth 100000 in
/-- C2, at the sample recording: the group flushed by the second keyframe. -/
theorem flushed_groups_keyframe_delimited_witness :
    Event.enterWriteGop sampleGroup ∈
        (run sampleEnv (NewMuxer sampleEnv "srv1".toList "cam".toList "main".toList "7".toList
          "3".toList "/data".toList NVR 10) sampleIndexedCalls).state.trace ∧
      ∃ p rest, sampleGroup.Packet = p :: rest ∧ p.IsKeyFrame = true ∧
        ∀ q ∈ rest, q.IsKeyFrame = false :=
  ⟨by decide, flushed_groups_keyframe_delimited sampleEnv "srv1".toList "cam".toList "main".toList
    "7".toList "3".toList "/data".toList 10 sampleIndexedCalls sampleGroup (by decide)⟩

/-! ## Container rotation and keyframes -/

theorem awaitingFirst_snoc_forward (tr : List Event) (id : Nat) (p : Packet) (ok : Bool) :
    awaitingFirst (tr ++ [.muxPacket id p ok]) = false := by
  simp [awaitingFirst, List.foldl_append]

theorem FirstForwardsKey.snoc {tr : List Event} (h : FirstForwardsKey tr) (x : Event)
    (hx : ∀ id p ok, x = .muxPacket id p ok → awaitingFirst tr = true → p.IsKeyFrame = true) :
    FirstForwardsKey (tr ++ [x]) := by
  intro pre post id p ok heq hpre
  rcases List.eq_nil_or_concat post with hp | ⟨post1, y, hp⟩
  · subst hp
    have h1 : tr ++ [x] = pre ++ [Event.muxPacket id p ok] := heq
    have h2 := List.append_inj' h1 rfl
    exact hx id p ok (List.singleton_inj.1 h2.2) (h2.1 ▸ hpre)
  · subst hp
    have h1 : tr ++ [x] = (pre ++ Event.muxPacket id p ok :: post1) ++ [y] := by
      rw [heq]; simp
    have h2 := List.append_inj' h1 rfl
    exact h pre post1 id p ok h2.1 hpre

theorem FirstForwardsKey.append_quiet {tr : List Event} (h : FirstForwardsKey tr) (evs : List Event)
    (hx : ∀ e ∈ evs, ∀ id p ok, e ≠ .muxPacket id p ok) : FirstForwardsKey (tr ++ evs) := by
  induction evs generalizing tr with
  | nil => simpa using h
  | cons x evs ih =>
    have h1 : FirstForwardsKey (tr ++ [x]) :=
      h.snoc x (fun id p ok he _ => absurd he (hx x (List.mem_cons_self _ _) id p ok))
    have h2 := ih h1 (fun e he => hx e (List.mem_cons_of_mem _ he))
    simpa using h2

theorem OpenMP4Ev.not_forward {e : Event} (h : OpenMP4Ev e) (id : Nat) (p : Packet) (ok : Bool) :
    e ≠ .muxPacket id p ok := by
  rintro rfl; cases h


theorem KeyInv.open_segment {env : Env} {s : Muxer} (h : FirstForwardsKey s.trace)
    (hs : s.started = false) : KeyInv (OpenMP4 env s).1 := by
  have hf := OpenMP4_frame env s
  obtain ⟨evs, ht, hp⟩ := hf.trace
  refine ⟨?_, fun _ => ?_⟩
  · rw [ht]
    exact h.append_quiet evs (fun e he id p ok => (hp e he).not_forward id p ok)
  · rw [hf.started]; exact hs

theorem KeyInv.forward_packet (env : Env) (s : Muxer) (pkt : Packet)
    (h : FirstForwardsKey s.trace)
    (hk : pkt.IsKeyFrame = false → awaitingFirst s.trace = false) :
    FirstForwardsKey (writePacketMP4 env s pkt).state.trace ∧
      ∀ s1 e, writePacketMP4 env s pkt = .ret s1 e → awaitingFirst s1.trace = false := by
  obtain ⟨evs, ht, hp, hnk, -, -, -⟩ := rotate_frame env s pkt
  have h1 : FirstForwardsKey (rotate env s pkt).trace := by
    rw [ht]
    exact h.append_quiet evs (fun e he id p ok => (hp e he).not_forward id p ok)
  have h2 : awaitingFirst (rotate env s pkt).trace = true → pkt.IsKeyFrame = true := by
    intro ha
    by_contra hkf
    have hkf2 : pkt.IsKeyFrame = false := by simpa using hkf
    rw [ht, hnk hkf2, List.append_nil, hk hkf2] at ha
    cases ha
  unfold writePacketMP4 forwardPacket
  dsimp only
  split
  · exact ⟨h1, fun s1 e he => by cases he⟩
  · refine ⟨?_, fun s1 e he => ?_⟩
    · refine h1.snoc _ ?_
      intro id p ok he ha
      cases he
      exact h2 ha
    · cases he
      exact awaitingFirst_snoc_forward _ _ _ _


theorem writePacketMP4_format (env : Env) (s : Muxer) (pkt : Packet) :
    (writePacketMP4 env s pkt).state.format = s.format := by
  obtain ⟨evs, -, -, -, -, hfm, -⟩ := rotate_frame env s pkt
  obtain ⟨-, -, hfm2, -⟩ := forwardPacket_frame env (rotate env s pkt) pkt
  unfold writePacketMP4
  rw [hfm2, hfm]

theorem KeyInv.write_packet (env : Env) {s : Muxer} (h : KeyInv s) (hf : s.format = MP4)
    (pkt : Packet) :
    FirstForwardsKey (WritePacket env s pkt).state.trace ∧
      ∀ s1 e, WritePacket env s pkt = .ret s1 e → KeyInv s1 ∧ s1.format = MP4 := by
  have main : ∀ s0 : Muxer, s0.trace = s.trace → s0.format = MP4 →
      (pkt.IsKeyFrame = false → awaitingFirst s.trace = false) →
      FirstForwardsKey (writePacketMP4 env s0 pkt).state.trace ∧
        ∀ s1 e, writePacketMP4 env s0 pkt = .ret s1 e → KeyInv s1 ∧ s1.format = MP4 := by
    intro s0 ht hf0 hk
    have h0 := KeyInv.forward_packet env s0 pkt (ht ▸ h.1) (ht ▸ hk)
    refine ⟨h0.1, fun s1 e he => ⟨⟨?_, fun ha => ?_⟩, ?_⟩⟩
    · have := h0.1; rw [he] at this; exact this
    · rw [h0.2 s1 e he] at ha; cases ha
    · have := writePacketMP4_format env s0 pkt
      rw [he] at this
      exact this.trans hf0
  have same : FirstForwardsKey (Outcome.ret s none).state.trace ∧
      ∀ s1 e, Outcome.ret s none = .ret s1 e → KeyInv s1 ∧ s1.format = MP4 := by
    refine ⟨h.1, fun s1 e he => ?_⟩
    cases he
    exact ⟨h, hf⟩
  unfold WritePacket
  split
  · exact same
  · dsimp only
    by_cases hst : s.started = true
    · have e1 : (if (!s.started && pkt.IsKeyFrame) = true then
          ({ s with started := true } : Muxer) else s) = s := by simp [hst]
      rw [e1]
      simp only [hst, if_true, hf]
      refine main s rfl hf (fun _ => ?_)
      by_contra ha
      have := h.2 (by simpa using ha)
      rw [hst] at this; cases this
    · have hst2 : s.started = false := by simpa using hst
      by_cases hk : pkt.IsKeyFrame = true
      · have e1 : (if (!s.started && pkt.IsKeyFrame) = true then
            ({ s with started := true } : Muxer) else s) = { s with started := true } := by
          simp [hst2, hk]
        rw [e1]
        simp only [if_true, hf]
        exact main _ rfl rfl (fun hk2 => by rw [hk] at hk2; cases hk2)
      · have e1 : (if (!s.started && pkt.IsKeyFrame) = true then
            ({ s with started := true } : Muxer) else s) = s := by simp [hst2, hk]
        rw [e1]
        simp only [hst2]
        exact same

theorem KeyInv.packets (env : Env) (ps : List Packet) (s : Muxer) (e : Option Err)
    (h : KeyInv s) (hf : s.format = MP4) :
    FirstForwardsKey (runFrom env (ps.map Call.packet) (.ret s e)).state.trace := by
  induction ps generalizing s e with
  | nil => exact h.1
  | cons p ps ih =>
    have h1 := h.write_packet env hf p
    simp only [List.map_cons, runFrom, step]
    cases hw : WritePacket env s p with
    | ret s1 e1 =>
      obtain ⟨hk, hf1⟩ := h1.2 s1 e1 hw
      exact ih s1 e1 hk hf1
    | panic s1 =>
      rw [runFrom_panic]
      have := h1.1
      rw [hw] at this
      exact this

theorem WritePacket_nonkey_trace (env : Env) (s : Muxer) (pkt : Packet)
    (hk : pkt.IsKeyFrame = false) :
    (WritePacket env s pkt).state.trace = s.trace ∨
      ∃ id ok, (WritePacket env s pkt).state.trace = s.trace ++ [.muxPacket id pkt ok] := by
  have hrot : ∀ s0 : Muxer, rotate env s0 pkt = s0 := by
    intro s0; unfold rotate; simp [hk]
  unfold WritePacket
  split
  · exact Or.inl rfl
  · have e1 : (if (!s.started && pkt.IsKeyFrame) = true then
        ({ s with started := true } : Muxer) else s) = s := by simp [hk]
    dsimp only
    rw [e1]
    split
    · split
      · unfold writePacketMP4
        rw [hrot]
        exact (forwardPacket_frame env s pkt).1
      · split
        · left
          unfold writePacketNVR
          simp only [hk, Bool.false_eq_true, if_false]
          exact appendPacket_trace s pkt
        · exact Or.inl rfl
    · exact Or.inl rfl

/-- C3: container rotation never splits a group. A call of `WritePacket` with a
packet that is not a keyframe opens no segment: at most the forwarding of that
packet is added to the external calls. And in a container session created by
`NewMuxer`, after `WriteHeader` and any sequence of packets, whatever the
external calls return, every packet forwarded first after an entry into
`OpenMP4` (the first segment or a rotation), or first of all, is a keyframe. -/
theorem rotation_only_at_keyframes (env : Env)
    (serverID streamName channelName streamID channelID patch : GoString) (limit : Int)
    (streams : List CodecData) (ps : List Packet) :
    (∀ (s : Muxer) (pkt : Packet), pkt.IsKeyFrame = false →
      ((WritePacket env s pkt).state.trace = s.trace ∨
        ∃ id ok, (WritePacket env s pkt).state.trace = s.trace ++ [.muxPacket id pkt ok])) ∧
    FirstForwardsKey
      (run env (NewMuxer env serverID streamName channelName streamID channelID patch MP4 limit)
        (.header streams :: ps.map Call.packet)).state.trace := by
  refine ⟨fun s pkt hk => WritePacket_nonkey_trace env s pkt hk, ?_⟩
  have h0 : KeyInv (WriteHeader env
      (NewMuxer env serverID streamName channelName streamID channelID patch MP4 limit)
      streams).1 := by
    unfold WriteHeader
    simp only [NewMuxer, if_true]
    exact KeyInv.open_segment (by intro pre post id p ok he; simp at he) rfl
  have hf0 : (WriteHeader env
      (NewMuxer env serverID streamName channelName streamID channelID patch MP4 limit)
      streams).1.format = MP4 := by
    unfold WriteHeader
    simp only [NewMuxer, if_true]
    exact (OpenMP4_frame env _).format
  simp only [run, runFrom, step]
  exact KeyInv.packets env ps _ _ h0 hf0


set_option maxRecDepth 100000 in
/-- C3, at a sample: a frame that is not a keyframe on the fresh sample session
leaves the trace as it is, and the packet forwarded first after the opening of
the first segment of a sample recording is its keyframe. -/
theorem rotation_only_at_keyframes_witness :
    ((WritePacket sampleEnv (sampleMuxer "/rec/a.mp4".toList MP4 10)
          (samplePacket false 0 1000 1000)).state.trace
        = (sampleMuxer "/rec/a.mp4".toList MP4 10).trace ∨
      ∃ id ok, (WritePacket sampleEnv (sampleMuxer "/rec/a.mp4".toList MP4 10)
          (samplePacket false 0 1000 1000)).state.trace
        = (sampleMuxer "/rec/a.mp4".toList MP4 10).trace ++
          [.muxPacket id (samplePacket false 0 1000 1000) ok]) ∧
    (samplePacket true 0 0 1000).IsKeyFrame = true :=
  ⟨(rotation_only_at_keyframes sampleEnv "srv1".toList "cam".toList "main".toList "7".toList
      "3".toList "/rec/a.mp4".toList 10 [[1]] samplePackets).1
      (sampleMuxer "/rec/a.mp4".toList MP4 10) (samplePacket false 0 1000 1000) rfl,
   (rotation_only_at_keyframes sampleEnv "srv1".toList "cam".toList "main".toList "7".toList
      "3".toList "/rec/a.mp4".toList 10 [[1]] samplePackets).2
      [.enterOpenMP4, .mkdirAll "/rec".toList true, .create "/rec/tmp.mp4".toList true,
        .muxHeader 0 [[1]] true]
      [.muxPacket 0 (samplePacket false 0 1000 1000) true,
        .muxPacket 0 (samplePacket false 0 2000 1000) true]
      0 (samplePacket true 0 0 1000) true (by decide) (by decide)⟩

/-! ## The container scenario -/

theorem Files.set_same (fs : Files) (name : GoString) (c : Option (List Nat)) :
    fs.set name c name = c := by
  simp [Files.set]

theorem finalized_emit (s : Muxer) (e : Event) :
    finalized (s.emit e) = finalized s + (if e.isRenamed = true then 1 else 0) := by
  simp [finalized, Muxer.emit, List.countP_append, List.countP_cons]

theorem closeFile_count (env : Env) (s : Muxer) (f : File) :
    finalized (closeFile env s f).2.2 = finalized s ∧ (closeFile env s f).2.2.m = s.m := by
  unfold closeFile
  split
  · exact ⟨by rw [finalized_emit]; rfl, rfl⟩
  · exact ⟨by dsimp only; rw [finalized_emit]; rfl, rfl⟩

theorem renameFile_ok (env : Env) (hok : ∀ k, env.ioOk k = true) (s : Muxer)
    (src dst : GoString) (c : List Nat) (hfs : s.fs src = some c) :
    (renameFile env s src dst).1 = true ∧
      finalized (renameFile env s src dst).2 = finalized s + 1 ∧
      (renameFile env s src dst).2.m = s.m := by
  unfold renameFile
  rw [hfs]
  have h1 : (s.call env).1 = true := hok _
  dsimp only
  rw [h1]
  simp only [if_true]
  refine ⟨trivial, ?_, ?_⟩
  · split
    · rw [finalized_emit]; rfl
    · show finalized ((s.call env).2.emit (.rename src dst true)) = _
      rw [finalized_emit]; rfl
  · split <;> rfl

theorem finishData_ok (env : Env) (hok : ∀ k, env.ioOk k = true) (s : Muxer) (f : File)
    (c : List Nat) (hf : s.format = MP4) (hfs : s.fs f.name = some c) :
    finalized (finishData env s f).1 = finalized s + 1 ∧ (finishData env s f).1.m = s.m := by
  unfold finishData
  rw [if_pos hf]
  have h1 : ((filePatch env s).2.call env).1 = true := hok _
  dsimp only
  rw [h1]
  simp only [if_true]
  have hr := renameFile_ok env hok
    (((filePatch env s).2.call env).2.emit (.mkdirAll (env.dir (filePatch env s).1) true))
    f.name (filePatch env s).1 c hfs
  rw [hr.1]
  simp only [if_true]
  have hc := closeFile_count env (renameFile env
    (((filePatch env s).2.call env).2.emit (.mkdirAll (env.dir (filePatch env s).1) true))
    f.name (filePatch env s).1).2 f
  refine ⟨?_, ?_⟩
  · show finalized (closeFile env _ f).2.2 = _
    rw [hc.1, hr.2.1, finalized_emit]; rfl
  · show (closeFile env _ f).2.2.m = _
    rw [hc.2, hr.2.2]; rfl

theorem WriteTrailer_active (env : Env) (hok : ∀ k, env.ioOk k = true) (s : Muxer)
    (h : Active s) :
    finalized (WriteTrailer env s).1 = finalized s + 1 ∧ (WriteTrailer env s).1.m = none := by
  obtain ⟨mx, hmx⟩ := h.muxer
  obtain ⟨f, c, hd, hc, hfs⟩ := h.d
  have e1 : trailerMuxer env s = (s.call env).2.emit (.muxTrailer mx.id (s.call env).1) := by
    unfold trailerMuxer; rw [hmx]
  have e2 : closeIndex env (trailerMuxer env s) = (trailerMuxer env s, none) := by
    have : (trailerMuxer env s).m = none := by rw [e1]; exact h.m
    unfold closeIndex; rw [this]
  have e3 : (trailerMuxer env s).d = some f := by rw [e1]; exact hd
  have hfd := finishData_ok env hok (trailerMuxer env s) f c (by rw [e1]; exact h.format)
    (by rw [e1]; exact hfs)
  unfold WriteTrailer
  dsimp only
  rw [e2]
  dsimp only
  rw [e3]
  dsimp only
  refine ⟨?_, ?_⟩
  · rw [hfd.1, e1, finalized_emit]; rfl
  · rw [hfd.2, e1]; exact h.m


theorem renameFile_m (env : Env) (s : Muxer) (src dst : GoString) :
    (renameFile env s src dst).2.m = s.m := by
  unfold renameFile
  split
  · rfl
  · dsimp only
    split
    · split <;> rfl
    · rfl

theorem finishData_m (env : Env) (s : Muxer) (f : File) : (finishData env s f).1.m = s.m := by
  unfold finishData
  dsimp only
  split
  · split
    · split
      · show (closeFile env _ f).2.2.m = _
        rw [(closeFile_count env _ f).2, renameFile_m]; rfl
      · rw [renameFile_m]; rfl
    · rfl
  · exact (closeFile_count env s f).2

theorem WriteTrailer_m_none (env : Env) (s : Muxer) (h : s.m = none) :
    (WriteTrailer env s).1.m = none := by
  have e1 : (trailerMuxer env s).m = none := by
    unfold trailerMuxer; split
    · exact h
    · exact h
  have e2 : closeIndex env (trailerMuxer env s) = (trailerMuxer env s, none) := by
    unfold closeIndex; rw [e1]
  unfold WriteTrailer
  dsimp only
  rw [e2]
  dsimp only
  split
  · rw [finishData_m]; exact e1
  · exact e1

theorem createSegment_ok (env : Env) (hok : ∀ k, env.ioOk k = true) (s : Muxer)
    (dir : GoString) :
    (∃ mx, (createSegment env s dir).1.muxer = some mx) ∧
      (∃ f c, (createSegment env s dir).1.d = some f ∧ f.closed = false ∧
        (createSegment env s dir).1.fs f.name = some c) ∧
      (createSegment env s dir).1.m = s.m ∧
      finalized (createSegment env s dir).1 = finalized s := by
  unfold createSegment
  have h1 : (s.call env).1 = true := hok _
  dsimp only
  rw [h1]
  simp only [if_true]
  refine ⟨⟨_, rfl⟩, ⟨_, [], rfl, rfl, ?_⟩, rfl, ?_⟩
  · exact Files.set_same _ _ _
  · rw [finalized_emit]
    show finalized ((s.call env).2.emit (.create (dir ++ "/tmp.mp4".toList) true)) + 0 = _
    rw [finalized_emit]; rfl

theorem openSegment_ok (env : Env) (hok : ∀ k, env.ioOk k = true) (s : Muxer)
    (hm : s.m = none) (hf : s.format = MP4) (hst : s.gof.Streams ≠ []) :
    Active (openSegment env s).1 ∧ finalized (openSegment env s).1 = finalized s := by
  have hfr := openSegment_frame env s
  unfold openSegment at hfr ⊢
  dsimp only at hfr ⊢
  have h1 : ((filePatch env { (s.readClock env).2 with start := (s.readClock env).1 }).2.call
      env).1 = true := hok _
  rw [h1] at hfr ⊢
  simp only [if_true] at hfr ⊢
  obtain ⟨hmx, hd, hmm, hfin⟩ := createSegment_ok env hok
    (((filePatch env { (s.readClock env).2 with start := (s.readClock env).1 }).2.call env).2.emit
      (.mkdirAll (env.dir (filePatch env
        { (s.readClock env).2 with start := (s.readClock env).1 }).1) true))
    (env.dir (filePatch env { (s.readClock env).2 with start := (s.readClock env).1 }).1)
  refine ⟨⟨?_, ?_, hmx, ?_, hd⟩, ?_⟩
  · rw [hfr.format]; exact hf
  · rw [hfr.gof]; exact hst
  · rw [hmm]; exact hm
  · rw [hfin, finalized_emit]; rfl

theorem OpenMP4_ok (env : Env) (hok : ∀ k, env.ioOk k = true) (s : Muxer)
    (hm : s.m = none) (hf : s.format = MP4) (hst : s.gof.Streams ≠ []) :
    Active (OpenMP4 env s).1 ∧
      finalized (OpenMP4 env s).1 = finalized (WriteTrailer env (s.emit .enterOpenMP4)).1 := by
  have hfr := WriteTrailer_frame env (s.emit .enterOpenMP4)
  exact openSegment_ok env hok _ (WriteTrailer_m_none env _ hm)
    (by rw [hfr.format]; exact hf) (by rw [hfr.gof]; exact hst)


theorem wrap64_add_left (a b : Int) : wrap64 (wrap64 a + b) = wrap64 (a + b) := by
  unfold wrap64; omega

theorem wrap64_idem (a : Int) : wrap64 (wrap64 a) = wrap64 a := by
  unfold wrap64; omega

theorem forwardPacket_ok (env : Env) (hok : ∀ k, env.ioOk k = true) (s : Muxer) (pkt : Packet)
    (h : Active s) :
    ∃ s1, forwardPacket env s pkt = .ret s1 none ∧ Active s1 ∧ s1.limit = s.limit ∧
      s1.started = s.started ∧ s1.dur = wrap64 (s.dur + pkt.Duration) ∧
      finalized s1 = finalized s := by
  obtain ⟨mx, hmx⟩ := h.muxer
  have h1 : ∀ s0 : Muxer, (s0.call env).1 = true := fun s0 => hok _
  unfold forwardPacket
  dsimp only
  split
  · rename_i heq
    rw [hmx] at heq; cases heq
  · rw [h1]
    refine ⟨_, rfl, ⟨h.format, h.streams, ⟨mx, hmx⟩, h.m, h.d⟩, rfl, rfl, rfl, ?_⟩
    rw [finalized_emit]; rfl

theorem rotate_ok (env : Env) (hok : ∀ k, env.ioOk k = true) (s : Muxer) (pkt : Packet)
    (h : Active s) :
    Active (rotate env s pkt) ∧ (rotate env s pkt).limit = s.limit ∧
      (rotate env s pkt).started = s.started ∧
      (if pkt.IsKeyFrame = true ∧ s.dur > wrap64 (s.limit * Second) then
        (rotate env s pkt).dur = 0 ∧ finalized (rotate env s pkt) = finalized s + 1
      else (rotate env s pkt).dur = s.dur ∧ finalized (rotate env s pkt) = finalized s) := by
  unfold rotate
  split
  · have ha : Active ({ s with pstart := pkt.Time } : Muxer) :=
      ⟨h.format, h.streams, h.muxer, h.m, h.d⟩
    have ha2 : Active (({ s with pstart := pkt.Time } : Muxer).emit .enterOpenMP4) :=
      ⟨h.format, h.streams, h.muxer, h.m, h.d⟩
    have hfr := OpenMP4_frame env { s with pstart := pkt.Time }
    obtain ⟨hact, hfin⟩ := OpenMP4_ok env hok { s with pstart := pkt.Time } h.m h.format
      h.streams
    have hw := (WriteTrailer_active env hok _ ha2).1
    refine ⟨⟨hact.format, hact.streams, hact.muxer, hact.m, hact.d⟩, hfr.limit, hfr.started,
      rfl, ?_⟩
    show finalized (OpenMP4 env { s with pstart := pkt.Time }).1 = _
    rw [hfin, hw, finalized_emit]; rfl
  · exact ⟨h, rfl, rfl, rfl, rfl⟩

theorem writePacketMP4_ok (env : Env) (hok : ∀ k, env.ioOk k = true) (s : Muxer) (pkt : Packet)
    (h : Active s) :
    ∃ s1, writePacketMP4 env s pkt = .ret s1 none ∧ Active s1 ∧ s1.limit = s.limit ∧
      s1.started = s.started ∧
      (if pkt.IsKeyFrame = true ∧ s.dur > wrap64 (s.limit * Second) then
        s1.dur = wrap64 (0 + pkt.Duration) ∧ finalized s1 = finalized s + 1
      else s1.dur = wrap64 (s.dur + pkt.Duration) ∧ finalized s1 = finalized s) := by
  obtain ⟨ha, hl, hs, hc⟩ := rotate_ok env hok s pkt h
  obtain ⟨s1, he, ha1, hl1, hs1, hd1, hf1⟩ := forwardPacket_ok env hok (rotate env s pkt) pkt ha
  refine ⟨s1, he, ha1, hl1.trans hl, hs1.trans hs, ?_⟩
  split
  · rename_i hc1
    rw [if_pos hc1] at hc
    rw [hd1, hf1, hc.1, hc.2]
    exact ⟨rfl, rfl⟩
  · rename_i hc1
    rw [if_neg hc1] at hc
    rw [hd1, hf1, hc.1, hc.2]
    exact ⟨rfl, rfl⟩

theorem WritePacket_ok (env : Env) (hok : ∀ k, env.ioOk k = true) (s : Muxer) (pkt : Packet)
    (h : Active s) (hs : s.started = true ∨ pkt.IsKeyFrame = true) :
    ∃ s1, WritePacket env s pkt = .ret s1 none ∧ Active s1 ∧ s1.limit = s.limit ∧
      s1.started = true ∧
      (if pkt.IsKeyFrame = true ∧ s.dur > wrap64 (s.limit * Second) then
        s1.dur = wrap64 (0 + pkt.Duration) ∧ finalized s1 = finalized s + 1
      else s1.dur = wrap64 (s.dur + pkt.Duration) ∧ finalized s1 = finalized s) := by
  have hlen : ¬ s.gof.Streams.length = 0 := by
    intro h0; exact h.streams (List.length_eq_zero.1 h0)
  have main : ∀ s0 : Muxer, Active s0 → s0.started = true → s0.limit = s.limit →
      s0.dur = s.dur → finalized s0 = finalized s →
      ∃ s1, writePacketMP4 env s0 pkt = .ret s1 none ∧ Active s1 ∧ s1.limit = s.limit ∧
      s1.started = true ∧
      (if pkt.IsKeyFrame = true ∧ s.dur > wrap64 (s.limit * Second) then
        s1.dur = wrap64 (0 + pkt.Duration) ∧ finalized s1 = finalized s + 1
      else s1.dur = wrap64 (s.dur + pkt.Duration) ∧ finalized s1 = finalized s) := by
    intro s0 ha hst hl hd hfin
    obtain ⟨s1, he, ha1, hl1, hs1, hc⟩ := writePacketMP4_ok env hok s0 pkt ha
    rw [hl, hd, hfin] at hc
    exact ⟨s1, he, ha1, hl1.trans hl, hs1.trans hst, hc⟩
  unfold WritePacket
  rw [if_neg hlen]
  dsimp only
  by_cases hst : s.started = true
  · have e1 : (if (!s.started && pkt.IsKeyFrame) = true then
        ({ s with started := true } : Muxer) else s) = s := by simp [hst]
    rw [e1]
    simp only [hst, if_true, h.format]
    exact main s h hst rfl rfl rfl
  · have hst2 : s.started = false := by simpa using hst
    have hk : pkt.IsKeyFrame = true := hs.resolve_left hst
    have e1 : (if (!s.started && pkt.IsKeyFrame) = true then
        ({ s with started := true } : Muxer) else s) = { s with started := true } := by
      simp [hst2, hk]
    rw [e1]
    simp only [if_true, h.format]
    exact main _ ⟨rfl, h.streams, h.muxer, h.m, h.d⟩ rfl rfl rfl rfl


theorem frames_ok (env : Env) (hok : ∀ k, env.ioOk k = true) (rs : List Packet)
    (hrs : ∀ q ∈ rs, q.IsKeyFrame = false) (s : Muxer) (e : Option Err) (h : Active s)
    (hst : s.started = true) (hr : wrap64 s.dur = s.dur) :
    ∃ s1 e1, runFrom env (rs.map Call.packet) (.ret s e) = .ret s1 e1 ∧ Active s1 ∧
      s1.limit = s.limit ∧ s1.started = true ∧
      s1.dur = wrap64 (s.dur + totalDuration rs) ∧ finalized s1 = finalized s := by
  induction rs generalizing s e with
  | nil => exact ⟨s, e, rfl, h, rfl, hst, by simp [totalDuration, hr], rfl⟩
  | cons p rs ih =>
    have hp : p.IsKeyFrame = false := hrs p (List.mem_cons_self _ _)
    obtain ⟨s1, he, ha1, hl1, hs1, hc⟩ := WritePacket_ok env hok s p h (Or.inl hst)
    rw [if_neg (by simp [hp])] at hc
    obtain ⟨s2, e2, he2, ha2, hl2, hs2, hd2, hf2⟩ := ih
      (fun q hq => hrs q (List.mem_cons_of_mem _ hq)) s1 none ha1 hs1
      (by rw [hc.1, wrap64_idem])
    refine ⟨s2, e2, ?_, ha2, hl2.trans hl1, hs2, ?_, hf2.trans hc.2⟩
    · simp only [List.map_cons, runFrom, step, he, he2]
    · rw [hd2, hc.1, wrap64_add_left]
      simp [totalDuration, add_assoc]

theorem gop_ok (env : Env) (hok : ∀ k, env.ioOk k = true) (g : List Packet) (hg : IsGop g)
    (s : Muxer) (e : Option Err) (h : Active s) :
    ∃ s1 e1, runFrom env (g.map Call.packet) (.ret s e) = .ret s1 e1 ∧ Active s1 ∧
      s1.limit = s.limit ∧ s1.started = true ∧ wrap64 s1.dur = s1.dur ∧
      (if s.dur > wrap64 (s.limit * Second) then
        s1.dur = wrap64 (totalDuration g) ∧ finalized s1 = finalized s + 1
      else s1.dur = wrap64 (s.dur + totalDuration g) ∧ finalized s1 = finalized s) := by
  obtain ⟨k, rest, rfl, hk, hrest⟩ := hg
  obtain ⟨s1, he, ha1, hl1, hs1, hc⟩ := WritePacket_ok env hok s k h (Or.inr hk)
  have hr1 : wrap64 s1.dur = s1.dur := by
    split at hc
    · rw [hc.1, wrap64_idem]
    · rw [hc.1, wrap64_idem]
  obtain ⟨s2, e2, he2, ha2, hl2, hs2, hd2, hf2⟩ := frames_ok env hok rest hrest s1 none ha1 hs1 hr1
  refine ⟨s2, e2, ?_, ha2, hl2.trans hl1, hs2, by rw [hd2, wrap64_idem], ?_⟩
  · simp only [List.map_cons, runFrom, step, he, he2]
  · simp only [hk, true_and] at hc
    split
    · rename_i hgt
      rw [if_pos hgt] at hc
      rw [hd2, hf2, hc.1, hc.2, wrap64_add_left]
      simp [totalDuration]
    · rename_i hgt
      rw [if_neg hgt] at hc
      rw [hd2, hf2, hc.1, hc.2, wrap64_add_left]
      simp [totalDuration, add_assoc]

theorem WriteTrailer_idle (env : Env) (s : Muxer) (h1 : s.muxer = none) (h2 : s.m = none)
    (h3 : s.d = none) : WriteTrailer env s = (s, none) := by
  have e1 : trailerMuxer env s = s := by unfold trailerMuxer; rw [h1]
  have e2 : closeIndex env s = (s, none) := by unfold closeIndex; rw [h2]
  unfold WriteTrailer
  dsimp only
  rw [e1, e2]
  dsimp only
  rw [h3]

theorem WriteHeader_fresh_ok (env : Env) (hok : ∀ k, env.ioOk k = true)
    (serverID streamName channelName streamID channelID patch : GoString) (limit : Int)
    (streams : List CodecData) (hst : streams ≠ []) :
    Active (WriteHeader env
        (NewMuxer env serverID streamName channelName streamID channelID patch MP4 limit)
        streams).1 ∧
      (WriteHeader env
        (NewMuxer env serverID streamName channelName streamID channelID patch MP4 limit)
        streams).1.limit = limit ∧
      (WriteHeader env
        (NewMuxer env serverID streamName channelName streamID channelID patch MP4 limit)
        streams).1.dur = 0 ∧
      finalized (WriteHeader env
        (NewMuxer env serverID streamName channelName streamID channelID patch MP4 limit)
        streams).1 = 0 := by
  unfold WriteHeader
  simp only [NewMuxer, if_true]
  have hfr := OpenMP4_frame env
    ({ muxer := none, format := MP4, limit := limit, d := none, m := none, dur := 0, h := -1,
       gof := ⟨streams, []⟩, patch := patch, start := GoTime.zero, end_ := GoTime.zero,
       pstart := 0, pend := 0, started := false, serverID := serverID,
       streamName := streamName, channelName := channelName, streamID := streamID,
       channelID := channelID, hostname := env.hostname, clock := 0, ops := 0, nextMux := 0,
       fs := env.files, trace := [] } : Muxer)
  obtain ⟨ha, hfin⟩ := OpenMP4_ok env hok
    ({ muxer := none, format := MP4, limit := limit, d := none, m := none, dur := 0, h := -1,
       gof := ⟨streams, []⟩, patch := patch, start := GoTime.zero, end_ := GoTime.zero,
       pstart := 0, pend := 0, started := false, serverID := serverID,
       streamName := streamName, channelName := channelName, streamID := streamID,
       channelID := channelID, hostname := env.hostname, clock := 0, ops := 0, nextMux := 0,
       fs := env.files, trace := [] } : Muxer) rfl rfl hst
  refine ⟨ha, hfr.limit, hfr.dur, ?_⟩
  rw [hfin, WriteTrailer_idle env _ rfl rfl rfl]
  rfl


theorem WriteHeader_err (env : Env) (s : Muxer) (streams : List CodecData) :
    (WriteHeader env s streams).2 = none := by
  unfold WriteHeader
  dsimp only
  split <;> rfl

/-- The session after the header and the first `n` groups of a recording whose
groups last five seconds each, with a ten-second limit, when every external
call succeeds. -/
theorem groups_ok (env : Env) (hok : ∀ k, env.ioOk k = true) (s : Muxer) (e : Option Err)
    (h : Active s) (hl : s.limit = 10) (g : List Packet) (hg : IsGop g)
    (hd : totalDuration g = 5 * Second) (n : Int) (hdur : s.dur = n * (5 * Second))
    (hn : 0 ≤ n ∧ n ≤ 3) :
    ∃ s1 e1, runFrom env (g.map Call.packet) (.ret s e) = .ret s1 e1 ∧ Active s1 ∧
      s1.limit = 10 ∧
      (if n = 3 then s1.dur = 1 * (5 * Second) ∧ finalized s1 = finalized s + 1
      else s1.dur = (n + 1) * (5 * Second) ∧ finalized s1 = finalized s) := by
  obtain ⟨s1, e1, he, ha, hl1, -, -, hc⟩ := gop_ok env hok g hg s e h
  refine ⟨s1, e1, he, ha, hl1.trans hl, ?_⟩
  rw [hl, hdur, hd] at hc
  have hlim : wrap64 (10 * Second) = 10000000000 := by decide
  rw [hlim] at hc
  obtain ⟨hn0, hn3⟩ := hn
  by_cases h3 : n = 3
  · subst h3
    rw [if_pos (by decide)] at hc
    rw [if_pos rfl]
    exact ⟨hc.1.trans (by decide), hc.2⟩
  · rw [if_neg h3]
    have hlt : ¬ n * (5 * Second) > 10000000000 := by
      simp only [Second]; omega
    rw [if_neg hlt] at hc
    refine ⟨hc.1.trans ?_, hc.2⟩
    simp only [Second, wrap64]
    omega

/-- C4 as the code has it: in a container session with a ten-second limit in
which every external call succeeds, a recording made of `WriteHeader` with
codec parameters, five groups of five seconds each (a keyframe followed by
packets that are not keyframes), and `WriteTrailer` finalizes exactly two
container files. None is finalized by the keyframe at the ten-second mark,
where the accumulated duration does not exceed the limit; the first is
finalized by the keyframe at fifteen seconds and the second by `WriteTrailer`. -/
theorem container_scenario_finalizes_two (env : Env) (hok : ∀ k, env.ioOk k = true)
    (serverID streamName channelName streamID channelID patch : GoString)
    (streams : List CodecData) (hst : streams ≠ []) (g1 g2 g3 g4 g5 : List Packet)
    (h1 : IsGop g1 ∧ totalDuration g1 = 5 * Second)
    (h2 : IsGop g2 ∧ totalDuration g2 = 5 * Second)
    (h3 : IsGop g3 ∧ totalDuration g3 = 5 * Second)
    (h4 : IsGop g4 ∧ totalDuration g4 = 5 * Second)
    (h5 : IsGop g5 ∧ totalDuration g5 = 5 * Second) :
    finalized (run env
        (NewMuxer env serverID streamName channelName streamID channelID patch MP4 10)
        (.header streams :: (g1 ++ g2 ++ g3).map Call.packet)).state = 0 ∧
    finalized (run env
        (NewMuxer env serverID streamName channelName streamID channelID patch MP4 10)
        (.header streams :: (g1 ++ g2 ++ g3 ++ g4).map Call.packet)).state = 1 ∧
    finalized (run env
        (NewMuxer env serverID streamName channelName streamID channelID patch MP4 10)
        (.header streams :: (g1 ++ g2 ++ g3 ++ g4 ++ g5).map Call.packet ++ [.trailer])).state
      = 2 := by
  obtain ⟨ha0, hl0, hd0, hf0⟩ := WriteHeader_fresh_ok env hok serverID streamName channelName
    streamID channelID patch 10 streams hst
  obtain ⟨s1, e1, r1, ha1, hl1, hc1⟩ := groups_ok env hok _ none ha0 hl0 g1 h1.1 h1.2 0
    (by rw [hd0]; simp) (by omega)
  rw [if_neg (by decide)] at hc1
  obtain ⟨s2, e2, r2, ha2, hl2, hc2⟩ := groups_ok env hok s1 e1 ha1 hl1 g2 h2.1 h2.2 1
    (by rw [hc1.1]; simp) (by omega)
  rw [if_neg (by decide)] at hc2
  obtain ⟨s3, e3, r3, ha3, hl3, hc3⟩ := groups_ok env hok s2 e2 ha2 hl2 g3 h3.1 h3.2 2
    (by rw [hc2.1]; simp) (by omega)
  rw [if_neg (by decide)] at hc3
  obtain ⟨s4, e4, r4, ha4, hl4, hc4⟩ := groups_ok env hok s3 e3 ha3 hl3 g4 h4.1 h4.2 3
    (by rw [hc3.1]; simp) (by omega)
  rw [if_pos rfl] at hc4
  obtain ⟨s5, e5, r5, ha5, hl5, hc5⟩ := groups_ok env hok s4 e4 ha4 hl4 g5 h5.1 h5.2 1
    hc4.1 (by omega)
  rw [if_neg (by decide)] at hc5
  have hrun3 : runFrom env ((g1 ++ g2 ++ g3).map Call.packet)
      (step env (NewMuxer env serverID streamName channelName streamID channelID patch MP4 10)
        (.header streams)) = .ret s3 e3 := by
    simp only [List.map_append, runFrom_append, step, WriteHeader_err, r1, r2, r3]
  have hrun4 : runFrom env ((g1 ++ g2 ++ g3 ++ g4).map Call.packet)
      (step env (NewMuxer env serverID streamName channelName streamID channelID patch MP4 10)
        (.header streams)) = .ret s4 e4 := by
    simp only [List.map_append, runFrom_append, step, WriteHeader_err, r1, r2, r3, r4]
  have hrun5 : runFrom env ((g1 ++ g2 ++ g3 ++ g4 ++ g5).map Call.packet)
      (step env (NewMuxer env serverID streamName channelName streamID channelID patch MP4 10)
        (.header streams)) = .ret s5 e5 := by
    simp only [List.map_append, runFrom_append, step, WriteHeader_err, r1, r2, r3, r4, r5]
  refine ⟨?_, ?_, ?_⟩
  · have e : run env
        (NewMuxer env serverID streamName channelName streamID channelID patch MP4 10)
        (.header streams :: (g1 ++ g2 ++ g3).map Call.packet) = .ret s3 e3 := hrun3
    rw [e]
    show finalized s3 = 0
    rw [hc3.2, hc2.2, hc1.2, hf0]
  · have e : run env
        (NewMuxer env serverID streamName channelName streamID channelID patch MP4 10)
        (.header streams :: (g1 ++ g2 ++ g3 ++ g4).map Call.packet) = .ret s4 e4 := hrun4
    rw [e]
    show finalized s4 = 1
    rw [hc4.2, hc3.2, hc2.2, hc1.2, hf0]
  · have e : run env
        (NewMuxer env serverID streamName channelName streamID channelID patch MP4 10)
        (.header streams :: (g1 ++ g2 ++ g3 ++ g4 ++ g5).map Call.packet ++ [.trailer])
          = .ret (WriteTrailer env s5).1 (WriteTrailer env s5).2 := by
      rw [run, runFrom_append]
      show runFrom env [.trailer] (runFrom env ((g1 ++ g2 ++ g3 ++ g4 ++ g5).map Call.packet)
        (step env _ (.header streams))) = _
      rw [hrun5]
      rfl
    rw [e]
    show finalized (WriteTrailer env s5).1 = 2
    rw [(WriteTrailer_active env hok s5 ha5).1, hc5.2, hc4.2, hc3.2, hc2.2, hc1.2, hf0]

set_option maxRecDepth 100000 in
/-- C4 as stated fails: with a ten-second limit and every external call
succeeding, header, 25 packets of one second with a keyframe every five
seconds, and trailer finalize two container files, not three. -/
theorem container_scenario_not_three :
    finalized (run sampleEnv (sampleMuxer "/rec/{stream_name}/{start_pts}.mp4".toList MP4 10)
      scenarioCalls).state = 2 ∧
    finalized (run sampleEnv (sampleMuxer "/rec/{stream_name}/{start_pts}.mp4".toList MP4 10)
      scenarioCalls).state ≠ 3 := by
  decide

/-- C4 as the code has it, at the scenario with one packet per second. -/
theorem container_scenario_finalizes_two_witness :
    finalized (run sampleEnv
        (NewMuxer sampleEnv "srv1".toList "cam".toList "main".toList "7".toList "3".toList
          "/rec/{stream_name}/{start_pts}.mp4".toList MP4 10)
        (.header [[1]] :: (scenarioGop 0 ++ scenarioGop 5 ++ scenarioGop 10 ++ scenarioGop 15 ++
          scenarioGop 20).map Call.packet ++ [.trailer])).state = 2 :=
  (container_scenario_finalizes_two sampleEnv (fun _ => rfl) "srv1".toList "cam".toList
    "main".toList "7".toList "3".toList "/rec/{stream_name}/{start_pts}.mp4".toList [[1]]
    (by decide) (scenarioGop 0) (scenarioGop 5) (scenarioGop 10) (scenarioGop 15) (scenarioGop 20)
    ⟨⟨_, _, rfl, rfl, by decide⟩, by decide⟩ ⟨⟨_, _, rfl, rfl, by decide⟩, by decide⟩
    ⟨⟨_, _, rfl, rfl, by decide⟩, by decide⟩ ⟨⟨_, _, rfl, rfl, by decide⟩, by decide⟩
    ⟨⟨_, _, rfl, rfl, by decide⟩, by decide⟩).2.2

/-! ## The flush of the indexed format -/

/-- What a successful `m.m.Write` at the end of `writeGop` means. -/
theorem writeIndex_success (env : Env) (s : Muxer) (f : Data)
    (h : (writeIndex env s f).2 = none) :
    ∃ fm, s.m = some fm ∧ fm.closed = false ∧
      (writeIndex env s f).1.trace = s.trace ++ [.write fm.name (indexBytes f) true] ∧
      (writeIndex env s f).1.fs
        = s.fs.set fm.name (some ((s.fs fm.name).getD [] ++ indexBytes f)) ∧
      (writeIndex env s f).1.d = s.d ∧ (writeIndex env s f).1.m = s.m ∧
      (writeIndex env s f).1.h = s.h := by
  unfold writeIndex at h ⊢
  split at h
  · cases h
  · rename_i fm hm
    rw [hm]
    dsimp only at h ⊢
    split at h
    · cases h
    · rename_i hc
      rw [if_neg hc]
      split at h
      · rename_i hok
        rw [if_pos hok]
        refine ⟨fm, rfl, by simpa using hc, ?_, rfl, rfl, hm, rfl⟩
        show s.trace ++ [Event.write fm.name (indexBytes f) (s.call env).1] = _
        rw [hok]
      · cases h


theorem encodeGroup_success (env : Env) (s : Muxer) (fd : File) (f : Data)
    (h : (encodeGroup env s fd f).2 = none) :
    ∃ fm, s.m = some fm ∧ fm.closed = false ∧
      (encodeGroup env s fd f).1.trace = s.trace ++
        [.encode fd.name s.gof true, .write fm.name (indexBytes f) true] ∧
      (encodeGroup env s fd f).1.fs =
        (s.fs.set fd.name (some ((s.fs fd.name).getD [] ++ env.gob s.gof))).set fm.name
          (some (((s.fs.set fd.name (some ((s.fs fd.name).getD [] ++ env.gob s.gof)))
              fm.name).getD [] ++ indexBytes f)) ∧
      (encodeGroup env s fd f).1.d = s.d ∧ (encodeGroup env s fd f).1.m = s.m ∧
      (encodeGroup env s fd f).1.h = s.h := by
  unfold encodeGroup at h ⊢
  dsimp only at h ⊢
  split at h
  · rename_i hok
    rw [if_pos hok]
    obtain ⟨fm, hm, hmc, htr, hfs, hd2, hm2, hh2⟩ := writeIndex_success env _ _ h
    refine ⟨fm, hm, hmc, ?_, hfs, hd2, hm2, hh2⟩
    rw [htr]
    show (s.trace ++ [Event.encode fd.name s.gof (s.call env).1]) ++ _ = _
    rw [hok, List.append_assoc]
    rfl
  · cases h

/-- What a successful flush does once the hour check is over: one seek and one
encoding on the open data file, one write of the index record on the open
index file. -/
theorem writeGopBody_success (env : Env) (s : Muxer) (t : GoTime)
    (h : (writeGopBody env s t).2 = none) :
    ∃ fd fm, s.d = some fd ∧ fd.closed = false ∧ s.m = some fm ∧ fm.closed = false ∧
      (writeGopBody env s t).1.trace = s.trace ++
        [.seek fd.name (s.fs.size fd.name) true, .encode fd.name s.gof true,
         .write fm.name
           (indexBytes ⟨t.unixNano, s.fs.size fd.name, durMilliseconds s.dur⟩) true] ∧
      (writeGopBody env s t).1.fs =
        (s.fs.set fd.name (some ((s.fs fd.name).getD [] ++ env.gob s.gof))).set fm.name
          (some (((s.fs.set fd.name (some ((s.fs fd.name).getD [] ++ env.gob s.gof)))
              fm.name).getD [] ++
            indexBytes ⟨t.unixNano, s.fs.size fd.name, durMilliseconds s.dur⟩)) ∧
      (writeGopBody env s t).1.d = s.d ∧ (writeGopBody env s t).1.m = s.m ∧
      (writeGopBody env s t).1.h = s.h := by
  unfold writeGopBody at h ⊢
  split at h
  · cases h
  · rename_i fd hd
    rw [hd]
    dsimp only at h ⊢
    split at h
    · cases h
    · rename_i hc
      rw [if_neg hc]
      split at h
      · rename_i hok1
        rw [if_pos hok1]
        obtain ⟨fm, hm, hmc, htr, hfs, hd2, hm2, hh2⟩ := encodeGroup_success env _ _ _ h
        refine ⟨fd, fm, rfl, by simpa using hc, hm, hmc, ?_, hfs, hd2.trans hd, hm2, hh2⟩
        rw [htr]
        show (s.trace ++ [Event.seek fd.name _ (s.call env).1]) ++ _ = _
        rw [hok1, List.append_assoc]
        rfl
      · cases h

/-- What a successful `OpenNVR` leaves: the pair of the date and hour of its
own clock reading, open, and that hour as the open hour. -/
theorem openPair_success (env : Env) (s : Muxer) (dir : GoString) (hour : Int)
    (h : (openPair env s dir hour).2 = none) :
    (openPair env s dir hour).1.d = some ⟨dir ++ '/' :: fmtInt hour ++ ".d".toList, false⟩ ∧
      (openPair env s dir hour).1.m = some ⟨dir ++ '/' :: fmtInt hour ++ ".m".toList, false⟩ ∧
      (openPair env s dir hour).1.h = hour := by
  have hopen : ∀ (s0 : Muxer) (name : GoString), (openAppend env s0 name).1.isSome = true →
      (openAppend env s0 name).1 = some ⟨name, false⟩ := by
    intro s0 name h0
    unfold openAppend at h0 ⊢
    dsimp only at h0 ⊢
    split
    · rfl
    · rename_i hno; rw [if_neg hno] at h0; cases h0
  have hd0 : ∀ (s0 : Muxer) (name : GoString), (openAppend env s0 name).2.d = s0.d := by
    intro s0 name
    unfold openAppend
    dsimp only
    split <;> rfl
  unfold openPair at h ⊢
  dsimp only at h ⊢
  split at h
  · rename_i h1
    rw [if_pos h1]
    split at h
    · rename_i h2
      rw [if_pos h2]
      refine ⟨?_, hopen _ _ h2, rfl⟩
      show (openAppend env _ _).2.d = _
      rw [hd0]
      exact hopen _ _ h1
    · cases h
  · cases h

theorem closeFile_clock (env : Env) (s : Muxer) (f : File) :
    (closeFile env s f).2.2.clock = s.clock := by
  unfold closeFile
  split <;> rfl

theorem WriteTrailer_clock (env : Env) (s : Muxer) (hf : s.format ≠ MP4) :
    (WriteTrailer env s).1.clock = s.clock := by
  have e1 : (trailerMuxer env s).clock = s.clock := by
    unfold trailerMuxer; split <;> rfl
  have e1f : (trailerMuxer env s).format = s.format := (trailerMuxer_frame env s).format
  have e2 : (closeIndex env (trailerMuxer env s)).1.clock = s.clock := by
    unfold closeIndex
    split
    · show (closeFile env _ _).2.2.clock = _
      rw [closeFile_clock, e1]
    · exact e1
  have e2f : (closeIndex env (trailerMuxer env s)).1.format = s.format :=
    ((closeIndex_frame env _).format).trans e1f
  unfold WriteTrailer
  dsimp only
  split
  · unfold finishData
    rw [if_neg (by rw [e2f]; exact hf)]
    show (closeFile env _ _).2.2.clock = _
    rw [closeFile_clock, e2]
  · exact e2

/-- What a successful `OpenNVR` leaves: the pair of the date and hour of its
own clock reading, open, and that hour as the open hour. -/
theorem OpenNVR_success (env : Env) (s : Muxer) (h : (OpenNVR env s).2 = none) :
    (OpenNVR env s).1.d
        = some ⟨pairPath s.patch (env.now (WriteTrailer env s).1.clock) ".d", false⟩ ∧
      (OpenNVR env s).1.m
        = some ⟨pairPath s.patch (env.now (WriteTrailer env s).1.clock) ".m", false⟩ ∧
      (OpenNVR env s).1.h = (env.now (WriteTrailer env s).1.clock).hour := by
  have hp : (WriteTrailer env s).1.patch = s.patch := (WriteTrailer_frame env s).patch
  unfold OpenNVR at h ⊢
  dsimp only at h ⊢
  split at h
  · rename_i hok
    rw [if_pos hok]
    obtain ⟨h1, h2, h3⟩ := openPair_success env _ _ _ h
    refine ⟨h1.trans ?_, h2.trans ?_, h3⟩
    · simp [pairPath, Muxer.readClock, hp]
    · simp [pairPath, Muxer.readClock, hp]
  · cases h

/-- A successful flush, up to the end of its hour check: the session `s0` in
which the group is written differs from `s` by the entry into `writeGop` and
the external calls of `OpenNVR`; if the open hour differed from the hour of the
flush time, the open pair is that of the clock reading `t1` of `OpenNVR`,
otherwise it is the pair that was open. -/
theorem writeGop_success (env : Env) (s : Muxer) (h : (writeGop env s).2 = none) :
    ∃ s0 evs,
      s0.trace = s.trace ++ .enterWriteGop s.gof :: evs ∧ (∀ e ∈ evs, OpenNVREv e) ∧
      s0.gof = s.gof ∧ s0.dur = s.dur ∧ s0.patch = s.patch ∧ s0.format = s.format ∧
      (s.h ≠ (env.now s.clock).hour →
        ∃ t1, (s.format ≠ MP4 → t1 = env.now (s.clock + 1)) ∧
          s0.d = some ⟨pairPath s.patch t1 ".d", false⟩ ∧
          s0.m = some ⟨pairPath s.patch t1 ".m", false⟩ ∧ s0.h = t1.hour) ∧
      (s.h = (env.now s.clock).hour → s0.d = s.d ∧ s0.m = s.m ∧ s0.h = s.h ∧ evs = []) ∧
      writeGop env s = writeGopBody env s0 (env.now s.clock) := by
  unfold writeGop at h ⊢
  dsimp only at h ⊢
  split at h
  · rename_i hne
    have hne1 : s.h ≠ (env.now s.clock).hour := hne
    rw [if_pos hne]
    have hfr := OpenNVR_frame env ((s.emit (.enterWriteGop s.gof)).readClock env).2
    have hsu := OpenNVR_success env ((s.emit (.enterWriteGop s.gof)).readClock env).2
    have hck := WriteTrailer_clock env ((s.emit (.enterWriteGop s.gof)).readClock env).2
    split at h
    · cases h
    · rename_i s1 heq
      rw [heq] at hfr hsu
      obtain ⟨evs, ht, hp⟩ := hfr.trace
      obtain ⟨h1, h2, h3⟩ := hsu rfl
      refine ⟨s1, evs, ?_, hp, hfr.gof, hfr.dur, hfr.patch, hfr.format,
        fun _ => ⟨_, fun hf => ?_, h1, h2, h3⟩, fun he => absurd he hne1, rfl⟩
      · rw [ht]
        show (s.trace ++ [Event.enterWriteGop s.gof]) ++ evs = _
        simp
      · rw [hck hf]; rfl
  · rename_i hne
    have he1 : s.h = (env.now s.clock).hour := by
      by_contra hc; exact hne hc
    rw [if_neg hne]
    refine ⟨((s.emit (.enterWriteGop s.gof)).readClock env).2, [], ?_, by simp, rfl, rfl, rfl,
      rfl, fun hc => absurd he1 hc, fun _ => ⟨rfl, rfl, rfl, rfl⟩, rfl⟩
    rfl
theorem GoTime.hour_nonneg (t : GoTime) : 0 ≤ t.hour := by
  unfold GoTime.hour GoTime.secOfDay
  omega

theorem writeIndex_ok (env : Env) (hok : ∀ k, env.ioOk k = true) (s : Muxer) (f : Data)
    (fm : File) (hm : s.m = some fm) (hc : fm.closed = false) :
    (writeIndex env s f).2 = none := by
  have h1 : (s.call env).1 = true := hok _
  unfold writeIndex
  rw [hm]
  dsimp only
  rw [if_neg (by simp [hc]), h1]
  rfl

theorem encodeGroup_ok (env : Env) (hok : ∀ k, env.ioOk k = true) (s : Muxer) (fd : File)
    (f : Data) (fm : File) (hm : s.m = some fm) (hc : fm.closed = false) :
    (encodeGroup env s fd f).2 = none := by
  have h1 : (s.call env).1 = true := hok _
  unfold encodeGroup
  dsimp only
  rw [h1, if_pos rfl]
  exact writeIndex_ok env hok _ f fm hm hc

theorem writeGopBody_ok (env : Env) (hok : ∀ k, env.ioOk k = true) (s : Muxer) (t : GoTime)
    (fd fm : File) (hd : s.d = some fd) (hdc : fd.closed = false) (hm : s.m = some fm)
    (hc : fm.closed = false) : (writeGopBody env s t).2 = none := by
  have h1 : (s.call env).1 = true := hok _
  unfold writeGopBody
  rw [hd]
  dsimp only
  rw [if_neg (by simp [hdc]), h1, if_pos rfl]
  exact encodeGroup_ok env hok _ fd _ fm hm hc

theorem openAppend_ok (env : Env) (hok : ∀ k, env.ioOk k = true) (s : Muxer)
    (name : GoString) : (openAppend env s name).1.isSome = true := by
  have h1 : (s.call env).1 = true := hok _
  unfold openAppend
  dsimp only
  rw [h1]
  rfl

theorem openPair_ok (env : Env) (hok : ∀ k, env.ioOk k = true) (s : Muxer) (dir : GoString)
    (hour : Int) : (openPair env s dir hour).2 = none := by
  unfold openPair
  dsimp only
  rw [if_pos (openAppend_ok env hok _ _), if_pos (openAppend_ok env hok _ _)]

theorem OpenNVR_ok (env : Env) (hok : ∀ k, env.ioOk k = true) (s : Muxer) :
    (OpenNVR env s).2 = none := by
  have h1 : (((WriteTrailer env s).1.readClock env).2.call env).1 = true := hok _
  unfold OpenNVR
  dsimp only
  rw [h1, if_pos rfl]
  exact openPair_ok env hok _ _ _

theorem writeGop_ok (env : Env) (hok : ∀ k, env.ioOk k = true) (s : Muxer)
    (hfiles : 0 ≤ s.h → ∃ stem, s.d = some ⟨stem ++ ".d".toList, false⟩ ∧
      s.m = some ⟨stem ++ ".m".toList, false⟩) :
    (writeGop env s).2 = none := by
  unfold writeGop
  dsimp only
  split
  · have hs := OpenNVR_ok env hok ((s.emit (.enterWriteGop s.gof)).readClock env).2
    have hsu := OpenNVR_success env ((s.emit (.enterWriteGop s.gof)).readClock env).2 hs
    split
    · rename_i s1 e heq
      rw [heq] at hs; cases hs
    · rename_i s1 heq
      rw [heq] at hsu
      exact writeGopBody_ok env hok s1 _ _ _ hsu.1 rfl hsu.2.1 rfl
  · rename_i hne
    have he : s.h = (env.now s.clock).hour := by
      by_contra hc; exact hne hc
    obtain ⟨stem, hd, hm⟩ := hfiles (by rw [he]; exact GoTime.hour_nonneg _)
    exact writeGopBody_ok env hok _ _ _ _ hd rfl hm rfl

/-- The shape of a flush when every external call succeeds: the entry, the
calls of `OpenNVR` if the hour changed, then one seek and one group on
`stem.d` and one index record on `stem.m`, the pair left open. -/
theorem writeGop_flush (env : Env) (hok : ∀ k, env.ioOk k = true) (s : Muxer)
    (hfiles : 0 ≤ s.h → ∃ stem, s.d = some ⟨stem ++ ".d".toList, false⟩ ∧
      s.m = some ⟨stem ++ ".m".toList, false⟩) :
    (writeGop env s).2 = none ∧
    ∃ stem evs off bytes,
      (writeGop env s).1.trace = s.trace ++ (.enterWriteGop s.gof :: evs ++
        [.seek (stem ++ ".d".toList) off true, .encode (stem ++ ".d".toList) s.gof true,
         .write (stem ++ ".m".toList) bytes true]) ∧
      (∀ e ∈ evs, OpenNVREv e) ∧
      (writeGop env s).1.d = some ⟨stem ++ ".d".toList, false⟩ ∧
      (writeGop env s).1.m = some ⟨stem ++ ".m".toList, false⟩ := by
  have hs := writeGop_ok env hok s hfiles
  refine ⟨hs, ?_⟩
  obtain ⟨s0, evs, ht, hp, hg, hdur, -, -, hre, hsame, heq⟩ := writeGop_success env s hs
  rw [heq] at hs ⊢
  obtain ⟨fd, fm, hd, -, hm, -, htr, -, hd2, hm2, -⟩ := writeGopBody_success env s0 _ hs
  have hstem : ∃ stem, s0.d = some ⟨stem ++ ".d".toList, false⟩ ∧
      s0.m = some ⟨stem ++ ".m".toList, false⟩ := by
    by_cases hh : s.h = (env.now s.clock).hour
    · obtain ⟨e1, e2, e3, -⟩ := hsame hh
      obtain ⟨stem, h1, h2⟩ := hfiles (by rw [hh]; exact GoTime.hour_nonneg _)
      exact ⟨stem, e1.trans h1, e2.trans h2⟩
    · obtain ⟨t1, -, h1, h2, -⟩ := hre hh
      exact ⟨_, h1, h2⟩
  obtain ⟨stem, h1, h2⟩ := hstem
  have e1 : fd = ⟨stem ++ ".d".toList, false⟩ := by
    rw [hd] at h1; exact Option.some.inj h1
  have e2 : fm = ⟨stem ++ ".m".toList, false⟩ := by
    rw [hm] at h2; exact Option.some.inj h2
  subst e1 e2
  refine ⟨stem, evs, (s0.fs.size (stem ++ ".d".toList) : Int),
    indexBytes ⟨(env.now s.clock).unixNano, s0.fs.size (stem ++ ".d".toList),
      durMilliseconds s0.dur⟩, ?_, hp, hd2.trans hd, hm2.trans hm⟩
  rw [htr, ht, hg]
  simp

theorem countP_quiet (p : Event → Bool) (hp : ∀ e, OpenNVREv e → p e = false)
    (evs : List Event) (h : ∀ e ∈ evs, OpenNVREv e) : evs.countP p = 0 := by
  rw [List.countP_eq_zero]
  intro e he
  rw [hp e (h e he)]
  simp

/-- The counts of a trace extended by one successful flush. -/
theorem countP_flush (p : Event → Bool) (hp : ∀ e, OpenNVREv e → p e = false)
    (tr evs : List Event) (h : ∀ e ∈ evs, OpenNVREv e) (a b c d : Event) :
    (tr ++ (a :: evs ++ [b, c, d])).countP p = tr.countP p +
      ((if p a = true then 1 else 0) + (if p b = true then 1 else 0) +
        (if p c = true then 1 else 0) + (if p d = true then 1 else 0)) := by
  simp only [List.countP_append, List.countP_cons, List.countP_nil, countP_quiet p hp evs h]
  omega

theorem IndexedOk.after_flush (env : Env) (hok : ∀ k, env.ioOk k = true) {s : Muxer}
    (h : IndexedOk s) :
    (writeGop env s).2 = none ∧ IndexedOk (writeGop env s).1 ∧
      flushCount (writeGop env s).1.trace = flushCount s.trace + 1 := by
  obtain ⟨hs, stem, evs, off, bytes, htr, hp, hd, hm⟩ := writeGop_flush env hok s h.files
  have hfr := writeGop_frame env s
  have hflush : flushCount (writeGop env s).1.trace = flushCount s.trace + 1 := by
    unfold flushCount
    rw [htr, countP_flush _ (fun e he => by cases e <;> first | rfl | cases he) _ _ hp]
    simp [Event.isFlushEntry]
  refine ⟨hs, ⟨?_, ?_, ?_, fun _ => ⟨stem, hd, hm⟩, fun x => ?_, ?_, ?_⟩, hflush⟩
  · rw [hfr.format]; exact h.format
  · rw [hfr.gof]; exact h.streams
  · rw [hfr.gof, hfr.started]; exact h.buffered
  · rw [htr, countP_flush _ (fun e he => by cases e <;> first | rfl | cases he) _ _ hp,
      countP_flush _ (fun e he => by cases e <;> first | rfl | cases he) _ _ hp, h.paired x]
    simp [Event.isGroupTo, Event.isRecordTo]
  · rw [hflush, htr, countP_flush _ (fun e he => by cases e <;> first | rfl | cases he) _ _ hp,
      h.groups]
    simp [Event.isGroup]
  · rw [hflush, htr, countP_flush _ (fun e he => by cases e <;> first | rfl | cases he) _ _ hp,
      h.records]
    simp [Event.isRecord]

/-- The invariant after a packet has been appended to the buffer of a session
`s` that agrees with `s0` outside the buffer. -/
theorem IndexedOk.after_append {s0 s : Muxer} (h : IndexedOk s0) (pkt : Packet)
    (hf : s.format = s0.format) (hg : s.gof.Streams = s0.gof.Streams) (hd : s.d = s0.d)
    (hm : s.m = s0.m) (hh : s.h = s0.h) (ht : s.trace = s0.trace) (hst : s.started = true) :
    IndexedOk (appendPacket s pkt) := by
  have hstreams : (appendPacket s pkt).gof.Streams = s.gof.Streams := by
    unfold appendPacket; dsimp only; split <;> rfl
  have hd1 : (appendPacket s pkt).d = s.d := by
    unfold appendPacket; dsimp only; split <;> rfl
  have hm1 : (appendPacket s pkt).m = s.m := by
    unfold appendPacket; dsimp only; split <;> rfl
  have hh1 : (appendPacket s pkt).h = s.h := by
    unfold appendPacket; dsimp only; split <;> rfl
  refine ⟨?_, ?_, ?_, ?_, ?_, ?_, ?_⟩
  · rw [appendPacket_format, hf]; exact h.format
  · rw [hstreams, hg]; exact h.streams
  · rw [appendPacket_started, appendPacket_Packet]; simp [hst]
  · rw [hd1, hm1, hh1, hd, hm, hh]; exact h.files
  · rw [appendPacket_trace, ht]; exact h.paired
  · rw [appendPacket_trace, ht]; exact h.groups
  · rw [appendPacket_trace, ht]; exact h.records

theorem expectedFlushes_started (ps : List Packet) : expectedFlushes true ps = keyframes ps := by
  induction ps with
  | nil => rfl
  | cons p ps ih =>
    simp only [expectedFlushes, Bool.true_or, ih, keyframes, List.countP_cons]
    by_cases hk : p.IsKeyFrame = true
    · simp [hk]; omega
    · simp [hk]

theorem expectedFlushes_fresh (ps : List Packet) :
    expectedFlushes false ps = keyframes ps - 1 := by
  induction ps with
  | nil => rfl
  | cons p ps ih =>
    by_cases hk : p.IsKeyFrame = true
    · simp [expectedFlushes, hk, expectedFlushes_started, keyframes, List.countP_cons]
    · have hk2 : p.IsKeyFrame = false := by simpa using hk
      simp [expectedFlushes, hk2, ih, keyframes, List.countP_cons]

theorem IndexedOk.nvr_packet (env : Env) (hok : ∀ k, env.ioOk k = true) {s0 s : Muxer}
    (h : IndexedOk s0) (pkt : Packet)
    (hf : s.format = s0.format) (hg : s.gof = s0.gof) (hd : s.d = s0.d)
    (hm : s.m = s0.m) (hh : s.h = s0.h) (ht : s.trace = s0.trace) (hst : s.started = true) :
    (writePacketNVR env s pkt).2 = none ∧ IndexedOk (writePacketNVR env s pkt).1 ∧
      flushCount (writePacketNVR env s pkt).1.trace = flushCount s0.trace +
        (if pkt.IsKeyFrame = true ∧ s0.started = true then 1 else 0) ∧
      (writePacketNVR env s pkt).1.started = true := by
  unfold writePacketNVR
  split
  · rename_i hkey
    split
    · rename_i hlen
      have hne : s0.gof.Packet ≠ [] := by
        intro h0; rw [hg, h0] at hlen; simp at hlen
      have hst0 : s0.started = true := h.buffered.2 hne
      have hs : IndexedOk s := ⟨hf ▸ h.format, hg ▸ h.streams, by rw [hst, hg]; simp [hne],
        by rw [hd, hm, hh]; exact h.files, by rw [ht]; exact h.paired,
        by rw [ht]; exact h.groups, by rw [ht]; exact h.records⟩
      obtain ⟨hok1, hinv, hcount⟩ := hs.after_flush env hok
      have hfr := writeGop_frame env s
      split
      · rename_i s1 e heq
        rw [heq] at hok1; cases hok1
      · rename_i s1 heq
        rw [heq] at hinv hcount hfr
        refine ⟨rfl, ?_, ?_, ?_⟩
        · exact hinv.after_append pkt rfl rfl rfl rfl rfl rfl (hfr.started.trans hst)
        · rw [appendPacket_trace]
          show flushCount s1.trace = _
          rw [hcount, ht, if_pos ⟨hkey, hst0⟩]
        · rw [appendPacket_started]; exact hfr.started.trans hst
    · rename_i hlen
      have he : s0.gof.Packet = [] := by
        rw [hg] at hlen
        exact List.length_eq_zero.1 (by omega)
      have hst0 : s0.started = false := by
        by_contra hc
        exact h.buffered.1 (by simpa using hc) he
      have hgs : s.gof.Streams = s0.gof.Streams := congrArg Gof.Streams hg
      refine ⟨rfl, ?_, ?_, ?_⟩
      · exact h.after_append pkt hf hgs hd hm hh ht hst
      · rw [appendPacket_trace]
        show flushCount s.trace = _
        rw [ht, if_neg (by simp [hst0])]
        rfl
      · rw [appendPacket_started]; exact hst
  · rename_i hkey
    have hkey2 : pkt.IsKeyFrame = false := by simpa using hkey
    refine ⟨rfl, ?_, ?_, ?_⟩
    · exact h.after_append pkt hf (congrArg Gof.Streams hg) hd hm hh ht hst
    · rw [appendPacket_trace, ht, if_neg (by simp [hkey2])]
      rfl
    · rw [appendPacket_started]; exact hst

theorem IndexedOk.packet_step (env : Env) (hok : ∀ k, env.ioOk k = true) {s : Muxer}
    (h : IndexedOk s) (pkt : Packet) :
    ∃ s1, WritePacket env s pkt = .ret s1 none ∧ IndexedOk s1 ∧
      flushCount s1.trace = flushCount s.trace +
        (if pkt.IsKeyFrame = true ∧ s.started = true then 1 else 0) ∧
      s1.started = (s.started || pkt.IsKeyFrame) := by
  have hlen : ¬ s.gof.Streams.length = 0 := by
    intro h0; exact h.streams (List.length_eq_zero.1 h0)
  have hne : ¬ NVR = MP4 := fun e => MP4_ne_NVR e.symm
  unfold WritePacket
  rw [if_neg hlen]
  dsimp only
  by_cases hst : s.started = true
  · have e1 : (if (!s.started && pkt.IsKeyFrame) = true then
        ({ s with started := true } : Muxer) else s) = s := by simp [hst]
    rw [e1]
    simp only [hst, if_true, h.format, hne, if_false]
    obtain ⟨a, b, c, d⟩ := h.nvr_packet env hok (s := s) pkt rfl rfl rfl rfl rfl rfl hst
    refine ⟨_, ?_, b, ?_, ?_⟩
    · rw [a]
    · rw [c]; simp [hst]
    · rw [d]; simp
  · have hst2 : s.started = false := by simpa using hst
    by_cases hk : pkt.IsKeyFrame = true
    · have e1 : (if (!s.started && pkt.IsKeyFrame) = true then
          ({ s with started := true } : Muxer) else s) = { s with started := true } := by
        simp [hst2, hk]
      rw [e1]
      simp only [if_true, h.format, hne, if_false]
      obtain ⟨a, b, c, d⟩ := h.nvr_packet env hok
        (s := { s with format := NVR, started := true }) pkt h.format.symm rfl rfl rfl rfl rfl rfl
      refine ⟨_, ?_, b, ?_, ?_⟩
      · rw [a]
      · rw [c]
      · rw [d, hk]; simp
    · have hk2 : pkt.IsKeyFrame = false := by simpa using hk
      have e1 : (if (!s.started && pkt.IsKeyFrame) = true then
          ({ s with started := true } : Muxer) else s) = s := by simp [hst2, hk]
      rw [e1]
      simp only [hst2]
      exact ⟨s, rfl, h, by simp [hk2], by simp [hst2, hk2]⟩

theorem IndexedOk.packet_run (env : Env) (hok : ∀ k, env.ioOk k = true) (ps : List Packet)
    (s : Muxer) (e : Option Err) (h : IndexedOk s) :
    ∃ s1 e1, runFrom env (ps.map Call.packet) (.ret s e) = .ret s1 e1 ∧ IndexedOk s1 ∧
      flushCount s1.trace = flushCount s.trace + expectedFlushes s.started ps := by
  induction ps generalizing s e with
  | nil => exact ⟨s, e, rfl, h, rfl⟩
  | cons p ps ih =>
    obtain ⟨s1, he, h1, hc, hst⟩ := h.packet_step env hok p
    obtain ⟨s2, e2, he2, h2, hc2⟩ := ih s1 none h1
    refine ⟨s2, e2, ?_, h2, ?_⟩
    · simp only [List.map_cons, runFrom, step, he, he2]
    · rw [hc2, hc, hst]
      simp only [expectedFlushes]
      omega

/-- C5: in an indexed session in which every external call succeeds, after
`WriteHeader` with codec parameters and any sequence of packets with `k`
keyframes, `k - 1` flushes have occurred (none when `k = 0`); as many groups
have been appended and as many index records written as there were flushes,
and for every pair `stem.d`, `stem.m` the number of groups appended to `stem.d`
equals the number of index records appended to `stem.m`. -/
theorem indexed_flush_counts (env : Env) (hok : ∀ k, env.ioOk k = true)
    (serverID streamName channelName streamID channelID patch : GoString) (limit : Int)
    (streams : List CodecData) (hst : streams ≠ []) (ps : List Packet) :
    flushCount (run env
        (NewMuxer env serverID streamName channelName streamID channelID patch NVR limit)
        (.header streams :: ps.map Call.packet)).state.trace = keyframes ps - 1 ∧
    (run env
        (NewMuxer env serverID streamName channelName streamID channelID patch NVR limit)
        (.header streams :: ps.map Call.packet)).state.trace.countP Event.isGroup
      = keyframes ps - 1 ∧
    (run env
        (NewMuxer env serverID streamName channelName streamID channelID patch NVR limit)
        (.header streams :: ps.map Call.packet)).state.trace.countP Event.isRecord
      = keyframes ps - 1 ∧
    ∀ stem : GoString,
      (run env
          (NewMuxer env serverID streamName channelName streamID channelID patch NVR limit)
          (.header streams :: ps.map Call.packet)).state.trace.countP
          (Event.isGroupTo (stem ++ ".d".toList))
        = (run env
          (NewMuxer env serverID streamName channelName streamID channelID patch NVR limit)
          (.header streams :: ps.map Call.packet)).state.trace.countP
          (Event.isRecordTo (stem ++ ".m".toList)) := by
  have hw : WriteHeader env
      (NewMuxer env serverID streamName channelName streamID channelID patch NVR limit) streams
      = ({ (NewMuxer env serverID streamName channelName streamID channelID patch NVR limit)
          with gof := ⟨streams, []⟩ }, none) := by
    unfold WriteHeader
    simp only [NewMuxer]
    rw [if_neg (fun e => MP4_ne_NVR e.symm)]
  have h0 : IndexedOk ({ (NewMuxer env serverID streamName channelName streamID channelID patch
      NVR limit) with gof := ⟨streams, []⟩ } : Muxer) :=
    ⟨rfl, hst, by simp [NewMuxer], fun hh => by simp [NewMuxer] at hh, fun _ => rfl, rfl, rfl⟩
  obtain ⟨s1, e1, he, h1, hc⟩ := IndexedOk.packet_run env hok ps _ none h0
  have hrun : run env
      (NewMuxer env serverID streamName channelName streamID channelID patch NVR limit)
      (.header streams :: ps.map Call.packet) = .ret s1 e1 := by
    simp only [run, runFrom, step, hw, he]
  rw [hrun]
  have hf : flushCount s1.trace = keyframes ps - 1 := by
    rw [hc, ← expectedFlushes_fresh]
    simp [flushCount, NewMuxer]
  exact ⟨hf, h1.groups.trans hf, h1.records.trans hf, h1.paired⟩

/-- C5, at the sample recording with keyframes at 0 ms and 2000 ms: exactly one
flush. -/
theorem indexed_flush_counts_witness :
    flushCount (run sampleEnv
        (NewMuxer sampleEnv "srv1".toList "cam".toList "main".toList "7".toList "3".toList
          "/data".toList NVR 10)
        (.header [[1]] :: sampleIndexedPackets.map Call.packet)).state.trace = 1 :=
  (indexed_flush_counts sampleEnv (fun _ => rfl) "srv1".toList "cam".toList "main".toList
    "7".toList "3".toList "/data".toList 10 [[1]] (by decide) sampleIndexedPackets).1.trans
    (by decide)

/-! ## The duration of a group -/

theorem writeIndex_rec (env : Env) (s : Muxer) (f : Data) (dur : Int)
    (hf : f.Dur = durMilliseconds dur) : Frame (RecEv dur) s (writeIndex env s f).1 := by
  have hev : ∀ name ok, RecEv dur (.write name (indexBytes f) ok) := by
    intro name ok
    refine ⟨rfl, fun n b o he => ?_⟩
    cases he
    exact ⟨f.Time, f.Start, by rw [← hf]⟩
  unfold writeIndex
  split
  · exact Frame.refl _ _
  · dsimp only
    split
    · exact Frame.emit _ _ _ (hev _ _)
    · split
      · exact (Frame.called _ env s _ (hev _ _)).then_silent
          rfl rfl rfl rfl rfl rfl rfl rfl rfl
      · exact Frame.called _ env s _ (hev _ _)

theorem RecEv.quiet_record (dur : Int) {e : Event} (h : FlushEv e)
    (hq : ∀ name bytes ok, e ≠ .write name bytes ok) : RecEv dur e :=
  ⟨h, fun n b o he => absurd he (hq n b o)⟩

theorem encodeGroup_rec (env : Env) (s : Muxer) (fd : File) (f : Data) (dur : Int)
    (hf : f.Dur = durMilliseconds dur) : Frame (RecEv dur) s (encodeGroup env s fd f).1 := by
  have hev : ∀ ok, RecEv dur (.encode fd.name s.gof ok) :=
    fun ok => RecEv.quiet_record dur rfl (fun _ _ _ he => by cases he)
  unfold encodeGroup
  dsimp only
  split
  · refine Frame.trans ?_ (writeIndex_rec env _ _ dur hf)
    exact (Frame.called _ env s _ (hev _)).then_silent rfl rfl rfl rfl rfl rfl rfl rfl rfl
  · exact Frame.called _ env s _ (hev _)

theorem writeGopBody_rec (env : Env) (s : Muxer) (t : GoTime) :
    Frame (RecEv s.dur) s (writeGopBody env s t).1 := by
  have hev : ∀ name off ok, RecEv s.dur (.seek name off ok) :=
    fun _ _ _ => RecEv.quiet_record _ rfl (fun _ _ _ he => by cases he)
  unfold writeGopBody
  split
  · exact Frame.refl _ _
  · dsimp only
    split
    · exact Frame.emit _ _ _ (hev _ _ _)
    · split
      · refine Frame.trans ?_ (encodeGroup_rec env _ _ _ s.dur rfl)
        exact Frame.called _ env s _ (hev _ _ _)
      · exact Frame.called _ env s _ (hev _ _ _)

theorem OpenNVREv.rec (dur : Int) {e : Event} (h : OpenNVREv e) : RecEv dur e :=
  RecEv.quiet_record dur h.flush (fun _ _ _ he => by subst he; cases h)

theorem writeGop_rec (env : Env) (s : Muxer) :
    ∃ evs, (writeGop env s).1.trace = s.trace ++ .enterWriteGop s.gof :: evs ∧
      ∀ e ∈ evs, RecEv s.dur e := by
  have key : ∀ s1 : Muxer, Frame (RecEv s.dur) ((s.emit (.enterWriteGop s.gof)).readClock env).2 s1 →
      ∃ evs, s1.trace = s.trace ++ .enterWriteGop s.gof :: evs ∧ ∀ e ∈ evs, RecEv s.dur e := by
    intro s1 hf
    obtain ⟨evs, ht, hp⟩ := hf.trace
    refine ⟨evs, ?_, hp⟩
    rw [ht]
    show (s.trace ++ [Event.enterWriteGop s.gof]) ++ evs = _
    simp
  have hfr := (OpenNVR_frame env ((s.emit (.enterWriteGop s.gof)).readClock env).2)
  unfold writeGop
  dsimp only
  split
  · split
    · rename_i s1 e heq
      rw [heq] at hfr
      exact key s1 (hfr.mono (fun _ h => h.rec s.dur))
    · rename_i s1 heq
      rw [heq] at hfr
      have hb := writeGopBody_rec env s1 ((s.emit (.enterWriteGop s.gof)).readClock env).1
      have hd : s1.dur = s.dur := hfr.dur
      rw [hd] at hb
      exact key _ ((hfr.mono (fun _ h => h.rec s.dur)).trans hb)
  · exact key _ (writeGopBody_rec env ((s.emit (.enterWriteGop s.gof)).readClock env).2 _)

theorem lastFlushed_snoc (tr : List Event) (x : Event) :
    lastFlushed (tr ++ [x]) = (match x with
      | .enterWriteGop g => some g
      | _ => lastFlushed tr) := by
  cases x <;> simp [lastFlushed, List.foldl_append]

theorem RecordsMatch.snoc_record {tr : List Event} (h : RecordsMatch tr) (x : Event)
    (hx : ∀ name bytes ok, x = .write name bytes ok →
      ∃ g, lastFlushed tr = some g ∧ RecordOf g bytes) : RecordsMatch (tr ++ [x]) := by
  intro pre post name bytes ok heq
  rcases List.eq_nil_or_concat post with hp | ⟨post1, y, hp⟩
  · subst hp
    have h1 : tr ++ [x] = pre ++ [Event.write name bytes ok] := heq
    have h2 := List.append_inj' h1 rfl
    obtain ⟨g, hg, hr⟩ := hx name bytes ok (List.singleton_inj.1 h2.2)
    exact ⟨g, h2.1 ▸ hg, hr⟩
  · subst hp
    have h1 : tr ++ [x] = (pre ++ Event.write name bytes ok :: post1) ++ [y] := by
      rw [heq]; simp
    have h2 := List.append_inj' h1 rfl
    exact h pre post1 name bytes ok h2.1

theorem RecordsMatch.append_silent {tr : List Event} (h : RecordsMatch tr) (evs : List Event)
    (hx : ∀ e ∈ evs, ∀ name bytes ok, e ≠ .write name bytes ok) :
    RecordsMatch (tr ++ evs) := by
  induction evs generalizing tr with
  | nil => simpa using h
  | cons x evs ih =>
    have h1 : RecordsMatch (tr ++ [x]) :=
      h.snoc_record x (fun n b o he => absurd he (hx x (List.mem_cons_self _ _) n b o))
    have h2 := ih h1 (fun e he => hx e (List.mem_cons_of_mem _ he))
    simpa using h2

/-- The trace of a flush of the group `g`, whose accumulated duration is the
sum over its primary packets, keeps the records matched. -/
theorem RecordsMatch.append_flush {tr : List Event} (h : RecordsMatch tr) (g : Gof)
    (hl : lastFlushed tr = some g) (evs : List Event)
    (hx : ∀ e ∈ evs, RecEv (wrap64 (totalDuration (primary g.Packet))) e) :
    RecordsMatch (tr ++ evs) := by
  induction evs generalizing tr with
  | nil => simpa using h
  | cons x evs ih =>
    have hxe := hx x (List.mem_cons_self _ _)
    have h1 : RecordsMatch (tr ++ [x]) :=
      h.snoc_record x (fun n b o he => ⟨g, hl, hxe.2 n b o he⟩)
    have hl1 : lastFlushed (tr ++ [x]) = some g := by
      rw [lastFlushed_snoc]
      cases x <;> first | exact hl | cases hxe.1
    have h2 := ih h1 hl1 (fun e he => hx e (List.mem_cons_of_mem _ he))
    simpa using h2

theorem RecordsMatch.flush_record (env : Env) {s : Muxer} (h : RecordsMatch s.trace)
    (hd : s.dur = wrap64 (totalDuration (primary s.gof.Packet))) :
    RecordsMatch (writeGop env s).1.trace := by
  obtain ⟨evs, ht, hp⟩ := writeGop_rec env s
  rw [ht]
  have h1 : RecordsMatch (s.trace ++ [Event.enterWriteGop s.gof]) :=
    h.snoc_record _ (fun n b o he => by cases he)
  have h2 := h1.append_flush s.gof (by rw [lastFlushed_snoc]) evs (hd ▸ hp)
  simpa using h2

theorem RecordsMatch.frame_record {P : Event → Prop} {s1 s2 : Muxer} (h : RecordsMatch s1.trace)
    (hf : Frame P s1 s2) (hP : ∀ e, P e → ∀ name bytes ok, e ≠ .write name bytes ok) :
    RecordsMatch s2.trace := by
  obtain ⟨evs, ht, hp⟩ := hf.trace
  rw [ht]
  exact h.append_silent evs (fun e he => hP e (hp e he))

theorem TrailerEv.not_write {e : Event} (h : TrailerEv e) (name : GoString) (bytes : List Nat)
    (ok : Bool) : e ≠ .write name bytes ok := by
  rintro rfl; cases h

theorem totalDuration_append (ps qs : List Packet) :
    totalDuration (ps ++ qs) = totalDuration ps + totalDuration qs := by
  simp [totalDuration]

theorem appendPacket_dur (s : Muxer) (pkt : Packet)
    (hd : s.dur = wrap64 (totalDuration (primary s.gof.Packet))) :
    (appendPacket s pkt).dur = wrap64 (totalDuration (primary (appendPacket s pkt).gof.Packet)) := by
  rw [appendPacket_Packet]
  unfold appendPacket
  dsimp only
  split
  · rename_i h0
    show wrap64 (s.dur + pkt.Duration) = _
    rw [hd, wrap64_add_left]
    simp [primary, List.filter_append, h0, totalDuration]
  · rename_i h0
    show s.dur = _
    rw [hd]
    simp [primary, List.filter_append, h0]

theorem wrap64_empty : (0 : Int) = wrap64 (totalDuration (primary [])) := by decide

theorem DurInv.append_dur {s : Muxer} (pkt : Packet) (hf : s.format = NVR)
    (hd : s.dur = wrap64 (totalDuration (primary s.gof.Packet)))
    (hr : RecordsMatch s.trace) : DurInv (appendPacket s pkt) :=
  ⟨by rw [appendPacket_format]; exact hf, appendPacket_dur s pkt hd,
    by rw [appendPacket_trace]; exact hr⟩

theorem DurInv.nvr_dur (env : Env) {s : Muxer} (h : DurInv s) (pkt : Packet) :
    DurInv (writePacketNVR env s pkt).1 := by
  have hreset : ∀ s1 : Muxer, s1.format = NVR → RecordsMatch s1.trace →
      DurInv (appendPacket { s1 with gof := { s1.gof with Packet := [] }, dur := 0 } pkt) :=
    fun s1 hf hr => DurInv.append_dur pkt hf wrap64_empty hr
  unfold writePacketNVR
  split
  · split
    · have hfr := writeGop_frame env s
      have hrm := h.records.flush_record env h.dur
      split
      · rename_i s1 e heq
        rw [heq] at hfr hrm
        exact ⟨hfr.format.trans h.format, by rw [hfr.dur, hfr.gof]; exact h.dur, hrm⟩
      · rename_i s1 heq
        rw [heq] at hfr hrm
        exact hreset s1 (hfr.format.trans h.format) hrm
    · exact hreset s h.format h.records
  · exact DurInv.append_dur pkt h.format h.dur h.records

theorem DurInv.packet_dur (env : Env) {s : Muxer} (h : DurInv s) (pkt : Packet) :
    DurInv (WritePacket env s pkt).state := by
  have hne : ¬ NVR = MP4 := fun e => MP4_ne_NVR e.symm
  have hs : DurInv ({ s with started := true } : Muxer) := ⟨h.format, h.dur, h.records⟩
  unfold WritePacket
  split
  · exact h
  · dsimp only
    split
    · rename_i hc
      split
      · split
        · rename_i hf
          exact absurd (hf.symm.trans h.format).symm hne
        · split
          · exact hs.nvr_dur env pkt
          · exact hs
      · exact hs
    · split
      · split
        · rename_i hf
          exact absurd (hf.symm.trans h.format).symm hne
        · split
          · exact h.nvr_dur env pkt
          · exact h
      · exact h

theorem DurInv.step_dur (env : Env) {s : Muxer} (h : DurInv s) (c : Call) :
    DurInv (step env s c).state := by
  cases c with
  | header streams =>
    have h1 : DurInv ({ s with gof := { s.gof with Streams := streams } } : Muxer) :=
      ⟨h.format, h.dur, h.records⟩
    show DurInv (WriteHeader env s streams).1
    unfold WriteHeader
    dsimp only
    rw [if_neg (by rw [h.format]; exact fun e => MP4_ne_NVR e.symm)]
    exact h1
  | packet pkt => exact h.packet_dur env pkt
  | trailer =>
    have hfr := WriteTrailer_frame env s
    show DurInv (WriteTrailer env s).1
    exact ⟨hfr.format.trans h.format, by rw [hfr.dur, hfr.gof]; exact h.dur,
      h.records.frame_record hfr (fun _ he => he.not_write)⟩

theorem DurInv.run_dur (env : Env) (cs : List Call) (o : Outcome) (h : DurInv o.state) :
    DurInv (runFrom env cs o).state := by
  induction cs generalizing o with
  | nil => exact h
  | cons c cs ih =>
    cases o with
    | ret s e => exact ih _ (DurInv.step_dur env (s := s) h c)
    | panic s => exact h

/-- C6: in an indexed session created by `NewMuxer`, after any sequence of
public calls and whatever the external calls return, the accumulated duration
is the sum, in `int64` arithmetic, of the durations of the buffered packets of
stream 0, whatever other packets are buffered with them; and every index record
handed to the index file carries, as its duration, the whole milliseconds of
that sum for the group its flush was entered with. -/
theorem index_duration_is_primary_sum (env : Env)
    (serverID streamName channelName streamID channelID patch : GoString) (limit : Int)
    (cs : List Call) :
    (run env (NewMuxer env serverID streamName channelName streamID channelID patch NVR limit)
        cs).state.dur
      = wrap64 (totalDuration (primary
          (run env (NewMuxer env serverID streamName channelName streamID channelID patch NVR
            limit) cs).state.gof.Packet)) ∧
    RecordsMatch
      (run env (NewMuxer env serverID streamName channelName streamID channelID patch NVR limit)
        cs).state.trace := by
  have h0 : DurInv
      (NewMuxer env serverID streamName channelName streamID channelID patch NVR limit) :=
    ⟨rfl, wrap64_empty, fun pre post name bytes ok he => by simp [NewMuxer] at he⟩
  have h := DurInv.run_dur env cs (.ret _ none) h0
  exact ⟨h.dur, h.records⟩

set_option maxRecDepth 100000 in
/-- C6, at the sample recording: the record written by the flush of the first
group (a keyframe and a frame of stream 0 of one second each, and a packet of
stream 1) has the duration of its two primary packets. -/
theorem index_duration_is_primary_sum_witness :
    ∃ g, lastFlushed sampleFlushCalls = some g ∧ RecordOf g sampleRecord :=
  (index_duration_is_primary_sum sampleEnv "srv1".toList "cam".toList "main".toList "7".toList
    "3".toList "/data".toList 10 (.header [[1]] :: sampleIndexedPackets.map Call.packet)).2
    sampleFlushCalls [] "/data/2024/03/05/10.m".toList sampleRecord true (by decide)

/-! ## The index record -/

theorem le64_length (x : Int) : (le64 x).length = 8 := by
  simp [le64]

theorem le64_value (x : Int) : leValue (le64 x) = (x % 2 ^ 64).toNat := by
  have hr : List.range 8 = [0, 1, 2, 3, 4, 5, 6, 7] := by decide
  have h : (x % 2 ^ 64).toNat < 2 ^ 64 := by omega
  unfold le64
  rw [hr]
  simp only [List.map, leValue]
  generalize (x % 2 ^ 64).toNat = n at h ⊢
  norm_num at h ⊢
  omega

theorem le64_byte (x : Int) : ∀ b ∈ le64 x, b < 256 := by
  intro b hb
  simp only [le64, List.mem_map] at hb
  obtain ⟨i, -, rfl⟩ := hb
  exact Nat.mod_lt _ (by decide)

theorem indexBytes_length (f : Data) : (indexBytes f).length = 32 := by
  simp [indexBytes, le64_length, MIME]

/-- C7: a successful flush appends to the index file exactly 32 bytes: the
little-endian encodings, eight bytes each, of the flush time in nanoseconds
since the epoch, of the start offset and of the group duration in milliseconds,
in this order, followed by the eight magic bytes; the start offset is the
length the data file had when the flush sought its end, and the blob of the
group is appended to that content. -/
theorem flush_index_record (env : Env) (s : Muxer) (h : (writeGop env s).2 = none) :
    FlushWrites env s := by
  obtain ⟨s0, evs, ht, hp, hg, hdur, -, -, -, -, heq⟩ := writeGop_success env s h
  rw [heq] at h
  obtain ⟨fd, fm, hd, -, hm, -, htr, hfs, -, -, -⟩ := writeGopBody_success env s0 _ h
  refine ⟨s0, evs, fd, fm, _, _, ht, hp, hd, hm, rfl, rfl, ?_, ?_, ?_, ?_⟩
  · exact indexBytes_length ⟨_, _, _⟩
  · rw [le64_value]
    omega
  · rw [heq, htr, hg, hdur]; rfl
  · rw [heq, hfs, hg, hdur]; rfl

set_option maxRecDepth 100000 in
/-- C7, at the sample recording: the flush caused by the second keyframe
succeeds, and writes its record of 32 bytes. -/
theorem flush_index_record_witness :
    (writeGop sampleEnv sampleBeforeFlush).2 = none ∧ FlushWrites sampleEnv sampleBeforeFlush :=
  ⟨by decide, flush_index_record sampleEnv sampleBeforeFlush (by decide)⟩

/-! ## The hour of a flush -/

set_option maxRecDepth 100000 in
/-- C8 as stated fails: a flush performed on 2024-03-06 in hour 10 by a session
whose previous flush was on 2024-03-05 in hour 10 succeeds and appends the
group to `/data/2024/03/05/10.d`, not to the data file of its own date. -/
theorem flush_pair_counterexample :
    (dayLaterEnv.now dayLaterSession.clock).formatDate = "2024/03/06".toList ∧
    (dayLaterEnv.now dayLaterSession.clock).hour = 10 ∧
    (writeGop dayLaterEnv dayLaterSession).2 = none ∧
    Event.encode "/data/2024/03/05/10.d".toList dayLaterSession.gof true
      ∈ (writeGop dayLaterEnv dayLaterSession).1.trace.drop dayLaterSession.trace.length ∧
    Event.encode (pairPath "/data".toList (dayLaterEnv.now dayLaterSession.clock) ".d")
        dayLaterSession.gof true
      ∉ (writeGop dayLaterEnv dayLaterSession).1.trace := by
  decide

/-- A step that leaves the handles, the open hour and the template alone keeps
the open pair. -/
theorem OpenPair.of_same {env : Env} {s1 s2 : Muxer} (h : OpenPair env s1) (hd : s2.d = s1.d)
    (hm : s2.m = s1.m) (hh : s2.h = s1.h) (hp : s2.patch = s1.patch) : OpenPair env s2 := by
  intro fd fm h1 h2 h3 h4
  rw [hd] at h1
  rw [hm] at h2
  rw [hh, hp]
  exact h fd fm h1 h2 h3 h4

theorem writeIndex_handles (env : Env) (s : Muxer) (f : Data) :
    (writeIndex env s f).1.d = s.d ∧ (writeIndex env s f).1.m = s.m ∧
      (writeIndex env s f).1.h = s.h := by
  unfold writeIndex
  split
  · exact ⟨rfl, rfl, rfl⟩
  · dsimp only
    split
    · exact ⟨rfl, rfl, rfl⟩
    · split <;> exact ⟨rfl, rfl, rfl⟩

theorem encodeGroup_handles (env : Env) (s : Muxer) (fd : File) (f : Data) :
    (encodeGroup env s fd f).1.d = s.d ∧ (encodeGroup env s fd f).1.m = s.m ∧
      (encodeGroup env s fd f).1.h = s.h := by
  unfold encodeGroup
  dsimp only
  split
  · exact writeIndex_handles env _ f
  · exact ⟨rfl, rfl, rfl⟩

theorem writeGopBody_handles (env : Env) (s : Muxer) (t : GoTime) :
    (writeGopBody env s t).1.d = s.d ∧ (writeGopBody env s t).1.m = s.m ∧
      (writeGopBody env s t).1.h = s.h := by
  unfold writeGopBody
  split
  · exact ⟨rfl, rfl, rfl⟩
  · dsimp only
    split
    · exact ⟨rfl, rfl, rfl⟩
    · split
      · exact encodeGroup_handles env _ _ _
      · exact ⟨rfl, rfl, rfl⟩

theorem closeFile_closed (env : Env) (s : Muxer) (f : File) :
    (closeFile env s f).2.1.closed = true := by
  unfold closeFile
  split
  · rename_i h; exact h
  · rfl

theorem WriteTrailer_m_closed (env : Env) (s : Muxer) (fm : File)
    (h : (WriteTrailer env s).1.m = some fm) : fm.closed = true := by
  have e1 : ∀ f, (closeIndex env (trailerMuxer env s)).1.m = some f → f.closed = true := by
    intro f hf
    unfold closeIndex at hf
    split at hf
    · have := Option.some.inj hf
      rw [← this]
      exact closeFile_closed env _ _
    · rename_i hn
      rw [hn] at hf; cases hf
  unfold WriteTrailer at h
  dsimp only at h
  split at h
  · rw [finishData_m] at h
    exact e1 fm h
  · exact e1 fm h

theorem openAppend_handles (env : Env) (s : Muxer) (name : GoString) :
    (openAppend env s name).2.d = s.d ∧ (openAppend env s name).2.m = s.m ∧
      (openAppend env s name).2.h = s.h := by
  unfold openAppend
  dsimp only
  split <;> exact ⟨rfl, rfl, rfl⟩

/-- After a failed `openPair` one of the two handles is nil. -/
theorem openPair_failure (env : Env) (s : Muxer) (dir : GoString) (hour : Int)
    (h : (openPair env s dir hour).2 ≠ none) :
    (openPair env s dir hour).1.d = none ∨ (openPair env s dir hour).1.m = none := by
  unfold openPair at h ⊢
  dsimp only at h ⊢
  split
  · split
    · rename_i h1 h2
      rw [if_pos h1, if_pos h2] at h
      exact absurd rfl h
    · rename_i h1 h2
      right
      exact Option.not_isSome_iff_eq_none.1 h2
  · rename_i h1
    left
    exact Option.not_isSome_iff_eq_none.1 h1

theorem openPair_m (env : Env) (s : Muxer) (dir : GoString) (hour : Int) (fm : File)
    (h : (openPair env s dir hour).1.m = some fm) (hc : fm.closed = false)
    (hs : ∀ f, s.m = some f → f.closed = true) :
    (openPair env s dir hour).2 = none := by
  by_contra hne
  unfold openPair at h hne
  dsimp only at h hne
  split at h
  · split at h
    · rename_i h1 h2
      rw [if_pos h1, if_pos h2] at hne
      exact hne rfl
    · rename_i h1 h2
      have := Option.not_isSome_iff_eq_none.1 h2
      have h' : (openAppend env _ _).1 = some fm := h
      rw [this] at h'
      cases h'
  · have h' : (openAppend env s _).2.m = some fm := h
    rw [(openAppend_handles env s _).2.1] at h'
    have := hs fm h'
    rw [hc] at this
    cases this

theorem OpenPair.after_OpenNVR (env : Env) (s : Muxer) : OpenPair env (OpenNVR env s).1 := by
  have hclosed : ∀ f, (((WriteTrailer env s).1.readClock env).2.call env).2.m = some f →
      f.closed = true := fun f hf => WriteTrailer_m_closed env s f hf
  intro fd fm hd hm hdc hmc
  have hsucc : (OpenNVR env s).2 = none := by
    unfold OpenNVR at hm ⊢
    dsimp only at hm ⊢
    split
    · rename_i hok
      rw [if_pos hok] at hm
      exact openPair_m env _ _ _ fm hm hmc hclosed
    · rename_i hok
      rw [if_neg hok] at hm
      have := hclosed fm hm
      rw [hmc] at this
      cases this
  obtain ⟨h1, h2, h3⟩ := OpenNVR_success env s hsucc
  have hp : (OpenNVR env s).1.patch = s.patch := (OpenNVR_frame env s).patch
  rw [h1] at hd
  rw [h2] at hm
  cases hd
  cases hm
  exact ⟨_, by rw [hp], by rw [hp], h3⟩

theorem OpenPair.flush_pair (env : Env) {s : Muxer} (h : OpenPair env s) :
    OpenPair env (writeGop env s).1 := by
  have hb : ∀ (s1 : Muxer) (t : GoTime), OpenPair env s1 → OpenPair env (writeGopBody env s1 t).1 :=
    fun s1 t h1 => h1.of_same (writeGopBody_handles env s1 t).1 (writeGopBody_handles env s1 t).2.1
      (writeGopBody_handles env s1 t).2.2 (writeGopBody_frame env s1 t).patch
  have h0 : OpenPair env ((s.emit (.enterWriteGop s.gof)).readClock env).2 :=
    h.of_same rfl rfl rfl rfl
  have hn := OpenPair.after_OpenNVR env ((s.emit (.enterWriteGop s.gof)).readClock env).2
  unfold writeGop
  dsimp only
  split
  · split
    · rename_i s1 e heq
      rw [heq] at hn; exact hn
    · rename_i s1 heq
      rw [heq] at hn; exact hb _ _ hn
  · exact hb _ _ h0

theorem OpenPair.after_packet (env : Env) {s : Muxer} (h : OpenPair env s) (pkt : Packet) :
    OpenPair env (writePacketNVR env s pkt).1 := by
  have ha : ∀ s1 s2 : Muxer, OpenPair env s1 → s2.d = s1.d → s2.m = s1.m → s2.h = s1.h →
      s2.patch = s1.patch → OpenPair env (appendPacket s2 pkt) := by
    intro s1 s2 h1 hd hm hh hp
    have e : ∀ s3 : Muxer, (appendPacket s3 pkt).d = s3.d ∧ (appendPacket s3 pkt).m = s3.m ∧
        (appendPacket s3 pkt).h = s3.h ∧ (appendPacket s3 pkt).patch = s3.patch := by
      intro s3; unfold appendPacket; dsimp only; split <;> exact ⟨rfl, rfl, rfl, rfl⟩
    exact h1.of_same ((e s2).1.trans hd) ((e s2).2.1.trans hm) ((e s2).2.2.1.trans hh)
      ((e s2).2.2.2.trans hp)
  unfold writePacketNVR
  split
  · split
    · have hf := h.flush_pair env
      split
      · rename_i s1 e heq
        rw [heq] at hf; exact hf
      · rename_i s1 heq
        rw [heq] at hf
        exact ha s1 _ hf rfl rfl rfl rfl
    · exact ha s _ h rfl rfl rfl rfl
  · exact ha s s h rfl rfl rfl rfl

/-- What `WritePacket` does in an indexed session: nothing, or it only marks
the session started, or it calls `writePacketNVR`, on the session as it is or
marked started. -/
theorem WritePacket_indexed (env : Env) (s : Muxer) (pkt : Packet) (hf : s.format = NVR) :
    ∃ s1, (s1 = s ∨ s1 = { s with started := true }) ∧
      (WritePacket env s pkt = .ret s1 none ∨
        WritePacket env s pkt = .ret (writePacketNVR env s1 pkt).1 (writePacketNVR env s1 pkt).2) := by
  have hne : ¬ NVR = MP4 := fun e => MP4_ne_NVR e.symm
  by_cases hlen : s.gof.Streams.length = 0
  · exact ⟨s, Or.inl rfl, Or.inl (by unfold WritePacket; rw [if_pos hlen])⟩
  by_cases hst : s.started = true
  · refine ⟨s, Or.inl rfl, Or.inr ?_⟩
    have e1 : (if (!s.started && pkt.IsKeyFrame) = true then
        ({ s with started := true } : Muxer) else s) = s := by simp [hst]
    unfold WritePacket
    rw [if_neg hlen]
    dsimp only
    rw [e1, if_pos hst, hf, if_neg hne, if_pos rfl]
  · have hst2 : s.started = false := by simpa using hst
    by_cases hk : pkt.IsKeyFrame = true
    · refine ⟨{ s with started := true }, Or.inr rfl, Or.inr ?_⟩
      have e1 : (if (!s.started && pkt.IsKeyFrame) = true then
          ({ s with started := true } : Muxer) else s) = { s with started := true } := by
        simp [hst2, hk]
      unfold WritePacket
      rw [if_neg hlen]
      dsimp only
      rw [e1]
      have hf1 : ({ s with started := true } : Muxer).format = NVR := hf
      rw [if_pos (by rfl), hf1, if_neg hne, if_pos rfl]
    · refine ⟨s, Or.inl rfl, Or.inl ?_⟩
      have e1 : (if (!s.started && pkt.IsKeyFrame) = true then
          ({ s with started := true } : Muxer) else s) = s := by simp [hst2, hk]
      unfold WritePacket
      rw [if_neg hlen]
      dsimp only
      rw [e1, if_neg hst]

theorem writePacketNVR_format (env : Env) (s : Muxer) (pkt : Packet) :
    (writePacketNVR env s pkt).1.format = s.format := by
  unfold writePacketNVR
  split
  · split
    · have hfr := writeGop_frame env s
      split
      · rename_i s2 e2 heq
        rw [heq] at hfr; exact hfr.format
      · rename_i s2 heq
        rw [heq] at hfr
        exact (appendPacket_format _ _).trans hfr.format
    · exact appendPacket_format _ _
  · exact appendPacket_format _ _

theorem OpenPair.packet_pair (env : Env) {s : Muxer} (h : OpenPair env s)
    (hf : s.format = NVR) (pkt : Packet) :
    (WritePacket env s pkt).state.format = NVR ∧ OpenPair env (WritePacket env s pkt).state := by
  obtain ⟨s1, hs1, hw⟩ := WritePacket_indexed env s pkt hf
  have h1 : OpenPair env s1 ∧ s1.format = NVR := by
    rcases hs1 with rfl | rfl
    · exact ⟨h, hf⟩
    · exact ⟨h.of_same rfl rfl rfl rfl, hf⟩
  rcases hw with hw | hw
  · rw [hw]; exact ⟨h1.2, h1.1⟩
  · rw [hw]
    exact ⟨(writePacketNVR_format env s1 pkt).trans h1.2, h1.1.after_packet env pkt⟩

theorem OpenPair.after_call (env : Env) {s : Muxer} (h : OpenPair env s) (hf : s.format = NVR)
    (c : Call) : (step env s c).state.format = NVR ∧ OpenPair env (step env s c).state := by
  cases c with
  | header streams =>
    show (WriteHeader env s streams).1.format = NVR ∧ OpenPair env (WriteHeader env s streams).1
    unfold WriteHeader
    dsimp only
    rw [if_neg (by rw [hf]; exact fun e => MP4_ne_NVR e.symm)]
    exact ⟨hf, h.of_same rfl rfl rfl rfl⟩
  | packet pkt => exact h.packet_pair env hf pkt
  | trailer =>
    show (WriteTrailer env s).1.format = NVR ∧ OpenPair env (WriteTrailer env s).1
    refine ⟨(WriteTrailer_frame env s).format.trans hf, ?_⟩
    intro fd fm _ hm _ hmc
    have := WriteTrailer_m_closed env s fm hm
    rw [hmc] at this
    cases this

theorem OpenPair.after_calls (env : Env) (cs : List Call) (o : Outcome)
    (h : OpenPair env o.state) (hf : o.state.format = NVR) :
    (runFrom env cs o).state.format = NVR ∧ OpenPair env (runFrom env cs o).state := by
  induction cs generalizing o with
  | nil => exact ⟨hf, h⟩
  | cons c cs ih =>
    cases o with
    | ret s e =>
      have h1 := OpenPair.after_call env (s := s) h hf c
      exact ih _ h1.2 h1.1
    | panic s => exact ⟨hf, h⟩

/-- C8 as the code has it. An indexed session created by `NewMuxer` always
holds, when it holds an open pair of files, the pair of the date and hour of
some clock reading, whose hour is the open hour. A successful flush at time `t`
in such a session writes the blob and the index record to the two files of one
pair `root/YYYY/MM/DD/H.d`, `H.m`, of a clock reading `t0`: when the open hour
differs from the hour of `t`, `t0` is the clock reading `OpenNVR` takes right
after `t`; when the open hour is the hour of `t`, it is the pair already open,
whose hour is that of `t` but whose date may be an earlier one. -/
theorem flush_goes_to_open_pair (env : Env)
    (serverID streamName channelName streamID channelID patch : GoString) (limit : Int) :
    (∀ cs : List Call,
      (run env (NewMuxer env serverID streamName channelName streamID channelID patch NVR limit)
        cs).state.format = NVR ∧
      OpenPair env
        (run env (NewMuxer env serverID streamName channelName streamID channelID patch NVR
          limit) cs).state) ∧
    (∀ s : Muxer, s.format = NVR → OpenPair env s → (writeGop env s).2 = none →
      ∃ t0, FlushedTo env s t0 ∧
        (s.h ≠ (env.now s.clock).hour → t0 = env.now (s.clock + 1)) ∧
        (s.h = (env.now s.clock).hour → t0.hour = (env.now s.clock).hour)) := by
  refine ⟨fun cs => ?_, fun s hf hop hs => ?_⟩
  · exact OpenPair.after_calls env cs (.ret _ none)
      (fun fd fm hd _ _ _ => by simp [NewMuxer, Outcome.state] at hd) rfl
  · obtain ⟨s0, evs, ht, hp, hg, -, hpatch, -, hre, hsame, heq⟩ := writeGop_success env s hs
    rw [heq] at hs
    obtain ⟨fd, fm, hd, hdc, hm, hmc, htr, -, -, -, -⟩ := writeGopBody_success env s0 _ hs
    have hne : s.format ≠ MP4 := by rw [hf]; exact fun e => MP4_ne_NVR e.symm
    by_cases hh : s.h = (env.now s.clock).hour
    · obtain ⟨e1, e2, -, -⟩ := hsame hh
      obtain ⟨k, hk1, hk2, hk3⟩ := hop fd fm (e1 ▸ hd) (e2 ▸ hm) hdc hmc
      refine ⟨env.now k, ⟨s0.trace, (s0.fs.size fd.name : Int),
        indexBytes ⟨(env.now s.clock).unixNano, s0.fs.size fd.name, durMilliseconds s0.dur⟩, ?_⟩,
        fun hc => absurd hh hc, fun _ => hk3 ▸ hh⟩
      rw [heq, htr, hk1, hk2, hg]
    · obtain ⟨t1, ht1, h1, h2, -⟩ := hre hh
      have e1 : fd = ⟨pairPath s.patch t1 ".d", false⟩ := by
        rw [hd] at h1; exact Option.some.inj h1
      have e2 : fm = ⟨pairPath s.patch t1 ".m", false⟩ := by
        rw [hm] at h2; exact Option.some.inj h2
      refine ⟨t1, ⟨s0.trace, (s0.fs.size fd.name : Int),
        indexBytes ⟨(env.now s.clock).unixNano, s0.fs.size fd.name, durMilliseconds s0.dur⟩, ?_⟩,
        fun _ => ht1 hne, fun hc => absurd hc hh⟩
      rw [heq, htr, e1, e2, hg]

set_option maxRecDepth 100000 in
/-- C8 as the code has it, at the sample recording: the first flush finds no
hour open and writes to the pair of the clock reading of `OpenNVR`. -/
theorem flush_goes_to_open_pair_witness :
    sampleBeforeFlush.h ≠ (sampleEnv.now sampleBeforeFlush.clock).hour ∧
    ∃ t0, FlushedTo sampleEnv sampleBeforeFlush t0 ∧
      (sampleBeforeFlush.h ≠ (sampleEnv.now sampleBeforeFlush.clock).hour →
        t0 = sampleEnv.now (sampleBeforeFlush.clock + 1)) ∧
      (sampleBeforeFlush.h = (sampleEnv.now sampleBeforeFlush.clock).hour →
        t0.hour = (sampleEnv.now sampleBeforeFlush.clock).hour) :=
  ⟨by decide,
   (flush_goes_to_open_pair sampleEnv "srv1".toList "cam".toList "main".toList "7".toList
      "3".toList "/data".toList 10).2 sampleBeforeFlush (by decide)
      ((flush_goes_to_open_pair sampleEnv "srv1".toList "cam".toList "main".toList "7".toList
        "3".toList "/data".toList 10).1
        (.header [[1]] :: (sampleIndexedPackets.take 3).map Call.packet)).2
      (by decide)⟩

/-! ## The path templater -/

set_option maxRecDepth 100000 in
/-- C9 at its failing input: the template `{host_name}` contains no entry of
`listTag`, yet `filePatch` does not return it unchanged: it returns the server
id, `srv1`. -/
theorem filePatch_replaces_host_name :
    (∀ tag ∈ listTag, occursIn tag "{host_name}".toList = false) ∧
    (sampleMuxer "{host_name}".toList MP4 10).serverID = "srv1".toList ∧
    (filePatch sampleEnv (sampleMuxer "{host_name}".toList MP4 10)).1 = "srv1".toList := by
  decide

/-! ## Substitution in templates made of text and tokens -/

theorem replaceScan_skip (old new : GoString) (pre rest : GoString) :
    replaceScan old new (pre ++ rest) pre.length = replaceScan old new rest 0 := by
  induction pre with
  | nil => rfl
  | cons c pre ih => simp [replaceScan, ih]

theorem replaceScan_miss (old new : GoString) (c : Char) (cs : GoString)
    (h : old.isPrefixOf (c :: cs) = false) :
    replaceScan old new (c :: cs) 0 = c :: replaceScan old new cs 0 := by
  simp [replaceScan, h]

theorem isPrefixOf_self_append (a rest : GoString) : a.isPrefixOf (a ++ rest) = true := by
  induction a with
  | nil => simp [List.isPrefixOf]
  | cons c a ih => simp [List.isPrefixOf, ih]

theorem replaceScan_hit (old new : GoString) (rest : GoString) (h : old ≠ []) :
    replaceScan old new (old ++ rest) 0 = new ++ replaceScan old new rest 0 := by
  cases old with
  | nil => exact absurd rfl h
  | cons a olds =>
    have hp : (a :: olds).isPrefixOf (a :: (olds ++ rest)) = true :=
      isPrefixOf_self_append (a :: olds) rest
    have hs := replaceScan_skip (a :: olds) new olds rest
    show replaceScan (a :: olds) new (a :: (olds ++ rest)) 0 = _
    rw [replaceScan, if_pos hp]
    show new ++ replaceScan (a :: olds) new (olds ++ rest) olds.length = _
    rw [hs]

/-- Text without an opening brace is copied when the token sought begins with
an opening brace. -/
theorem replaceScan_text (old new : GoString) (ho : old.head? = some '{') (s rest : GoString)
    (hs : ∀ c ∈ s, c ≠ '{') :
    replaceScan old new (s ++ rest) 0 = s ++ replaceScan old new rest 0 := by
  induction s with
  | nil => rfl
  | cons c s ih =>
    have hc : c ≠ '{' := hs c (List.mem_cons_self _ _)
    have hmiss : old.isPrefixOf (c :: (s ++ rest)) = false := by
      cases old with
      | nil => simp at ho
      | cons a olds =>
        simp only [List.head?, Option.some.injEq] at ho
        subst ho
        simp [List.isPrefixOf, Ne.symm hc]
    rw [List.cons_append, replaceScan_miss _ _ _ _ hmiss,
      ih (fun d hd => hs d (List.mem_cons_of_mem _ hd))]
    rfl

/-- Two names without a closing brace, each followed by one, of which one
begins the other followed by anything, are equal. -/
theorem name_eq_of_isPrefixOf (a b rest : GoString) (ha : ∀ c ∈ a, c ≠ '}')
    (hb : ∀ c ∈ b, c ≠ '}') (h : (a ++ ['}']).isPrefixOf (b ++ '}' :: rest) = true) : a = b := by
  induction a generalizing b with
  | nil =>
    cases b with
    | nil => rfl
    | cons y b =>
      simp only [List.nil_append, List.cons_append, List.isPrefixOf, Bool.and_true,
        beq_iff_eq] at h
      exact absurd h.symm (hb y (List.mem_cons_self _ _))
  | cons x a ih =>
    cases b with
    | nil =>
      simp only [List.cons_append, List.nil_append, List.isPrefixOf, Bool.and_eq_true,
        beq_iff_eq] at h
      exact absurd h.1 (ha x (List.mem_cons_self _ _))
    | cons y b =>
      simp only [List.cons_append, List.isPrefixOf, Bool.and_eq_true, beq_iff_eq] at h
      rw [h.1, ih b (fun c hc => ha c (List.mem_cons_of_mem _ hc))
        (fun c hc => hb c (List.mem_cons_of_mem _ hc)) h.2]

theorem braceFree_iff (s : GoString) : braceFree s = true ↔ ∀ c ∈ s, c ≠ '{' ∧ c ≠ '}' := by
  simp [braceFree, List.all_eq_true]

theorem isToken_shape (t : GoString) (h : isToken t = true) :
    ∃ body, t = '{' :: (body ++ ['}']) ∧ braceFree body = true := by
  unfold isToken at h
  split at h
  · rename_i rest
    simp only [Bool.and_eq_true, beq_iff_eq] at h
    refine ⟨rest.dropLast, ?_, h.2⟩
    have := List.dropLast_append_getLast? '}' (by simpa using h.1)
    rw [this]
  · cases h

/-- A token other than the one sought is copied. -/
theorem replaceScan_other (old new t rest : GoString) (ho : isToken old = true)
    (ht : isToken t = true) (hne : t ≠ old) :
    replaceScan old new (t ++ rest) 0 = t ++ replaceScan old new rest 0 := by
  obtain ⟨a, rfl, ha⟩ := isToken_shape old ho
  obtain ⟨b, rfl, hb⟩ := isToken_shape t ht
  rw [braceFree_iff] at ha hb
  have hmiss : ('{' :: (a ++ ['}'])).isPrefixOf ('{' :: (b ++ ['}']) ++ rest) = false := by
    by_contra hc
    have hc2 : (a ++ ['}']).isPrefixOf (b ++ '}' :: rest) = true := by
      simpa [List.isPrefixOf] using hc
    have := name_eq_of_isPrefixOf a b rest (fun c hc => (ha c hc).2) (fun c hc => (hb c hc).2) hc2
    exact hne (by rw [this])
  have hmiss2 : ('{' :: (a ++ ['}'])).isPrefixOf ('}' :: rest) = false := by
    simp [List.isPrefixOf]
  have h1 : replaceScan ('{' :: (a ++ ['}'])) new ('{' :: (b ++ ['}' ] ++ rest)) 0
      = '{' :: replaceScan ('{' :: (a ++ ['}'])) new (b ++ ['}'] ++ rest) 0 :=
    replaceScan_miss _ new '{' (b ++ ['}'] ++ rest) hmiss
  have e : b ++ ['}'] ++ rest = b ++ ('}' :: rest) := by simp
  show replaceScan ('{' :: (a ++ ['}'])) new ('{' :: (b ++ ['}'] ++ rest)) 0 = _
  rw [h1, e, replaceScan_text ('{' :: (a ++ ['}'])) new rfl b _ (fun c hc => (hb c hc).1),
    replaceScan_miss _ _ _ _ hmiss2]
  simp

/-- One substitution on a template made of text without braces and tokens. -/
theorem replaceScan_render (old new : GoString) (ho : isToken old = true) (ps : List Piece)
    (hps : ∀ p ∈ ps, p.shaped = true) :
    replaceScan old new (render ps) 0 = render (ps.map (Piece.subst old new)) := by
  have hne : old ≠ [] := by
    obtain ⟨a, rfl, -⟩ := isToken_shape old ho
    exact List.cons_ne_nil _ _
  have hhead : old.head? = some '{' := by
    obtain ⟨a, rfl, -⟩ := isToken_shape old ho
    rfl
  induction ps with
  | nil => rfl
  | cons p ps ih =>
    have ih1 := ih (fun q hq => hps q (List.mem_cons_of_mem _ hq))
    have hp := hps p (List.mem_cons_self _ _)
    have hr : render (p :: ps) = p.raw ++ render ps := by simp [render]
    have hr2 : render ((p :: ps).map (Piece.subst old new))
        = (p.subst old new).raw ++ render (ps.map (Piece.subst old new)) := by simp [render]
    rw [hr, hr2, ← ih1]
    cases p with
    | text s =>
      have hs : ∀ c ∈ s, c ≠ '{' := fun c hc => ((braceFree_iff s).1 hp c hc).1
      simp only [Piece.subst, Piece.raw, if_false, reduceCtorEq]
      exact replaceScan_text old new hhead s _ hs
    | tag t =>
      by_cases e : t = old
      · subst e
        simp only [Piece.subst, Piece.raw, if_true]
        exact replaceScan_hit t new _ hne
      · have : ¬ (Piece.tag t = Piece.tag old) := fun h => e (Piece.tag.inj h)
        simp only [Piece.subst, Piece.raw, this, if_false]
        exact replaceScan_other old new t _ ho hp e

theorem digitChar_braceFree (k : Nat) : Nat.digitChar k ≠ '{' ∧ Nat.digitChar k ≠ '}' := by
  by_cases h : k < 16
  · interval_cases k <;> exact ⟨by decide, by decide⟩
  · have e : Nat.digitChar k = '*' := by
      unfold Nat.digitChar
      iterate 16 rw [if_neg (by omega)]
    rw [e]
    exact ⟨by decide, by decide⟩

theorem toDigitsCore_braceFree (fuel : Nat) : ∀ (n : Nat) (ds : List Char),
    (∀ c ∈ ds, c ≠ '{' ∧ c ≠ '}') → ∀ c ∈ Nat.toDigitsCore 10 fuel n ds, c ≠ '{' ∧ c ≠ '}' := by
  induction fuel with
  | zero => intro n ds h; simpa [Nat.toDigitsCore] using h
  | succ fuel ih =>
    intro n ds h
    have h1 : ∀ c ∈ Nat.digitChar (n % 10) :: ds, c ≠ '{' ∧ c ≠ '}' := by
      intro c hc
      rcases List.mem_cons.1 hc with rfl | hc
      · exact digitChar_braceFree _
      · exact h c hc
    simp only [Nat.toDigitsCore]
    split
    · exact h1
    · exact ih _ _ h1

theorem toDigits_braceFree (n : Nat) : ∀ c ∈ Nat.toDigits 10 n, c ≠ '{' ∧ c ≠ '}' :=
  toDigitsCore_braceFree _ _ _ (by simp)

theorem fmtInt_braceFree (n : Int) : braceFree (fmtInt n) = true := by
  rw [braceFree_iff]
  unfold fmtInt
  split
  · intro c hc
    rcases List.mem_cons.1 hc with rfl | hc
    · decide
    · exact toDigits_braceFree _ c hc
  · exact toDigits_braceFree _

theorem padInt_braceFree (w : Nat) (n : Int) : braceFree (padInt w n) = true := by
  rw [braceFree_iff]
  have hb : ∀ c ∈ List.replicate (w - (Nat.toDigits 10 n.natAbs).length) '0' ++
      Nat.toDigits 10 n.natAbs, c ≠ '{' ∧ c ≠ '}' := by
    intro c hc
    rcases List.mem_append.1 hc with hc | hc
    · rw [(List.mem_replicate.1 hc).2]; decide
    · exact toDigits_braceFree _ c hc
  unfold padInt
  dsimp only
  split
  · intro c hc
    rcases List.mem_cons.1 hc with rfl | hc
    · decide
    · exact hb c hc
  · exact hb

theorem braceFree_append (a b : GoString) (ha : braceFree a = true) (hb : braceFree b = true) :
    braceFree (a ++ b) = true := by
  simp only [braceFree, List.all_append, Bool.and_eq_true] at ha hb ⊢
  exact ⟨ha, hb⟩

theorem braceFree_cons (c : Char) (a : GoString) (hc : (c != '{' && c != '}') = true)
    (ha : braceFree a = true) : braceFree (c :: a) = true := by
  simp only [braceFree, List.all_cons, Bool.and_eq_true] at ha ⊢
  exact ⟨by simpa using hc, ha⟩

theorem formatStamp_braceFree (t : GoTime) : braceFree t.formatStamp = true := by
  unfold GoTime.formatStamp
  repeat' first
    | apply braceFree_append
    | apply braceFree_cons
    | exact padInt_braceFree _ _
    | decide

theorem ite_some_cases {α : Type} {c : Prop} [Decidable c] {a : α} {b : Option α} {x : α}
    (h : (if c then some a else b) = some x) : (c ∧ a = x) ∨ (¬ c ∧ b = some x) := by
  by_cases hc : c
  · rw [if_pos hc] at h
    exact Or.inl ⟨hc, Option.some.inj h⟩
  · rw [if_neg hc] at h
    exact Or.inr ⟨hc, h⟩

/-- Every case of the loop of `filePatch` replaces a token by a value without
braces, when the identity values have none. -/
theorem patchCase_token (env : Env) (m : Muxer)
    (hsec : ∀ d, braceFree (env.fmtSeconds d) = true)
    (h1 : braceFree m.serverID = true) (h2 : braceFree m.hostname = true)
    (h3 : braceFree m.streamName = true) (h4 : braceFree m.channelName = true)
    (h5 : braceFree m.streamID = true) (h6 : braceFree m.channelID = true)
    (s o n : GoString) (h : patchCase env m s = some (o, n)) :
    isToken o = true ∧ braceFree n = true := by
  unfold patchCase at h
  iterate 29
    rcases ite_some_cases h with ⟨-, hx⟩ | ⟨-, h⟩
    · obtain ⟨rfl, rfl⟩ := Prod.mk.inj hx
      refine ⟨by decide, ?_⟩
      first
        | exact h1 | exact h2 | exact h3 | exact h4 | exact h5 | exact h6
        | exact fmtInt_braceFree _ | exact formatStamp_braceFree _ | exact hsec _
  cases h

/-- A case of the loop replaces the token of its own label or `{host_name}`. -/
theorem patchCase_old (env : Env) (m : Muxer) (s o n : GoString)
    (h : patchCase env m s = some (o, n)) : o = s ∨ o = "{host_name}".toList := by
  unfold patchCase at h
  iterate 29
    rcases ite_some_cases h with ⟨hc, hx⟩ | ⟨-, h⟩
    · obtain ⟨rfl, rfl⟩ := Prod.mk.inj hx
      first
        | exact Or.inr rfl
        | exact Or.inl hc.symm
  cases h

theorem ite_step {β : Type} {c : Prop} [Decidable c] {a b r : β} (hpos : c → a = r)
    (hneg : ¬ c → b = r) : (if c then a else b) = r := by
  by_cases hc : c
  · rw [if_pos hc]; exact hpos hc
  · rw [if_neg hc]; exact hneg hc

/-- The case of a placeholder of `resolvedTags` replaces that placeholder by
the value of its field. -/
theorem patchCase_resolved (env : Env) (m : Muxer) (t : GoString) (ht : t ∈ resolvedTags) :
    patchCase env m t = some (t, fieldValue env m t) := by
  unfold patchCase
  iterate 29
    refine ite_step (fun hc => ?_) (fun hc => ?_)
    · subst hc
      first
        | rfl
        | exact absurd ht (by decide)
  exfalso
  simp only [resolvedTags, List.map_cons, List.map_nil, List.mem_cons, List.mem_singleton,
    List.not_mem_nil, or_false] at ht
  rcases ht with rfl | rfl | rfl | rfl | rfl | rfl | rfl | rfl | rfl | rfl | rfl | rfl | rfl |
    rfl | rfl | rfl | rfl | rfl | rfl | rfl | rfl
  all_goals contradiction

theorem Piece.subst_shaped (old new : GoString) (hn : braceFree new = true) (p : Piece)
    (hp : p.shaped = true) : (p.subst old new).shaped = true := by
  unfold Piece.subst
  split
  · exact hn
  · exact hp

theorem pieceStep_shaped (env : Env) (m : Muxer)
    (hsec : ∀ d, braceFree (env.fmtSeconds d) = true) (hm : plainIdentity m = true)
    (p : Piece) (hp : p.shaped = true) (s : GoString) :
    (pieceStep env m p s).shaped = true := by
  simp only [plainIdentity, Bool.and_eq_true] at hm
  obtain ⟨⟨⟨⟨⟨h1, h2⟩, h3⟩, h4⟩, h5⟩, h6⟩ := hm
  unfold pieceStep
  cases h : patchCase env m s with
  | none => exact hp
  | some pr =>
    obtain ⟨o, n⟩ := pr
    exact Piece.subst_shaped o n
      (patchCase_token env m hsec h1 h2 h3 h4 h5 h6 s o n h).2 p hp

/-- One iteration of the loop of `filePatch` on a template in pieces. -/
theorem patchStep_render (env : Env) (m : Muxer)
    (hsec : ∀ d, braceFree (env.fmtSeconds d) = true) (hm : plainIdentity m = true)
    (ps : List Piece) (hps : ∀ p ∈ ps, p.shaped = true) (s : GoString) :
    patchStep env m (render ps) s = render (ps.map (fun p => pieceStep env m p s)) := by
  have hm0 := hm
  simp only [plainIdentity, Bool.and_eq_true] at hm
  obtain ⟨⟨⟨⟨⟨h1, h2⟩, h3⟩, h4⟩, h5⟩, h6⟩ := hm
  unfold patchStep pieceStep
  cases h : patchCase env m s with
  | none => simp
  | some pr =>
    obtain ⟨o, n⟩ := pr
    have ho := (patchCase_token env m hsec h1 h2 h3 h4 h5 h6 s o n h).1
    have hne : o ≠ [] := by
      obtain ⟨a, rfl, -⟩ := isToken_shape o ho
      exact List.cons_ne_nil _ _
    show strReplace (render ps) o n = render (ps.map (fun p => p.subst o n))
    unfold strReplace
    rw [if_neg hne]
    exact replaceScan_render o n ho ps hps

/-- The loop of `filePatch` on a template in pieces works piece by piece. -/
theorem patchFold_render (env : Env) (m : Muxer)
    (hsec : ∀ d, braceFree (env.fmtSeconds d) = true) (hm : plainIdentity m = true)
    (l : List GoString) (ps : List Piece) (hps : ∀ p ∈ ps, p.shaped = true) :
    l.foldl (patchStep env m) (render ps)
      = render (ps.map (fun p => l.foldl (pieceStep env m) p)) := by
  induction l generalizing ps with
  | nil => simp
  | cons s l ih =>
    rw [List.foldl_cons, patchStep_render env m hsec hm ps hps s, ih]
    · simp only [List.map_map]
      rfl
    · intro q hq
      obtain ⟨p, hp, rfl⟩ := List.mem_map.1 hq
      exact pieceStep_shaped env m hsec hm p (hps p hp) s

theorem pieceStep_text (env : Env) (m : Muxer) (s : GoString) (l : List GoString) :
    l.foldl (pieceStep env m) (.text s) = .text s := by
  induction l with
  | nil => rfl
  | cons t l ih =>
    have : pieceStep env m (.text s) t = .text s := by
      unfold pieceStep
      split
      · simp [Piece.subst]
      · rfl
    rw [List.foldl_cons, this, ih]

theorem host_name_not_resolved : "{host_name}".toList ∉ resolvedTags := by decide

/-- One iteration of the loop on a placeholder of `resolvedTags`. -/
theorem pieceStep_tag (env : Env) (m : Muxer) (t : GoString) (ht : t ∈ resolvedTags)
    (s : GoString) :
    pieceStep env m (.tag t) s = if s = t then .text (fieldValue env m t) else .tag t := by
  unfold pieceStep
  cases h : patchCase env m s with
  | none =>
    have hne : s ≠ t := by
      intro e
      rw [e, patchCase_resolved env m t ht] at h
      cases h
    rw [if_neg hne]
  | some pr =>
    obtain ⟨o, n⟩ := pr
    show Piece.subst o n (.tag t) = _
    by_cases e : s = t
    · rw [e, patchCase_resolved env m t ht] at h
      obtain ⟨rfl, rfl⟩ := Prod.mk.inj (Option.some.inj h)
      rw [if_pos e]
      simp [Piece.subst]
    · rw [if_neg e]
      have hot : o ≠ t := by
        rcases patchCase_old env m s o n h with rfl | rfl
        · exact e
        · intro e2
          exact host_name_not_resolved (e2 ▸ ht)
      have : ¬ (Piece.tag t = Piece.tag o) := fun h2 => hot (Piece.tag.inj h2).symm
      simp only [Piece.subst, this, if_false]

/-- The loop on a placeholder of `resolvedTags`, over any table of labels. -/
theorem pieceFold_tag (env : Env) (m : Muxer) (t : GoString) (ht : t ∈ resolvedTags)
    (l : List GoString) :
    l.foldl (pieceStep env m) (.tag t)
      = if t ∈ l then .text (fieldValue env m t) else .tag t := by
  induction l with
  | nil => simp
  | cons s l ih =>
    rw [List.foldl_cons, pieceStep_tag env m t ht s]
    by_cases e : s = t
    · rw [if_pos e, pieceStep_text, if_pos (by rw [e]; exact List.mem_cons_self _ _)]
    · rw [if_neg e, ih]
      by_cases hl : t ∈ l
      · rw [if_pos hl, if_pos (List.mem_cons_of_mem _ hl)]
      · rw [if_neg hl, if_neg]
        intro h
        rcases List.mem_cons.1 h with h | h
        · exact e h.symm
        · exact hl h

theorem resolvedTags_listed : ∀ t ∈ resolvedTags, t ∈ listTag := by decide

theorem resolvedTags_tokens : ∀ t ∈ resolvedTags, isToken t = true := by decide

theorem listTag_tokens : ∀ t ∈ listTag, isToken t = true := by decide

theorem Piece.ok_shaped (p : Piece) (h : p.ok = true) : p.shaped = true := by
  cases p with
  | text s => exact h
  | tag t => exact resolvedTags_tokens t (of_decide_eq_true h)

/-- The loop over `listTag` resolves a piece the templater knows. -/
theorem pieceFold_ok (env : Env) (m : Muxer) (p : Piece) (h : p.ok = true) :
    listTag.foldl (pieceStep env m) p = .text (p.resolved env m) := by
  cases p with
  | text s => exact pieceStep_text env m s listTag
  | tag t =>
    have ht : t ∈ resolvedTags := of_decide_eq_true h
    rw [pieceFold_tag env m t ht, if_pos (resolvedTags_listed t ht)]
    rfl

theorem fieldValue_braceFree (env : Env) (m : Muxer)
    (hsec : ∀ d, braceFree (env.fmtSeconds d) = true) (hm : plainIdentity m = true)
    (t : GoString) (ht : t ∈ resolvedTags) : braceFree (fieldValue env m t) = true := by
  simp only [plainIdentity, Bool.and_eq_true] at hm
  obtain ⟨⟨⟨⟨⟨h1, h2⟩, h3⟩, h4⟩, h5⟩, h6⟩ := hm
  exact (patchCase_token env m hsec h1 h2 h3 h4 h5 h6 t t _ (patchCase_resolved env m t ht)).2

theorem braceFree_flatMap {α : Type} (f : α → GoString) (l : List α)
    (h : ∀ a ∈ l, braceFree (f a) = true) : braceFree (l.flatMap f) = true := by
  induction l with
  | nil => rfl
  | cons a l ih =>
    rw [List.flatMap_cons]
    exact braceFree_append _ _ (h a (List.mem_cons_self _ _))
      (ih (fun b hb => h b (List.mem_cons_of_mem _ hb)))

theorem occursIn_braceFree (t s : GoString) (ht : isToken t = true)
    (hs : braceFree s = true) : occursIn t s = false := by
  obtain ⟨a, rfl, -⟩ := isToken_shape t ht
  induction s with
  | nil => rfl
  | cons c s ih =>
    have hc := (braceFree_iff (c :: s)).1 hs c (List.mem_cons_self _ _)
    have hs2 : braceFree s = true :=
      (braceFree_iff s).2 (fun x hx => (braceFree_iff (c :: s)).1 hs x (List.mem_cons_of_mem _ hx))
    have hne : ('{' == c) = false := by
      simp only [beq_eq_false_iff_ne, ne_eq]
      exact fun e => hc.1 e.symm
    simp only [occursIn, List.isPrefixOf, hne, Bool.false_and, Bool.false_or]
    exact ih hs2

theorem fmtSeconds_sample (d : Int) : braceFree (sampleEnv.fmtSeconds d) = true :=
  braceFree_append _ _ (fmtInt_braceFree _) (by decide)

set_option maxRecDepth 100000 in
/-- C10 at a failing input. The identity values of `assembledMuxer` have no
brace, and for its template `{stream{channel_id}name}` the loop of `filePatch`
returns `{stream_name}`: the substitution of the channel id, made after that of
the stream name, leaves a recognized placeholder in the result. -/
theorem filePatch_leaves_placeholder :
    plainIdentity assembledMuxer = true ∧
    (filePatch sampleEnv assembledMuxer).1 = "{stream_name}".toList ∧
    "{stream_name}".toList ∈ listTag ∧
    occursIn "{stream_name}".toList (filePatch sampleEnv assembledMuxer).1 = true := by
  decide

/-- The loop of `filePatch` on a template the templater knows. -/
theorem patchAll_resolves (env : Env) (m : Muxer) (ps : List Piece)
    (hsec : ∀ d, braceFree (env.fmtSeconds d) = true) (hm : plainIdentity m = true)
    (hps : ∀ p ∈ ps, p.ok = true) : patchAll env m (render ps) = resolve env m ps := by
  unfold patchAll
  rw [patchFold_render env m hsec hm listTag ps (fun p hp => p.ok_shaped (hps p hp))]
  unfold render resolve
  rw [List.flatMap_map]
  refine List.flatMap_congr ?_
  intro p hp
  rw [pieceFold_ok env m p (hps p hp)]
  rfl

theorem resolve_braceFree (env : Env) (m : Muxer) (ps : List Piece)
    (hsec : ∀ d, braceFree (env.fmtSeconds d) = true) (hm : plainIdentity m = true)
    (hps : ∀ p ∈ ps, p.ok = true) : braceFree (resolve env m ps) = true := by
  unfold resolve
  refine braceFree_flatMap _ _ ?_
  intro p hp
  have hok := hps p hp
  cases p with
  | text s => exact hok
  | tag t => exact fieldValue_braceFree env m hsec hm t (of_decide_eq_true hok)

theorem filePatch_fst (env : Env) (m : Muxer) :
    (filePatch env m).1 = patchAll env (filePatch env m).2 m.patch := by
  unfold filePatch Muxer.readClock
  dsimp only

theorem filePatch_snd (env : Env) (m : Muxer) :
    (filePatch env m).2 = { m with clock := m.clock + 1, end_ := env.now m.clock } := rfl

/-- C10, amended. For a session whose identity values have no brace, and a
template made of text without braces and of placeholders of `resolvedTags`,
`filePatch` refreshes the end time to the clock reading and returns the
template with every placeholder replaced by the value of its field in the
refreshed session; the result has no brace in it, hence no entry of
`listTag`. -/
theorem filePatch_resolves (env : Env) (m : Muxer) (ps : List Piece)
    (hsec : ∀ d, braceFree (env.fmtSeconds d) = true) (hm : plainIdentity m = true)
    (hps : ∀ p ∈ ps, p.ok = true) (hpatch : m.patch = render ps) :
    (filePatch env m).2.end_ = env.now m.clock ∧
    (filePatch env m).1 = resolve env (filePatch env m).2 ps ∧
    braceFree (filePatch env m).1 = true ∧
    ∀ tag ∈ listTag, occursIn tag (filePatch env m).1 = false := by
  have hm2 : plainIdentity (filePatch env m).2 = true := hm
  have hres : (filePatch env m).1 = resolve env (filePatch env m).2 ps := by
    rw [filePatch_fst, hpatch]
    exact patchAll_resolves env _ ps hsec hm2 hps
  have hbf : braceFree (filePatch env m).1 = true := by
    rw [hres]
    exact resolve_braceFree env _ ps hsec hm2 hps
  exact ⟨rfl, hres, hbf, fun tag htag => occursIn_braceFree tag _ (listTag_tokens tag htag) hbf⟩

set_option maxRecDepth 100000 in
theorem filePatch_resolves_witness :
    plainIdentity templateMuxer = true ∧ (∀ p ∈ templatePieces, p.ok = true) ∧
    templateMuxer.patch = render templatePieces ∧
    (filePatch sampleEnv templateMuxer).1 = "/rec/cam/1-0.mp4".toList ∧
    (filePatch sampleEnv templateMuxer).2.end_ = sampleEnv.now templateMuxer.clock ∧
    (filePatch sampleEnv templateMuxer).1
      = resolve sampleEnv (filePatch sampleEnv templateMuxer).2 templatePieces ∧
    braceFree (filePatch sampleEnv templateMuxer).1 = true ∧
    ∀ tag ∈ listTag, occursIn tag (filePatch sampleEnv templateMuxer).1 = false :=
  ⟨by decide, by decide, by decide, by decide,
    filePatch_resolves sampleEnv templateMuxer templatePieces
      (fun d => fmtSeconds_sample d) (by decide) (by decide) (by decide)⟩

/-! ## Closing twice -/

theorem closeFile_name (env : Env) (s : Muxer) (f : File) :
    (closeFile env s f).2.1.name = f.name := by
  unfold closeFile
  split <;> rfl

theorem closeFile_handles (env : Env) (s : Muxer) (f : File) :
    (closeFile env s f).2.2.muxer = s.muxer ∧ (closeFile env s f).2.2.d = s.d ∧
      (closeFile env s f).2.2.format = s.format ∧ (closeFile env s f).2.2.fs = s.fs := by
  unfold closeFile
  split <;> exact ⟨rfl, rfl, rfl, rfl⟩

theorem closeFile_trace (env : Env) (s : Muxer) (f : File) :
    ∃ ok, (closeFile env s f).2.2.trace = s.trace ++ [.close f.name ok] ∧
      (f.closed = true → ok = false ∧ (closeFile env s f).1 = some .closed) := by
  unfold closeFile
  split
  · exact ⟨false, rfl, fun _ => ⟨rfl, rfl⟩⟩
  · rename_i h
    exact ⟨(s.call env).1, rfl, fun hc => absurd hc h⟩

theorem closeFile_result (env : Env) (s : Muxer) (f : File) :
    (closeFile env s f).2.1 = ⟨f.name, true⟩ := by
  have h1 := closeFile_name env s f
  have h2 := closeFile_closed env s f
  cases hf : (closeFile env s f).2.1 with
  | mk n c =>
    rw [hf] at h1 h2
    simp only at h1 h2
    rw [h1, h2]

theorem trailerMuxer_handles (env : Env) (s : Muxer) :
    (trailerMuxer env s).muxer = s.muxer ∧ (trailerMuxer env s).m = s.m ∧
      (trailerMuxer env s).d = s.d ∧ (trailerMuxer env s).fs = s.fs := by
  unfold trailerMuxer
  split <;> exact ⟨rfl, rfl, rfl, rfl⟩

theorem trailerMuxer_trace (env : Env) (s : Muxer) (mx : Mp4Muxer) (h : s.muxer = some mx) :
    (trailerMuxer env s).trace = s.trace ++ [.muxTrailer mx.id (env.ioOk s.ops)] := by
  unfold trailerMuxer
  rw [h]
  rfl

theorem closeIndex_handles (env : Env) (s : Muxer) :
    (closeIndex env s).1.muxer = s.muxer ∧ (closeIndex env s).1.d = s.d ∧
      (closeIndex env s).1.fs = s.fs := by
  unfold closeIndex
  split
  · exact ⟨(closeFile_handles env s _).1, (closeFile_handles env s _).2.1,
      (closeFile_handles env s _).2.2.2⟩
  · exact ⟨rfl, rfl, rfl⟩

theorem closeIndex_m (env : Env) (s : Muxer) (fm : File) (h : s.m = some fm) :
    (closeIndex env s).1.m = some ⟨fm.name, true⟩ := by
  unfold closeIndex
  rw [h]
  show some (closeFile env s fm).2.1 = _
  rw [closeFile_result]

theorem closeIndex_trace (env : Env) (s : Muxer) (fm : File) (h : s.m = some fm) :
    ∃ ok, (closeIndex env s).1.trace = s.trace ++ [.close fm.name ok] ∧
      (fm.closed = true → ok = false) := by
  obtain ⟨ok, h1, h2⟩ := closeFile_trace env s fm
  refine ⟨ok, ?_, fun hc => (h2 hc).1⟩
  unfold closeIndex
  rw [h]
  exact h1

theorem renameFile_handles (env : Env) (s : Muxer) (src dst : GoString) :
    (renameFile env s src dst).2.muxer = s.muxer ∧ (renameFile env s src dst).2.d = s.d := by
  unfold renameFile
  split
  · exact ⟨rfl, rfl⟩
  · dsimp only
    split
    · split <;> exact ⟨rfl, rfl⟩
    · exact ⟨rfl, rfl⟩

theorem closeData_handles (env : Env) (s : Muxer) (f : File) :
    (closeData env s f).1.muxer = s.muxer ∧ (closeData env s f).1.d = some ⟨f.name, true⟩ ∧
      (closeData env s f).1.fs = s.fs := by
  refine ⟨(closeFile_handles env s f).1, ?_, (closeFile_handles env s f).2.2.2⟩
  show some (closeFile env s f).2.1 = _
  rw [closeFile_result]

theorem finishData_handles (env : Env) (s : Muxer) (f : File) (hd : s.d = some f) :
    (finishData env s f).1.muxer = s.muxer ∧
      ∃ c, (finishData env s f).1.d = some ⟨f.name, c⟩ ∧ (s.format ≠ MP4 → c = true) := by
  unfold finishData
  dsimp only
  split
  · rename_i hf
    split
    · split
      · refine ⟨?_, true, ?_, fun _ => rfl⟩
        · rw [(closeData_handles env _ f).1, (renameFile_handles env _ _ _).1]
          rfl
        · exact (closeData_handles env _ f).2.1
      · refine ⟨?_, f.closed, ?_, fun h => absurd hf h⟩
        · rw [(renameFile_handles env _ _ _).1]; rfl
        · rw [(renameFile_handles env _ _ _).2]; exact hd
    · exact ⟨rfl, f.closed, hd, fun h => absurd hf h⟩
  · exact ⟨(closeData_handles env s f).1, true, (closeData_handles env s f).2.1, fun _ => rfl⟩

/-- `WriteTrailer` leaves the container muxer in place. -/
theorem WriteTrailer_muxer (env : Env) (s : Muxer) : (WriteTrailer env s).1.muxer = s.muxer := by
  have e : (closeIndex env (trailerMuxer env s)).1.muxer = s.muxer := by
    rw [(closeIndex_handles env _).1, (trailerMuxer_handles env s).1]
  unfold WriteTrailer
  dsimp only
  split
  · rename_i f hf
    rw [(finishData_handles env _ f hf).1, e]
  · exact e

/-- `WriteTrailer` leaves the index file in place, closed. -/
theorem WriteTrailer_m (env : Env) (s : Muxer) (fm : File) (h : s.m = some fm) :
    (WriteTrailer env s).1.m = some ⟨fm.name, true⟩ := by
  have e : (closeIndex env (trailerMuxer env s)).1.m = some ⟨fm.name, true⟩ :=
    closeIndex_m env _ fm (by rw [(trailerMuxer_handles env s).2.1]; exact h)
  unfold WriteTrailer
  dsimp only
  split
  · rw [finishData_m]; exact e
  · exact e

/-- `WriteTrailer` leaves the data file in place; it is closed when the format
is not `mp4`. -/
theorem WriteTrailer_d (env : Env) (s : Muxer) (fd : File) (h : s.d = some fd) :
    ∃ c, (WriteTrailer env s).1.d = some ⟨fd.name, c⟩ ∧ (s.format ≠ MP4 → c = true) := by
  have e : (closeIndex env (trailerMuxer env s)).1.d = some fd := by
    rw [(closeIndex_handles env _).2.1, (trailerMuxer_handles env s).2.2.1]; exact h
  have ef : (closeIndex env (trailerMuxer env s)).1.format = s.format :=
    ((closeIndex_frame env _).format).trans (trailerMuxer_frame env s).format
  unfold WriteTrailer
  dsimp only
  split
  · rename_i f hf
    have hff : f = fd := Option.some.inj (hf.symm.trans e)
    subst hff
    obtain ⟨c, hc, hcc⟩ := (finishData_handles env _ f hf).2
    exact ⟨c, hc, fun hne => hcc (by rw [ef]; exact hne)⟩
  · rename_i hn
    rw [hn] at e
    cases e

/-- A `WriteTrailer` with a container muxer starts by calling its trailer. -/
theorem WriteTrailer_calls_muxer (env : Env) (s : Muxer) (mx : Mp4Muxer)
    (h : s.muxer = some mx) :
    ∃ evs, (WriteTrailer env s).1.trace
      = s.trace ++ .muxTrailer mx.id (env.ioOk s.ops) :: evs := by
  have h1 := trailerMuxer_trace env s mx h
  obtain ⟨e2, h2, -⟩ := (closeIndex_frame env (trailerMuxer env s)).trace
  unfold WriteTrailer
  dsimp only
  split
  · obtain ⟨e3, h3, -⟩ := (finishData_frame env (closeIndex env (trailerMuxer env s)).1
      (by assumption)).trace
    refine ⟨e2 ++ e3, ?_⟩
    rw [h3, h2, h1]
    simp
  · exact ⟨e2, by rw [h2, h1]; simp⟩

/-- A `WriteTrailer` with an index file that is closed already closes it again. -/
theorem WriteTrailer_closes_index (env : Env) (s : Muxer) (fm : File) (h : s.m = some fm)
    (hc : fm.closed = true) :
    ∃ pre post, (WriteTrailer env s).1.trace = s.trace ++ pre ++ .close fm.name false :: post := by
  obtain ⟨e1, h1, -⟩ := (trailerMuxer_frame env s).trace
  obtain ⟨ok, h2, hok⟩ := closeIndex_trace env (trailerMuxer env s) fm
    (by rw [(trailerMuxer_handles env s).2.1]; exact h)
  rw [hok hc] at h2
  unfold WriteTrailer
  dsimp only
  split
  · obtain ⟨e3, h3, -⟩ := (finishData_frame env (closeIndex env (trailerMuxer env s)).1
      (by assumption)).trace
    refine ⟨e1, e3, ?_⟩
    rw [h3, h2, h1]
    simp
  · exact ⟨e1, [], by rw [h2, h1]⟩

/-- In a format other than `mp4`, a `WriteTrailer` with a data file that is
closed already closes it again and returns the error of that call. -/
theorem WriteTrailer_closes_data (env : Env) (s : Muxer) (fd : File) (h : s.d = some fd)
    (hc : fd.closed = true) (hf : s.format ≠ MP4) :
    (WriteTrailer env s).2 = some .closed ∧
    ∃ pre, (WriteTrailer env s).1.trace = s.trace ++ pre ++ [.close fd.name false] := by
  have hfr := (trailerMuxer_frame env s).trans (closeIndex_frame env (trailerMuxer env s))
  obtain ⟨e1, h1, -⟩ := hfr.trace
  have e : (closeIndex env (trailerMuxer env s)).1.d = some fd := by
    rw [(closeIndex_handles env _).2.1, (trailerMuxer_handles env s).2.2.1]; exact h
  obtain ⟨ok, h2, hok⟩ := closeFile_trace env (closeIndex env (trailerMuxer env s)).1 fd
  have hfd : finishData env (closeIndex env (trailerMuxer env s)).1 fd
      = closeData env (closeIndex env (trailerMuxer env s)).1 fd := by
    unfold finishData
    rw [if_neg (by rw [hfr.format]; exact hf)]
  unfold WriteTrailer
  dsimp only
  rw [e]
  dsimp only
  rw [hfd]
  refine ⟨(hok hc).2, e1, ?_⟩
  show (closeFile env _ fd).2.2.trace = _
  rw [h2, (hok hc).1, h1]

/-- In the format `mp4`, a `WriteTrailer` with a data file computes the final
path and calls `os.MkdirAll` for its directory. -/
theorem WriteTrailer_mkdir (env : Env) (s : Muxer) (fd : File) (h : s.d = some fd)
    (hf : s.format = MP4) :
    ∃ pre p ok post, (WriteTrailer env s).1.trace = s.trace ++ pre ++ .mkdirAll p ok :: post := by
  have hfr := (trailerMuxer_frame env s).trans (closeIndex_frame env (trailerMuxer env s))
  obtain ⟨e1, h1, -⟩ := hfr.trace
  have e : (closeIndex env (trailerMuxer env s)).1.d = some fd := by
    rw [(closeIndex_handles env _).2.1, (trailerMuxer_handles env s).2.2.1]; exact h
  have hfmt : (closeIndex env (trailerMuxer env s)).1.format = MP4 := by
    rw [hfr.format]; exact hf
  unfold WriteTrailer
  dsimp only
  rw [e]
  dsimp only
  generalize (closeIndex env (trailerMuxer env s)).1 = t at h1 hfmt
  unfold finishData
  rw [if_pos hfmt]
  dsimp only
  split
  · obtain ⟨e2, h2, -⟩ := (renameFile_frame TrailerEv env
      (((filePatch env t).2.call env).2.emit
        (.mkdirAll (env.dir (filePatch env t).1) ((filePatch env t).2.call env).1))
      fd.name (filePatch env t).1 (fun _ _ _ => rfl)).trace
    split
    · obtain ⟨e3, h3, -⟩ := (closeData_frame env (renameFile env
        (((filePatch env t).2.call env).2.emit
          (.mkdirAll (env.dir (filePatch env t).1) ((filePatch env t).2.call env).1))
        fd.name (filePatch env t).1).2 fd).trace
      refine ⟨e1, env.dir (filePatch env t).1, ((filePatch env t).2.call env).1, e2 ++ e3, ?_⟩
      rw [h3, h2]
      show (t.trace ++ [_]) ++ e2 ++ e3 = _
      rw [h1]
      simp
    · refine ⟨e1, env.dir (filePatch env t).1, ((filePatch env t).2.call env).1, e2, ?_⟩
      rw [h2]
      show (t.trace ++ [_]) ++ e2 = _
      rw [h1]
      simp
  · refine ⟨e1, env.dir (filePatch env t).1, ((filePatch env t).2.call env).1, [], ?_⟩
    show t.trace ++ [_] = _
    rw [h1]

set_option maxRecDepth 100000 in
/-- C11 at failing inputs. A container recording and an indexed recording are
closed with every external call succeeding, and the first `WriteTrailer`
returns `nil`; the second `WriteTrailer` returns an error, after calling the
trailer of the container muxer again and trying the rename again, or after
closing the two files of the pair again. -/
theorem second_WriteTrailer_not_noop :
    (run sampleEnv (sampleMuxer "/rec/{stream_name}/{start_time}.mp4".toList MP4 10)
      (closedTwiceMP4.take 4)).returned = some none ∧
    (run sampleEnv (sampleMuxer "/rec/{stream_name}/{start_time}.mp4".toList MP4 10)
      closedTwiceMP4).returned = some (some .rename) ∧
    (run sampleEnv (sampleMuxer "/rec/{stream_name}/{start_time}.mp4".toList MP4 10)
      closedTwiceMP4).state.trace.drop 10 =
      [.muxTrailer 0 true, .mkdirAll "/rec/cam".toList true,
       .rename "/rec/cam/tmp.mp4".toList "/rec/cam/2024-03-05T10:15:30+0000.mp4".toList false] ∧
    (run sampleEnv (sampleMuxer "/rec/{stream_name}/{start_time}.mp4".toList MP4 10)
      (closedTwiceMP4.take 4)).state.trace.length = 10 ∧
    (run sampleEnv (sampleMuxer "/data".toList NVR 10) (closedTwiceNVR.take 6)).returned
      = some none ∧
    (run sampleEnv (sampleMuxer "/data".toList NVR 10) closedTwiceNVR).returned
      = some (some .closed) ∧
    (run sampleEnv (sampleMuxer "/data".toList NVR 10) closedTwiceNVR).state.trace.drop 9 =
      [.close "/data/2024/03/05/10.m".toList false, .close "/data/2024/03/05/10.d".toList false] ∧
    (run sampleEnv (sampleMuxer "/data".toList NVR 10) (closedTwiceNVR.take 6)).state.trace.length
      = 9 := by
  decide

/-- C11, amended. On a session with nothing open `WriteTrailer` returns `nil`
and changes nothing, so it makes no call. It never clears a handle, so a
second `WriteTrailer` right after a first one repeats the work on whatever
the session had open: it calls the trailer of the container muxer again, it
closes the index file again, which fails, in a format other than `mp4` it
closes the data file again and returns the error of that call, and in the
format `mp4` it calls `os.MkdirAll` again on the way to the rename. -/
theorem WriteTrailer_twice (env : Env) (s : Muxer) :
    (s.muxer = none → s.m = none → s.d = none → WriteTrailer env s = (s, none)) ∧
    (∀ mx, s.muxer = some mx → ∃ evs,
      (WriteTrailer env (WriteTrailer env s).1).1.trace = (WriteTrailer env s).1.trace ++
        .muxTrailer mx.id (env.ioOk (WriteTrailer env s).1.ops) :: evs) ∧
    (∀ fm, s.m = some fm → ∃ pre post,
      (WriteTrailer env (WriteTrailer env s).1).1.trace = (WriteTrailer env s).1.trace ++ pre ++
        .close fm.name false :: post) ∧
    (∀ fd, s.d = some fd → s.format ≠ MP4 →
      (WriteTrailer env (WriteTrailer env s).1).2 = some .closed ∧ ∃ pre,
      (WriteTrailer env (WriteTrailer env s).1).1.trace = (WriteTrailer env s).1.trace ++ pre ++
        [.close fd.name false]) ∧
    (∀ fd, s.d = some fd → s.format = MP4 → ∃ pre p ok post,
      (WriteTrailer env (WriteTrailer env s).1).1.trace = (WriteTrailer env s).1.trace ++ pre ++
        .mkdirAll p ok :: post) := by
  have hfmt : (WriteTrailer env s).1.format = s.format := (WriteTrailer_frame env s).format
  refine ⟨WriteTrailer_idle env s, ?_, ?_, ?_, ?_⟩
  · intro mx h
    exact WriteTrailer_calls_muxer env _ mx (by rw [WriteTrailer_muxer]; exact h)
  · intro fm h
    exact WriteTrailer_closes_index env _ ⟨fm.name, true⟩ (WriteTrailer_m env s fm h) rfl
  · intro fd h hf
    obtain ⟨c, hc, hcc⟩ := WriteTrailer_d env s fd h
    rw [hcc hf] at hc
    exact WriteTrailer_closes_data env _ ⟨fd.name, true⟩ hc rfl (by rw [hfmt]; exact hf)
  · intro fd h hf
    obtain ⟨c, hc, -⟩ := WriteTrailer_d env s fd h
    exact WriteTrailer_mkdir env _ ⟨fd.name, c⟩ hc (by rw [hfmt]; exact hf)

set_option maxRecDepth 100000 in
/-- C11, amended, at samples: a fresh session, and the indexed sample
recording with its pair of files open. -/
theorem WriteTrailer_twice_witness :
    WriteTrailer sampleEnv (sampleMuxer "/data".toList NVR 10)
      = (sampleMuxer "/data".toList NVR 10, none) ∧
    openIndexed.d = some ⟨"/data/2024/03/05/10.d".toList, false⟩ ∧
    (WriteTrailer sampleEnv (WriteTrailer sampleEnv openIndexed).1).2 = some .closed ∧
    ∃ pre, (WriteTrailer sampleEnv (WriteTrailer sampleEnv openIndexed).1).1.trace
      = (WriteTrailer sampleEnv openIndexed).1.trace ++ pre ++
        [.close "/data/2024/03/05/10.d".toList false] :=
  ⟨(WriteTrailer_twice sampleEnv _).1 rfl rfl rfl, by decide,
   (WriteTrailer_twice sampleEnv openIndexed).2.2.2.1 ⟨"/data/2024/03/05/10.d".toList, false⟩
     (by decide) (by decide)⟩

/-! ## Closing with a buffered group -/

theorem trailerMuxer_closing (env : Env) (s : Muxer) :
    Frame (fun e => e.isClosing = true) s (trailerMuxer env s) := by
  unfold trailerMuxer
  split
  · exact Frame.called (fun e => e.isClosing = true) env s _ rfl
  · exact Frame.refl _ _

theorem closeIndex_closing (env : Env) (s : Muxer) :
    Frame (fun e => e.isClosing = true) s (closeIndex env s).1 := by
  unfold closeIndex
  split
  · exact (closeFile_frame (fun e => e.isClosing = true) env s _ (fun _ _ => rfl)).then_silent
      rfl rfl rfl rfl rfl rfl rfl rfl rfl
  · exact Frame.refl _ _

theorem closeData_closing (env : Env) (s : Muxer) (f : File) :
    Frame (fun e => e.isClosing = true) s (closeData env s f).1 :=
  (closeFile_frame (fun e => e.isClosing = true) env s f (fun _ _ => rfl)).then_silent
    rfl rfl rfl rfl rfl rfl rfl rfl rfl

/-- In a format other than `mp4`, `WriteTrailer` only calls the trailer of the
container muxer and closes files, and leaves the files as they are. -/
theorem WriteTrailer_closing (env : Env) (s : Muxer) (hf : s.format ≠ MP4) :
    Frame (fun e => e.isClosing = true) s (WriteTrailer env s).1 ∧
      (WriteTrailer env s).1.fs = s.fs := by
  have h := (trailerMuxer_closing env s).trans (closeIndex_closing env (trailerMuxer env s))
  have hfs : (closeIndex env (trailerMuxer env s)).1.fs = s.fs := by
    rw [(closeIndex_handles env _).2.2, (trailerMuxer_handles env s).2.2.2]
  unfold WriteTrailer
  dsimp only
  split
  · rename_i f hd
    have hfd : finishData env (closeIndex env (trailerMuxer env s)).1 f
        = closeData env (closeIndex env (trailerMuxer env s)).1 f := by
      unfold finishData
      rw [if_neg (by rw [h.format]; exact hf)]
    rw [hfd]
    exact ⟨h.trans (closeData_closing env _ f), by rw [(closeData_handles env _ f).2.2, hfs]⟩
  · exact ⟨h, hfs⟩

theorem Event.isClosing_not_flush (e : Event) (h : e.isClosing = true) :
    e.isFlushEntry = false ∧ e.isGroup = false ∧ e.isRecord = false := by
  cases e <;> first | exact ⟨rfl, rfl, rfl⟩ | cases h

set_option maxRecDepth 100000 in
/-- C12 at a failing input. The indexed sample recording has flushed its first
group and buffers the keyframe at 2000 ms; every external call succeeds.
`WriteTrailer` returns `nil` after closing the two files and nothing else: the
data file and the index file hold what they held, and the keyframe is still in
the buffer. -/
theorem WriteTrailer_leaves_group_unwritten :
    openIndexed.format = NVR ∧
    openIndexed.gof.Packet = [samplePacket true 0 2000 1000] ∧
    (WriteTrailer sampleEnv openIndexed).2 = none ∧
    (WriteTrailer sampleEnv openIndexed).1.trace = openIndexed.trace ++
      [.close "/data/2024/03/05/10.m".toList true, .close "/data/2024/03/05/10.d".toList true] ∧
    (WriteTrailer sampleEnv openIndexed).1.fs "/data/2024/03/05/10.d".toList
      = openIndexed.fs "/data/2024/03/05/10.d".toList ∧
    (WriteTrailer sampleEnv openIndexed).1.fs "/data/2024/03/05/10.m".toList
      = openIndexed.fs "/data/2024/03/05/10.m".toList ∧
    flushCount (WriteTrailer sampleEnv openIndexed).1.trace = 1 ∧
    (WriteTrailer sampleEnv openIndexed).1.gof.Packet = [samplePacket true 0 2000 1000] := by
  decide

/-- C12, amended. In indexed format `WriteTrailer` does not flush. Whatever is
buffered, it leaves the buffered group and the accumulated duration in the
session and every file as it was, and the calls it makes are closes of files
(and the trailer of a container muxer, should there be one): it enters no
flush, encodes no group and writes no index record. -/
theorem WriteTrailer_does_not_flush (env : Env) (s : Muxer) (hf : s.format = NVR) :
    (WriteTrailer env s).1.gof = s.gof ∧ (WriteTrailer env s).1.dur = s.dur ∧
    (WriteTrailer env s).1.fs = s.fs ∧
    ∃ evs, (WriteTrailer env s).1.trace = s.trace ++ evs ∧
      ∀ e ∈ evs, e.isClosing = true ∧ e.isFlushEntry = false ∧ e.isGroup = false ∧
        e.isRecord = false := by
  have hne : s.format ≠ MP4 := by rw [hf]; exact fun e => MP4_ne_NVR e.symm
  obtain ⟨hfr, hfs⟩ := WriteTrailer_closing env s hne
  obtain ⟨evs, ht, hp⟩ := hfr.trace
  exact ⟨hfr.gof, hfr.dur, hfs, evs, ht, fun e he => ⟨hp e he, e.isClosing_not_flush (hp e he)⟩⟩

set_option maxRecDepth 100000 in
/-- C12, amended, at the indexed sample recording with its buffered keyframe. -/
theorem WriteTrailer_does_not_flush_witness :
    openIndexed.format = NVR ∧
    (WriteTrailer sampleEnv openIndexed).1.gof = openIndexed.gof ∧
    (WriteTrailer sampleEnv openIndexed).1.dur = openIndexed.dur ∧
    (WriteTrailer sampleEnv openIndexed).1.fs = openIndexed.fs ∧
    ∃ evs, (WriteTrailer sampleEnv openIndexed).1.trace = openIndexed.trace ++ evs ∧
      ∀ e ∈ evs, e.isClosing = true ∧ e.isFlushEntry = false ∧ e.isGroup = false ∧
        e.isRecord = false :=
  ⟨by decide, WriteTrailer_does_not_flush sampleEnv openIndexed (by decide)⟩

/-! ## Errors of the file system -/

set_option maxRecDepth 100000 in
/-- C13 at failing inputs: four public calls during which a call of the file
system fails and that return `nil`.
* `WriteHeader` in a container session whose `os.MkdirAll` fails.
* `WritePacket` with the keyframe of a rotation, when the rename of the
  finished segment fails, and when the creation of the next temporary file fails.
* `WriteTrailer` in an indexed session, when the close of the index file fails
  and the close of the data file succeeds. -/
theorem file_errors_dropped :
    (run (failingEnv 0) containerMuxer [.header [[1]]]).returned = some none ∧
    (run (failingEnv 0) containerMuxer [.header [[1]]]).state.trace
      = [.enterOpenMP4, .mkdirAll "/rec/cam".toList false] ∧
    (run (failingEnv 6) containerMuxer (rotationCalls.take 3)).returned = some none ∧
    (run (failingEnv 6) containerMuxer (rotationCalls.take 3)).state.trace.drop 5
      = [.enterOpenMP4, .muxTrailer 0 true, .mkdirAll "/rec/cam".toList true,
         .rename "/rec/cam/tmp.mp4".toList "/rec/cam/2024-03-05T10:15:30+0000.mp4".toList false,
         .mkdirAll "/rec/cam".toList true, .create "/rec/cam/tmp.mp4".toList true,
         .muxHeader 1 [[1]] true, .muxPacket 1 (samplePacket true 0 11000 1000) true] ∧
    (run (failingEnv 9) containerMuxer (rotationCalls.take 3)).returned = some none ∧
    (run (failingEnv 9) containerMuxer (rotationCalls.take 3)).state.trace.drop 10
      = [.mkdirAll "/rec/cam".toList true, .create "/rec/cam/tmp.mp4".toList false,
         .muxPacket 0 (samplePacket true 0 11000 1000) true] ∧
    (run (failingEnv 6) (sampleMuxer "/data".toList NVR 10)
      (sampleIndexedCalls ++ [.trailer])).returned = some none ∧
    (run (failingEnv 6) (sampleMuxer "/data".toList NVR 10)
      (sampleIndexedCalls ++ [.trailer])).state.trace.drop 7
      = [.close "/data/2024/03/05/10.m".toList false,
         .close "/data/2024/03/05/10.d".toList true] := by
  decide
/-! ## A flush that fails -/

/-- In a started indexed session with codec parameters, `WritePacket` is
`writePacketNVR`. -/
theorem WritePacket_started_indexed (env : Env) (s : Muxer) (pkt : Packet)
    (hf : s.format = NVR) (hs : s.gof.Streams ≠ []) (hst : s.started = true) :
    WritePacket env s pkt = .ret (writePacketNVR env s pkt).1 (writePacketNVR env s pkt).2 := by
  have hne : ¬ NVR = MP4 := fun e => MP4_ne_NVR e.symm
  have hlen : ¬ s.gof.Streams.length = 0 := fun h => hs (List.length_eq_zero.1 h)
  have e1 : (if (!s.started && pkt.IsKeyFrame) = true then
      ({ s with started := true } : Muxer) else s) = s := by simp [hst]
  unfold WritePacket
  rw [if_neg hlen]
  dsimp only
  rw [e1, if_pos hst, hf, if_neg hne, if_pos rfl]

set_option maxRecDepth 100000 in
/-- C14 at a failing input. In the sample indexed recording the encoding of
the first group fails, at the keyframe at 2000 ms; `WritePacket` returns that
error. The three packets of the failed group are still buffered after the
call, the frame at 3000 ms is appended to them, and the keyframe at 4000 ms
flushes these four packets. -/
theorem failed_group_flushed_again :
    (run (failingEnv 4) (sampleMuxer "/data".toList NVR 10) sampleIndexedCalls).returned
      = some (some .encode) ∧
    (run (failingEnv 4) (sampleMuxer "/data".toList NVR 10) sampleIndexedCalls).state.gof
      = sampleGroup ∧
    (run (failingEnv 4) (sampleMuxer "/data".toList NVR 10) (retryCalls.take 6)).state.gof.Packet
      = sampleGroup.Packet ++ [samplePacket false 0 3000 1000] ∧
    (run (failingEnv 4) (sampleMuxer "/data".toList NVR 10) retryCalls).returned = some none ∧
    (run (failingEnv 4) (sampleMuxer "/data".toList NVR 10) retryCalls).state.trace.drop 6
      = [.enterWriteGop ⟨[[1]], sampleGroup.Packet ++ [samplePacket false 0 3000 1000]⟩,
         .seek "/data/2024/03/05/10.d".toList 0 true,
         .encode "/data/2024/03/05/10.d".toList
           ⟨[[1]], sampleGroup.Packet ++ [samplePacket false 0 3000 1000]⟩ true,
         .write "/data/2024/03/05/10.m".toList
           (indexBytes ⟨1709633732000000000, 0, 3000⟩) true] := by
  decide

/-- What a failed flush leaves, in general. In a started indexed session with a
buffered group, when the flush triggered by a keyframe fails, `WritePacket` returns the error of the
flush and the session keeps the group: the buffer and the accumulated duration
are what they were before the call, without the keyframe. A packet that is not
a keyframe is then appended to that group, and the next keyframe enters a flush
with it again. -/
theorem failed_flush_keeps_group (env : Env) (s : Muxer) (pkt : Packet) (e : Err)
    (hf : s.format = NVR) (hs : s.gof.Streams ≠ []) (hst : s.started = true)
    (hk : pkt.IsKeyFrame = true) (hb : s.gof.Packet ≠ []) (herr : (writeGop env s).2 = some e) :
    WritePacket env s pkt = .ret (writeGop env s).1 (some e) ∧
    (writeGop env s).1.gof = s.gof ∧ (writeGop env s).1.dur = s.dur ∧
    (∀ q : Packet, q.IsKeyFrame = false →
      ∃ s2, WritePacket env (writeGop env s).1 q = .ret s2 none ∧
        s2.gof.Packet = s.gof.Packet ++ [q]) ∧
    (∀ k : Packet, k.IsKeyFrame = true →
      ∃ evs, (WritePacket env (writeGop env s).1 k).state.trace
        = (writeGop env s).1.trace ++ .enterWriteGop s.gof :: evs) := by
  have hfr := writeGop_frame env s
  have hlen : s.gof.Packet.length > 0 := List.length_pos.2 hb
  have hf1 : (writeGop env s).1.format = NVR := hfr.format.trans hf
  have hg1 : (writeGop env s).1.gof = s.gof := hfr.gof
  have hs1 : (writeGop env s).1.gof.Streams ≠ [] := by rw [hg1]; exact hs
  have hst1 : (writeGop env s).1.started = true := hfr.started.trans hst
  refine ⟨?_, hg1, hfr.dur, ?_, ?_⟩
  · rw [WritePacket_started_indexed env s pkt hf hs hst]
    unfold writePacketNVR
    rw [if_pos hk, if_pos hlen]
    cases hw : writeGop env s with
    | mk s1 r =>
      rw [hw] at herr
      simp only at herr
      subst herr
      rfl
  · intro q hq
    refine ⟨appendPacket (writeGop env s).1 q, ?_, ?_⟩
    · rw [WritePacket_started_indexed env _ q hf1 hs1 hst1]
      unfold writePacketNVR
      rw [if_neg (by rw [hq]; exact Bool.false_ne_true)]
    · rw [appendPacket_Packet, hg1]
  · intro k hk2
    have hlen1 : (writeGop env s).1.gof.Packet.length > 0 := by rw [hg1]; exact hlen
    obtain ⟨evs, ht, -⟩ := writeGop_rec env (writeGop env s).1
    rw [hg1] at ht
    rw [WritePacket_started_indexed env _ k hf1 hs1 hst1]
    unfold writePacketNVR
    rw [if_pos hk2, if_pos hlen1]
    cases hw : writeGop env (writeGop env s).1 with
    | mk s2 r =>
      rw [hw] at ht
      cases r with
      | some e2 => exact ⟨evs, ht⟩
      | none =>
        refine ⟨evs, ?_⟩
        show (appendPacket _ k).trace = _
        rw [appendPacket_trace]
        exact ht

set_option maxRecDepth 100000 in
/-- The failed flush of the sample indexed recording, when the encoding of its
first group fails. -/
theorem failed_flush_keeps_group_witness :
    (writeGop (failingEnv 4) sampleBeforeFlush).2 = some .encode ∧
    sampleBeforeFlush.gof.Packet = sampleGroup.Packet ∧
    WritePacket (failingEnv 4) sampleBeforeFlush (samplePacket true 0 2000 1000)
      = .ret (writeGop (failingEnv 4) sampleBeforeFlush).1 (some .encode) ∧
    (writeGop (failingEnv 4) sampleBeforeFlush).1.gof = sampleBeforeFlush.gof ∧
    (writeGop (failingEnv 4) sampleBeforeFlush).1.dur = sampleBeforeFlush.dur ∧
    (∀ q : Packet, q.IsKeyFrame = false →
      ∃ s2, WritePacket (failingEnv 4) (writeGop (failingEnv 4) sampleBeforeFlush).1 q
          = .ret s2 none ∧
        s2.gof.Packet = sampleBeforeFlush.gof.Packet ++ [q]) ∧
    (∀ k : Packet, k.IsKeyFrame = true →
      ∃ evs, (WritePacket (failingEnv 4) (writeGop (failingEnv 4) sampleBeforeFlush).1 k).state.trace
        = (writeGop (failingEnv 4) sampleBeforeFlush).1.trace ++
          .enterWriteGop sampleBeforeFlush.gof :: evs) :=
  ⟨by decide, by decide,
   failed_flush_keeps_group (failingEnv 4) sampleBeforeFlush (samplePacket true 0 2000 1000)
     .encode (by decide) (by decide) (by decide) rfl (by decide) (by decide)⟩

/-! ## Timestamps that go backwards -/

/-- In a started container session with codec parameters, `WritePacket` is
`writePacketMP4`. -/
theorem WritePacket_started_container (env : Env) (s : Muxer) (pkt : Packet)
    (hf : s.format = MP4) (hs : s.gof.Streams ≠ []) (hst : s.started = true) :
    WritePacket env s pkt = writePacketMP4 env s pkt := by
  have hlen : ¬ s.gof.Streams.length = 0 := fun h => hs (List.length_eq_zero.1 h)
  have e1 : (if (!s.started && pkt.IsKeyFrame) = true then
      ({ s with started := true } : Muxer) else s) = s := by simp [hst]
  unfold WritePacket
  rw [if_neg hlen]
  dsimp only
  rw [e1, if_pos hst, if_pos hf]

theorem rotate_nonkey (env : Env) (s : Muxer) (pkt : Packet) (hk : pkt.IsKeyFrame = false) :
    rotate env s pkt = s := by
  unfold rotate
  simp [hk]

set_option maxRecDepth 100000 in
/-- C15 at failing inputs. After a keyframe at 2000 ms, a frame at 1000 ms is
forwarded to the container muxer in a container session, and appended to the
buffered group in an indexed session; in both its duration is added to the
accumulated duration. -/
theorem backwards_packet_kept :
    (run sampleEnv containerMuxer backwardsCalls).returned = some none ∧
    (run sampleEnv containerMuxer backwardsCalls).state.trace.drop 4
      = [.muxPacket 0 (samplePacket true 0 2000 1000) true,
         .muxPacket 0 (samplePacket false 0 1000 1000) true] ∧
    (run sampleEnv containerMuxer (backwardsCalls.take 2)).state.dur = 1000000000 ∧
    (run sampleEnv containerMuxer backwardsCalls).state.dur = 2000000000 ∧
    (run sampleEnv (sampleMuxer "/data".toList NVR 10) backwardsCalls).returned = some none ∧
    (run sampleEnv (sampleMuxer "/data".toList NVR 10) backwardsCalls).state.gof.Packet
      = [samplePacket true 0 2000 1000, samplePacket false 0 1000 1000] ∧
    (run sampleEnv (sampleMuxer "/data".toList NVR 10) (backwardsCalls.take 2)).state.dur
      = 1000000000 ∧
    (run sampleEnv (sampleMuxer "/data".toList NVR 10) backwardsCalls).state.dur
      = 2000000000 := by
  decide

/-- C15, amended. `WritePacket` does not look at the order of timestamps. In a
started session with codec parameters, a packet that is not a keyframe,
whatever its timestamp, is appended to the buffered group in indexed format,
and its duration is added when its stream index is 0; in container format,
with a container muxer, it is forwarded to the muxer, its duration is added and
its timestamp becomes the end timestamp. The call returns `nil`, or in
container format the error of the muxer. -/
theorem WritePacket_any_timestamp (env : Env) (s : Muxer) (pkt : Packet)
    (hs : s.gof.Streams ≠ []) (hst : s.started = true) (hk : pkt.IsKeyFrame = false) :
    (s.format = NVR →
      WritePacket env s pkt = .ret (appendPacket s pkt) none ∧
      (appendPacket s pkt).gof.Packet = s.gof.Packet ++ [pkt] ∧
      (pkt.Idx = 0 → (appendPacket s pkt).dur = wrap64 (s.dur + pkt.Duration))) ∧
    (s.format = MP4 → ∀ mx, s.muxer = some mx →
      (WritePacket env s pkt).returned = some (if env.ioOk s.ops then none else some .mux) ∧
      (WritePacket env s pkt).state.trace = s.trace ++ [.muxPacket mx.id pkt (env.ioOk s.ops)] ∧
      (WritePacket env s pkt).state.dur = wrap64 (s.dur + pkt.Duration) ∧
      (WritePacket env s pkt).state.pend = pkt.Time) := by
  refine ⟨fun hf => ⟨?_, appendPacket_Packet s pkt, fun hi => ?_⟩, fun hf mx hmx => ?_⟩
  · rw [WritePacket_started_indexed env s pkt hf hs hst]
    unfold writePacketNVR
    rw [if_neg (by rw [hk]; exact Bool.false_ne_true)]
  · unfold appendPacket
    dsimp only
    rw [if_pos hi]
  · rw [WritePacket_started_container env s pkt hf hs hst]
    unfold writePacketMP4
    rw [rotate_nonkey env s pkt hk]
    unfold forwardPacket
    dsimp only
    rw [hmx]
    exact ⟨rfl, rfl, rfl, rfl⟩

set_option maxRecDepth 100000 in
/-- C15, amended, at the frame at 1000 ms that follows the keyframe at 2000 ms
in an indexed session. -/
theorem WritePacket_any_timestamp_witness :
    (run sampleEnv (sampleMuxer "/data".toList NVR 10) (backwardsCalls.take 2)).state.gof.Packet
      = [samplePacket true 0 2000 1000] ∧
    WritePacket sampleEnv
        (run sampleEnv (sampleMuxer "/data".toList NVR 10) (backwardsCalls.take 2)).state
        (samplePacket false 0 1000 1000)
      = .ret (appendPacket
          (run sampleEnv (sampleMuxer "/data".toList NVR 10) (backwardsCalls.take 2)).state
          (samplePacket false 0 1000 1000)) none :=
  ⟨by decide,
   ((WritePacket_any_timestamp sampleEnv
      (run sampleEnv (sampleMuxer "/data".toList NVR 10) (backwardsCalls.take 2)).state
      (samplePacket false 0 1000 1000) (by decide) (by decide) rfl).1 (by decide)).1⟩

/-! ## The order of the calls on a container muxer -/

set_option maxRecDepth 100000 in
/-- C16 at a failing input. In the container recording with one rotation, the
creation of the temporary file of the second segment fails. `WritePacket`
returns `nil` for the keyframe of the rotation and for the frame after it, and
both are forwarded to the container muxer of the first segment, number 0, after
its `WriteTrailer`. When every call succeeds the order is kept. -/
theorem packet_after_trailer :
    (run (failingEnv 9) containerMuxer rotationCalls).returned = some none ∧
    (run (failingEnv 9) containerMuxer rotationCalls).state.trace
      = [.enterOpenMP4, .mkdirAll "/rec/cam".toList true, .create "/rec/cam/tmp.mp4".toList true,
         .muxHeader 0 [[1]] true, .muxPacket 0 (samplePacket true 0 0 11000) true,
         .enterOpenMP4, .muxTrailer 0 true, .mkdirAll "/rec/cam".toList true,
         .rename "/rec/cam/tmp.mp4".toList "/rec/cam/2024-03-05T10:15:30+0000.mp4".toList true,
         .close "/rec/cam/tmp.mp4".toList true, .mkdirAll "/rec/cam".toList true,
         .create "/rec/cam/tmp.mp4".toList false,
         .muxPacket 0 (samplePacket true 0 11000 1000) true,
         .muxPacket 0 (samplePacket false 0 12000 1000) true] ∧
    muxOrder (run (failingEnv 9) containerMuxer rotationCalls).state.trace = false ∧
    muxOrder (run sampleEnv containerMuxer rotationCalls).state.trace = true := by
  decide

/-! ## A container session without a container muxer -/

set_option maxRecDepth 100000 in
/-- C18 at a failing input. `os.MkdirAll` fails in the `OpenMP4` of
`WriteHeader`, or `os.Create` does: `WriteHeader` returns `nil` and leaves the
session without a container muxer, and the `WritePacket` of the first keyframe
reaches its forwarding step and panics on the nil muxer. -/
theorem WritePacket_panics_without_muxer :
    (run (failingEnv 0) containerMuxer [.header [[1]]]).returned = some none ∧
    (run (failingEnv 0) containerMuxer [.header [[1]]]).state.muxer = none ∧
    (run (failingEnv 0) containerMuxer [.header [[1]]]).state.gof.Streams = [[1]] ∧
    (run (failingEnv 0) containerMuxer
      [.header [[1]], .packet (samplePacket true 0 0 1000)]).returned = none ∧
    (run (failingEnv 1) containerMuxer [.header [[1]]]).state.muxer = none ∧
    (run (failingEnv 1) containerMuxer
      [.header [[1]], .packet (samplePacket true 0 0 1000)]).returned = none := by
  decide

/-! ## Single placeholders -/

/-- Every case of the loop of `filePatch` replaces a token. -/
theorem patchCase_isToken (env : Env) (m : Muxer) (s o n : GoString)
    (h : patchCase env m s = some (o, n)) : isToken o = true := by
  unfold patchCase at h
  iterate 29
    rcases ite_some_cases h with ⟨-, hx⟩ | ⟨-, h⟩
    · obtain ⟨rfl, rfl⟩ := Prod.mk.inj hx
      decide
  cases h

/-- One iteration of the loop of `filePatch` on a template in pieces, whatever
the values. -/
theorem patchStep_pieces (env : Env) (m : Muxer) (ps : List Piece)
    (hps : ∀ p ∈ ps, p.shaped = true) (s : GoString) :
    patchStep env m (render ps) s = render (ps.map (fun p => pieceStep env m p s)) := by
  unfold patchStep pieceStep
  cases h : patchCase env m s with
  | none => simp
  | some pr =>
    obtain ⟨o, n⟩ := pr
    have ho := patchCase_isToken env m s o n h
    have hne : o ≠ [] := by
      obtain ⟨a, rfl, -⟩ := isToken_shape o ho
      exact List.cons_ne_nil _ _
    show strReplace (render ps) o n = render (ps.map (fun p => p.subst o n))
    unfold strReplace
    rw [if_neg hne]
    exact replaceScan_render o n ho ps hps

theorem render_three (a b c : Piece) : render [a, b, c] = a.raw ++ b.raw ++ c.raw := by
  simp [render]

/-- One iteration of the loop on a template with one placeholder between texts
without braces, where the placeholder `t` is replaced by the case of its own
label only, by `v`. -/
theorem patchStep_around (env : Env) (m : Muxer) (pre post t v : GoString)
    (hpre : braceFree pre = true) (hpost : braceFree post = true) (ht : isToken t = true)
    (hself : patchCase env m t = some (t, v))
    (hsel : ∀ s o n, patchCase env m s = some (o, n) → o = t → s = t)
    (s : GoString) :
    patchStep env m (pre ++ t ++ post) s
      = if s = t then pre ++ v ++ post else pre ++ t ++ post := by
  have hr : pre ++ t ++ post = render [.text pre, .tag t, .text post] :=
    (render_three (.text pre) (.tag t) (.text post)).symm
  have hps : ∀ p ∈ [Piece.text pre, Piece.tag t, Piece.text post], p.shaped = true := by
    intro p hp
    simp only [List.mem_cons, List.mem_singleton, List.not_mem_nil, or_false] at hp
    rcases hp with rfl | rfl | rfl
    · exact hpre
    · exact ht
    · exact hpost
  rw [hr, patchStep_pieces env m _ hps s]
  simp only [List.map_cons, List.map_nil, render_three]
  have h1 : ∀ x, pieceStep env m (.text x) s = .text x := fun x =>
    pieceStep_text env m x [s]
  rw [h1, h1]
  by_cases e : s = t
  · rw [if_pos e]
    subst e
    unfold pieceStep
    rw [hself]
    simp [Piece.subst, Piece.raw]
  · rw [if_neg e]
    unfold pieceStep
    cases h : patchCase env m s with
    | none => rfl
    | some pr =>
      obtain ⟨o, n⟩ := pr
      have hot : ¬ (Piece.tag t = Piece.tag o) := fun h2 =>
        e (hsel s o n h (Piece.tag.inj h2).symm)
      simp only [Piece.subst, hot, if_false]

/-- One iteration of the loop on a string without braces. -/
theorem patchStep_plain (env : Env) (m : Muxer) (x : GoString) (hx : braceFree x = true)
    (s : GoString) : patchStep env m x s = x := by
  have hr : x = render [.text x] := by simp [render, Piece.raw]
  have hps : ∀ p ∈ [Piece.text x], p.shaped = true := by
    intro p hp
    rw [List.mem_singleton.1 hp]
    exact hx
  have h := patchStep_pieces env m _ hps s
  rw [← hr] at h
  rw [h]
  simp only [List.map_cons, List.map_nil]
  have h1 : pieceStep env m (.text x) s = .text x := pieceStep_text env m x [s]
  rw [h1]
  exact hr.symm

theorem patchFold_plain (env : Env) (m : Muxer) (x : GoString) (hx : braceFree x = true)
    (l : List GoString) : l.foldl (patchStep env m) x = x := by
  induction l with
  | nil => rfl
  | cons s l ih => rw [List.foldl_cons, patchStep_plain env m x hx s, ih]

/-- The loop of `filePatch`, over any table of labels that has `t`, on a
template with the one placeholder `t` between texts without braces. -/
theorem patchFold_around (env : Env) (m : Muxer) (pre post t v : GoString)
    (hpre : braceFree pre = true) (hpost : braceFree post = true) (ht : isToken t = true)
    (hv : braceFree v = true) (hself : patchCase env m t = some (t, v))
    (hsel : ∀ s o n, patchCase env m s = some (o, n) → o = t → s = t)
    (l : List GoString) (hl : t ∈ l) :
    l.foldl (patchStep env m) (pre ++ t ++ post) = pre ++ v ++ post := by
  induction l with
  | nil => cases hl
  | cons s l ih =>
    rw [List.foldl_cons, patchStep_around env m pre post t v hpre hpost ht hself hsel s]
    by_cases e : s = t
    · rw [if_pos e]
      exact patchFold_plain env m _
        (braceFree_append _ _ (braceFree_append _ _ hpre hv) hpost) l
    · rw [if_neg e]
      rcases List.mem_cons.1 hl with h | h
      · exact absurd h.symm e
      · exact ih h

theorem patchCase_own_label (env : Env) (m : Muxer) (t : GoString)
    (hne : t ≠ "{host_name}".toList) (s o n : GoString)
    (h : patchCase env m s = some (o, n)) (ho : o = t) : s = t := by
  rcases patchCase_old env m s o n h with h1 | h1
  · rw [← h1, ho]
  · exact absurd (ho.symm.trans h1) hne

/-- What `filePatch` returns for a template with one placeholder between texts
without braces, when the placeholder is in `listTag` and the case of its label
replaces it by `v`. -/
theorem filePatch_single (env : Env) (m : Muxer) (pre post t v : GoString)
    (hpre : braceFree pre = true) (hpost : braceFree post = true) (ht : isToken t = true)
    (hne : t ≠ "{host_name}".toList) (hl : t ∈ listTag) (hv : braceFree v = true)
    (hself : patchCase env (filePatch env m).2 t = some (t, v))
    (hp : m.patch = pre ++ t ++ post) : (filePatch env m).1 = pre ++ v ++ post := by
  rw [filePatch_fst, hp]
  unfold patchAll
  exact patchFold_around env _ pre post t v hpre hpost ht hv hself
    (patchCase_own_label env _ t hne) listTag hl

theorem patchCase_end_millisecond (env : Env) (m : Muxer) :
    patchCase env m "{end_millisecond}".toList
      = some ("{end_millisecond}".toList, fmtInt ((m.start.nanosecond.tdiv 1000).tdiv 1000)) := by
  unfold patchCase
  iterate 22 refine ite_step (fun hc => absurd hc (by decide)) (fun _ => ?_)
  exact if_pos rfl

theorem patchCase_start_unix_second (env : Env) (m : Muxer) :
    patchCase env m "{start_unix_second}".toList
      = some ("{start_unix_second}".toList, fmtInt m.end_.unix) := by
  unfold patchCase
  iterate 14 refine ite_step (fun hc => absurd hc (by decide)) (fun _ => ?_)
  exact if_pos rfl

theorem patchCase_start_unix_millisecond (env : Env) (m : Muxer) :
    patchCase env m "{start_unix_millisecond}".toList
      = some ("{start_unix_millisecond}".toList, fmtInt m.end_.unixMilli) := by
  unfold patchCase
  iterate 13 refine ite_step (fun hc => absurd hc (by decide)) (fun _ => ?_)
  exact if_pos rfl

/-- C17: the placeholder `{end_millisecond}` is resolved from the start time.
For every session and every template made of `{end_millisecond}` between two
texts without braces (both may be empty), `filePatch` refreshes the end time to
the clock reading and returns the template with the placeholder replaced by the
decimal millisecond within the second of the start time. -/
theorem end_millisecond_from_start (env : Env) (m : Muxer) (pre post : GoString)
    (hpre : braceFree pre = true) (hpost : braceFree post = true)
    (hp : m.patch = pre ++ "{end_millisecond}".toList ++ post) :
    (filePatch env m).1 = pre ++ fmtInt ((m.start.nanosecond.tdiv 1000).tdiv 1000) ++ post ∧
    (filePatch env m).2.end_ = env.now m.clock ∧ (filePatch env m).2.start = m.start :=
  ⟨filePatch_single env m pre post _ _ hpre hpost (by decide) (by decide) (by decide)
    (fmtInt_braceFree _) (patchCase_end_millisecond env _) hp, rfl, rfl⟩

set_option maxRecDepth 100000 in
/-- C17 at a sample: the segment started at millisecond 123 of its second, the
clock reads a full second, and the template `{end_millisecond}` yields `123`. -/
theorem end_millisecond_from_start_witness :
    (stampedMuxer "{end_millisecond}".toList).start.nanosecond = 123000000 ∧
    (sampleEnv.now (stampedMuxer "{end_millisecond}".toList).clock).nanosecond = 0 ∧
    (filePatch sampleEnv (stampedMuxer "{end_millisecond}".toList)).1 = "123".toList ∧
    (filePatch sampleEnv (stampedMuxer "{end_millisecond}".toList)).1
      = [] ++ fmtInt (((stampedMuxer "{end_millisecond}".toList).start.nanosecond.tdiv 1000).tdiv
          1000) ++ [] ∧
    (filePatch sampleEnv (stampedMuxer "{end_millisecond}".toList)).2.end_
      = sampleEnv.now (stampedMuxer "{end_millisecond}".toList).clock ∧
    (filePatch sampleEnv (stampedMuxer "{end_millisecond}".toList)).2.start
      = (stampedMuxer "{end_millisecond}".toList).start :=
  ⟨by decide, by decide, by decide,
   end_millisecond_from_start sampleEnv (stampedMuxer "{end_millisecond}".toList) [] []
     rfl rfl rfl⟩

/-- C19: the placeholders `{start_unix_second}` and `{start_unix_millisecond}`
are resolved from the end time. For every session and clock, and every template
made of one of the two placeholders between two texts without braces (both may
be empty), `filePatch` sets the end time to the clock reading `now` of this
invocation and returns the template with the placeholder replaced by the Unix
seconds, or milliseconds, of `now`; the start time is not used. -/
theorem start_unix_from_end (env : Env) (m : Muxer) (pre post : GoString)
    (hpre : braceFree pre = true) (hpost : braceFree post = true) :
    (filePatch env m).2.end_ = env.now m.clock ∧
    (m.patch = pre ++ "{start_unix_second}".toList ++ post →
      (filePatch env m).1 = pre ++ fmtInt (env.now m.clock).unix ++ post) ∧
    (m.patch = pre ++ "{start_unix_millisecond}".toList ++ post →
      (filePatch env m).1 = pre ++ fmtInt (env.now m.clock).unixMilli ++ post) :=
  ⟨rfl,
   fun hp => filePatch_single env m pre post _ _ hpre hpost (by decide) (by decide) (by decide)
    (fmtInt_braceFree _) (patchCase_start_unix_second env _) hp,
   fun hp => filePatch_single env m pre post _ _ hpre hpost (by decide) (by decide) (by decide)
    (fmtInt_braceFree _) (patchCase_start_unix_millisecond env _) hp⟩

set_option maxRecDepth 100000 in
/-- C19 at a sample: the segment started at 1709633729.123 and the clock reads
1709633730. -/
theorem start_unix_from_end_witness :
    (stampedMuxer "{start_unix_second}".toList).start.unix = 1709633729 ∧
    (sampleEnv.now (stampedMuxer "{start_unix_second}".toList).clock).unix = 1709633730 ∧
    (filePatch sampleEnv (stampedMuxer "{start_unix_second}".toList)).1
      = "1709633730".toList ∧
    (filePatch sampleEnv (stampedMuxer "{start_unix_millisecond}".toList)).1
      = "1709633730000".toList ∧
    (filePatch sampleEnv (stampedMuxer "{start_unix_second}".toList)).1
      = [] ++ fmtInt (sampleEnv.now (stampedMuxer "{start_unix_second}".toList).clock).unix
        ++ [] ∧
    (filePatch sampleEnv (stampedMuxer "{start_unix_millisecond}".toList)).1
      = [] ++ fmtInt
          (sampleEnv.now (stampedMuxer "{start_unix_millisecond}".toList).clock).unixMilli
        ++ [] :=
  ⟨by decide, by decide, by decide, by decide,
   (start_unix_from_end sampleEnv (stampedMuxer "{start_unix_second}".toList) [] []
     rfl rfl).2.1 rfl,
   (start_unix_from_end sampleEnv (stampedMuxer "{start_unix_millisecond}".toList) [] []
     rfl rfl).2.2 rfl⟩

/-! ## The final path of a rotated segment -/

theorem renameFile_trace (env : Env) (s : Muxer) (src dst : GoString) :
    ∃ ok, (renameFile env s src dst).2.trace = s.trace ++ [.rename src dst ok] := by
  unfold renameFile
  split
  · exact ⟨false, rfl⟩
  · dsimp only
    split
    · split
      · exact ⟨_, rfl⟩
      · exact ⟨_, rfl⟩
    · exact ⟨_, rfl⟩

/-- In the format `mp4`, the part of `WriteTrailer` for the data file calls
`os.MkdirAll` for the directory of the path `filePatch` returns, and when that
succeeds, `os.Rename` to that path. -/
theorem finishData_path (env : Env) (t : Muxer) (f : File) (hf : t.format = MP4) :
    ∃ post, (finishData env t f).1.trace
        = t.trace ++ .mkdirAll (env.dir (filePatch env t).1) (env.ioOk t.ops) :: post ∧
      (env.ioOk t.ops = true →
        ∃ ok post2, post = .rename f.name (filePatch env t).1 ok :: post2) := by
  unfold finishData
  rw [if_pos hf]
  dsimp only
  have hcall : ((filePatch env t).2.call env).1 = env.ioOk t.ops := rfl
  split
  · rename_i hok
    obtain ⟨ok2, h2⟩ := renameFile_trace env
      (((filePatch env t).2.call env).2.emit
        (.mkdirAll (env.dir (filePatch env t).1) ((filePatch env t).2.call env).1))
      f.name (filePatch env t).1
    split
    · obtain ⟨e3, h3, -⟩ := (closeData_frame env (renameFile env
        (((filePatch env t).2.call env).2.emit
          (.mkdirAll (env.dir (filePatch env t).1) ((filePatch env t).2.call env).1))
        f.name (filePatch env t).1).2 f).trace
      refine ⟨.rename f.name (filePatch env t).1 ok2 :: e3, ?_, fun _ => ⟨ok2, e3, rfl⟩⟩
      rw [h3, h2, hcall]
      show (t.trace ++ [_]) ++ [_] ++ e3 = _
      simp
    · refine ⟨[.rename f.name (filePatch env t).1 ok2], ?_, fun _ => ⟨ok2, [], rfl⟩⟩
      rw [h2, hcall]
      show (t.trace ++ [_]) ++ [_] = _
      simp
  · rename_i hok
    refine ⟨[], ?_, fun h => absurd (hcall.trans h) hok⟩
    rw [hcall]
    rfl

theorem rotationPoint_frame (env : Env) (s : Muxer) (pkt : Packet) :
    ∃ evs, (rotationPoint env s pkt).trace = s.trace ++ .enterOpenMP4 :: evs ∧
      (∀ e ∈ evs, e.isClosing = true) ∧
      (rotationPoint env s pkt).pstart = pkt.Time ∧ (rotationPoint env s pkt).pend = s.pend ∧
      (rotationPoint env s pkt).dur = s.dur ∧ (rotationPoint env s pkt).patch = s.patch ∧
      (rotationPoint env s pkt).format = s.format ∧ (rotationPoint env s pkt).d = s.d := by
  have h := (trailerMuxer_closing env (({ s with pstart := pkt.Time } : Muxer).emit
    .enterOpenMP4)).trans (closeIndex_closing env _)
  obtain ⟨evs, ht, hp⟩ := h.trace
  refine ⟨evs, ?_, hp, h.pstart, h.pend, h.dur, h.patch, h.format, ?_⟩
  · unfold rotationPoint
    rw [ht]
    show (s.trace ++ [Event.enterOpenMP4]) ++ evs = _
    simp
  · unfold rotationPoint
    rw [(closeIndex_handles env _).2.1, (trailerMuxer_handles env _).2.2.1]
    rfl

/-- The trace of the `WritePacket` of a keyframe that triggers a rotation. -/
theorem rotation_trace (env : Env) (s : Muxer) (pkt : Packet) (f : File)
    (hf : s.format = MP4) (hs : s.gof.Streams ≠ []) (hst : s.started = true)
    (hd : s.d = some f) (hk : pkt.IsKeyFrame = true) (hdur : s.dur > wrap64 (s.limit * Second)) :
    ∃ evs post, (WritePacket env s pkt).state.trace = s.trace ++ .enterOpenMP4 :: evs ++
        .mkdirAll (env.dir (filePatch env (rotationPoint env s pkt)).1)
          (env.ioOk (rotationPoint env s pkt).ops) :: post ∧
      (∀ e ∈ evs, e.isClosing = true) ∧
      (env.ioOk (rotationPoint env s pkt).ops = true → ∃ ok post2,
        post = .rename f.name (filePatch env (rotationPoint env s pkt)).1 ok :: post2) := by
  obtain ⟨evs, ht, hp, -, -, -, -, hfmt, hdd⟩ := rotationPoint_frame env s pkt
  obtain ⟨post, h1, h2⟩ := finishData_path env (rotationPoint env s pkt) f (hfmt.trans hf)
  have hW : (WriteTrailer env (({ s with pstart := pkt.Time } : Muxer).emit .enterOpenMP4)).1
      = (finishData env (rotationPoint env s pkt) f).1 := by
    have hd2 : (closeIndex env (trailerMuxer env (({ s with pstart := pkt.Time } : Muxer).emit
        .enterOpenMP4))).1.d = some f := by
      have := hdd
      unfold rotationPoint at this
      rw [this, hd]
    unfold WriteTrailer
    dsimp only
    rw [hd2]
    rfl
  obtain ⟨e2, ht2, -⟩ := (openSegment_frame env
    (WriteTrailer env (({ s with pstart := pkt.Time } : Muxer).emit .enterOpenMP4)).1).trace
  have hrot : (rotate env s pkt).trace
      = (finishData env (rotationPoint env s pkt) f).1.trace ++ e2 := by
    unfold rotate
    rw [if_pos ⟨hk, hdur⟩]
    show (OpenMP4 env _).1.trace = _
    unfold OpenMP4
    rw [ht2, hW]
  rw [WritePacket_started_container env s pkt hf hs hst]
  unfold writePacketMP4
  rcases (forwardPacket_frame env (rotate env s pkt) pkt).1 with h3 | ⟨id, ok, h3⟩
  · refine ⟨evs, post ++ e2, ?_, hp, ?_⟩
    · rw [h3, hrot, h1, ht]
      simp
    · intro hok
      obtain ⟨ok2, post2, hpost⟩ := h2 hok
      exact ⟨ok2, post2 ++ e2, by rw [hpost]; rfl⟩
  · refine ⟨evs, post ++ e2 ++ [.muxPacket id pkt ok], ?_, hp, ?_⟩
    · rw [h3, hrot, h1, ht]
      simp
    · intro hok
      obtain ⟨ok2, post2, hpost⟩ := h2 hok
      exact ⟨ok2, post2 ++ e2 ++ [.muxPacket id pkt ok], by rw [hpost]; rfl⟩

theorem patchCase_start_pts (env : Env) (m : Muxer) :
    patchCase env m "{start_pts}".toList
      = some ("{start_pts}".toList, fmtInt (durMilliseconds m.pstart)) := by
  unfold patchCase
  iterate 16 refine ite_step (fun hc => absurd hc (by decide)) (fun _ => ?_)
  exact if_pos rfl

theorem patchCase_end_pts (env : Env) (m : Muxer) :
    patchCase env m "{end_pts}".toList
      = some ("{end_pts}".toList, fmtInt (durMilliseconds m.pend)) := by
  unfold patchCase
  iterate 26 refine ite_step (fun hc => absurd hc (by decide)) (fun _ => ?_)
  exact if_pos rfl

theorem patchCase_duration_second (env : Env) (m : Muxer) :
    patchCase env m "{duration_second}".toList
      = some ("{duration_second}".toList, env.fmtSeconds m.dur) := by
  unfold patchCase
  iterate 27 refine ite_step (fun hc => absurd hc (by decide)) (fun _ => ?_)
  exact if_pos rfl

theorem patchCase_duration_millisecond (env : Env) (m : Muxer) :
    patchCase env m "{duration_millisecond}".toList
      = some ("{duration_millisecond}".toList, fmtInt (durMilliseconds m.dur)) := by
  unfold patchCase
  iterate 28 refine ite_step (fun hc => absurd hc (by decide)) (fun _ => ?_)
  exact if_pos rfl

theorem forwardPacket_dur (env : Env) (s : Muxer) (pkt : Packet) :
    (forwardPacket env s pkt).state.dur = wrap64 (s.dur + pkt.Duration) ∧
      (forwardPacket env s pkt).state.pend = pkt.Time := by
  unfold forwardPacket
  dsimp only
  split <;> exact ⟨rfl, rfl⟩

/-- C20: the final path of a segment finished by a rotation. In a started
container session with codec parameters and a data file `f`, let a keyframe
`pkt` arrive when the accumulated duration exceeds the limit. `WritePacket`
enters `OpenMP4`, and after calls that only close (the trailer of the muxer,
the index file) it calls `os.MkdirAll` for the directory of the path that
`filePatch` returns in the session `rotationPoint`, then, if that succeeded,
`os.Rename` from the temporary file to that path. In `rotationPoint` the start
timestamp is already that of `pkt`, while the end timestamp and the
accumulated duration are still those of the finished segment: in a template
with one placeholder between texts without braces, `{start_pts}` gives the
milliseconds of the timestamp of `pkt`, `{end_pts}` those of the end timestamp
before the call, `{duration_millisecond}` and `{duration_second}` the
accumulated duration before the call. When the call is over the accumulated
duration is that of `pkt` alone. -/
theorem rotation_final_path (env : Env) (s : Muxer) (pkt : Packet) (f : File)
    (hf : s.format = MP4) (hs : s.gof.Streams ≠ []) (hst : s.started = true)
    (hd : s.d = some f) (hk : pkt.IsKeyFrame = true) (hdur : s.dur > wrap64 (s.limit * Second)) :
    (∃ evs post, (WritePacket env s pkt).state.trace = s.trace ++ .enterOpenMP4 :: evs ++
        .mkdirAll (env.dir (filePatch env (rotationPoint env s pkt)).1)
          (env.ioOk (rotationPoint env s pkt).ops) :: post ∧
      (∀ e ∈ evs, e.isClosing = true) ∧
      (env.ioOk (rotationPoint env s pkt).ops = true → ∃ ok post2,
        post = .rename f.name (filePatch env (rotationPoint env s pkt)).1 ok :: post2)) ∧
    ((rotationPoint env s pkt).pstart = pkt.Time ∧ (rotationPoint env s pkt).pend = s.pend ∧
      (rotationPoint env s pkt).dur = s.dur) ∧
    (∀ pre post : GoString, braceFree pre = true → braceFree post = true →
      (s.patch = pre ++ "{start_pts}".toList ++ post →
        (filePatch env (rotationPoint env s pkt)).1
          = pre ++ fmtInt (durMilliseconds pkt.Time) ++ post) ∧
      (s.patch = pre ++ "{end_pts}".toList ++ post →
        (filePatch env (rotationPoint env s pkt)).1
          = pre ++ fmtInt (durMilliseconds s.pend) ++ post) ∧
      (s.patch = pre ++ "{duration_millisecond}".toList ++ post →
        (filePatch env (rotationPoint env s pkt)).1
          = pre ++ fmtInt (durMilliseconds s.dur) ++ post) ∧
      (braceFree (env.fmtSeconds s.dur) = true →
        s.patch = pre ++ "{duration_second}".toList ++ post →
        (filePatch env (rotationPoint env s pkt)).1 = pre ++ env.fmtSeconds s.dur ++ post)) ∧
    (WritePacket env s pkt).state.dur = wrap64 (0 + pkt.Duration) ∧
    (WritePacket env s pkt).state.pend = pkt.Time := by
  obtain ⟨-, -, -, hps, hpe, hpd, hpp, -, -⟩ := rotationPoint_frame env s pkt
  have e1 : (filePatch env (rotationPoint env s pkt)).2.pstart = pkt.Time := hps
  have e2 : (filePatch env (rotationPoint env s pkt)).2.pend = s.pend := hpe
  have e3 : (filePatch env (rotationPoint env s pkt)).2.dur = s.dur := hpd
  refine ⟨rotation_trace env s pkt f hf hs hst hd hk hdur, ⟨hps, hpe, hpd⟩, ?_, ?_⟩
  · intro pre post hpre hpost
    refine ⟨fun hp => ?_, fun hp => ?_, fun hp => ?_, fun hv hp => ?_⟩
    · have h := patchCase_start_pts env (filePatch env (rotationPoint env s pkt)).2
      rw [e1] at h
      exact filePatch_single env _ pre post _ _ hpre hpost (by decide) (by decide) (by decide)
        (fmtInt_braceFree _) h (hpp.trans hp)
    · have h := patchCase_end_pts env (filePatch env (rotationPoint env s pkt)).2
      rw [e2] at h
      exact filePatch_single env _ pre post _ _ hpre hpost (by decide) (by decide) (by decide)
        (fmtInt_braceFree _) h (hpp.trans hp)
    · have h := patchCase_duration_millisecond env (filePatch env (rotationPoint env s pkt)).2
      rw [e3] at h
      exact filePatch_single env _ pre post _ _ hpre hpost (by decide) (by decide) (by decide)
        (fmtInt_braceFree _) h (hpp.trans hp)
    · have h := patchCase_duration_second env (filePatch env (rotationPoint env s pkt)).2
      rw [e3] at h
      exact filePatch_single env _ pre post _ _ hpre hpost (by decide) (by decide) (by decide)
        hv h (hpp.trans hp)
  · rw [WritePacket_started_container env s pkt hf hs hst]
    unfold writePacketMP4
    have hr : (rotate env s pkt).dur = 0 := by
      unfold rotate
      rw [if_pos ⟨hk, hdur⟩]
    have h := forwardPacket_dur env (rotate env s pkt) pkt
    rw [hr] at h
    exact h

set_option maxRecDepth 100000 in
/-- C20 at a sample: after a keyframe of eleven seconds at timestamp 0, the
keyframe at 11000 ms triggers a rotation, and the finished segment gets the
path `/rec/11000-0-11000.mp4` from the template
`/rec/{start_pts}-{end_pts}-{duration_millisecond}.mp4`. -/
theorem rotation_final_path_witness :
    beforeRotation.d = some ⟨"/rec/tmp.mp4".toList, false⟩ ∧
    beforeRotation.pstart = 0 ∧ beforeRotation.pend = 0 ∧ beforeRotation.dur = 11000000000 ∧
    (filePatch sampleEnv
      (rotationPoint sampleEnv beforeRotation (samplePacket true 0 11000 1000))).1
      = "/rec/11000-0-11000.mp4".toList ∧
    (WritePacket sampleEnv beforeRotation (samplePacket true 0 11000 1000)).state.trace.drop 5
      = [.enterOpenMP4, .muxTrailer 0 true, .mkdirAll "/rec".toList true,
         .rename "/rec/tmp.mp4".toList "/rec/11000-0-11000.mp4".toList true,
         .close "/rec/tmp.mp4".toList true, .mkdirAll "/rec".toList true,
         .create "/rec/tmp.mp4".toList true, .muxHeader 1 [[1]] true,
         .muxPacket 1 (samplePacket true 0 11000 1000) true] ∧
    ((rotationPoint sampleEnv beforeRotation (samplePacket true 0 11000 1000)).pstart
        = (samplePacket true 0 11000 1000).Time ∧
      (rotationPoint sampleEnv beforeRotation (samplePacket true 0 11000 1000)).pend
        = beforeRotation.pend ∧
      (rotationPoint sampleEnv beforeRotation (samplePacket true 0 11000 1000)).dur
        = beforeRotation.dur) ∧
    (WritePacket sampleEnv beforeRotation (samplePacket true 0 11000 1000)).state.dur
      = wrap64 (0 + (samplePacket true 0 11000 1000).Duration) :=
  ⟨by decide, by decide, by decide, by decide, by decide, by decide,
   (rotation_final_path sampleEnv beforeRotation (samplePacket true 0 11000 1000)
      ⟨"/rec/tmp.mp4".toList, false⟩ (by decide) (by decide) (by decide) (by decide) rfl
      (by decide)).2.1,
   (rotation_final_path sampleEnv beforeRotation (samplePacket true 0 11000 1000)
      ⟨"/rec/tmp.mp4".toList, false⟩ (by decide) (by decide) (by decide) (by decide) rfl
      (by decide)).2.2.2.1⟩

end Nvr
